import Mathlib

/-!
Verification development for the graph-construction pipeline of the Agent2
repository (`src/agent/parser/cfg_builder.py`, `src/agent/parser/call_graph.py`,
`src/agent/parser/module_analyzer.py`, `src/agent/ir/ast_to_ir.py`,
`src/agent/ir/ir_schema.py`, `src/agent/ir/ir_serializer.py`).

The Python code is shallowly embedded: dictionaries become association lists,
`networkx.DiGraph` becomes an insertion-ordered node/edge list with the
documented networkx update semantics (adding an existing node or edge updates
its attribute mapping in place and keeps its position; a `DiGraph` never holds
two parallel edges with the same ordered endpoints), and stateful methods
thread their state explicitly.
-/

/-- Python `a or b` on strings: `b` when `a` is falsy (the empty string). -/
def py_or_str (a b : String) : String := if a = "" then b else a

/-- Python `needle in haystack` for strings (substring containment). -/
def py_in_str (needle haystack : String) : Bool :=
  decide (needle.data <:+: haystack.data)

/-!
## AST model

`ASTExtractor._extract_ast_structure` (src/agent/parser/ast_extractor.py)
produces nested dictionaries that always carry the keys `type`, `text`,
`start_point` (with a `row`), and `children`; a `function_definition` node
additionally carries a `function` summary whose `name` is the declared name.
We model exactly the projections the CFG / call-graph builders read:
`function = some n` stands for a node whose `function` summary has name `n`.
-/

inductive ASTNode where
  | mk (type : String) (text : String) (function : Option String)
       (row : Nat) (children : List ASTNode)

def ASTNode.astType : ASTNode → String
  | .mk t _ _ _ _ => t

def ASTNode.astText : ASTNode → String
  | .mk _ tx _ _ _ => tx

def ASTNode.astFun : ASTNode → Option String
  | .mk _ _ f _ _ => f

def ASTNode.astRow : ASTNode → Nat
  | .mk _ _ _ r _ => r

def ASTNode.astChildren : ASTNode → List ASTNode
  | .mk _ _ _ _ cs => cs

mutual

/-- Size measure used for termination of the statement-block recursion. -/
def astSize : ASTNode → Nat
  | .mk _ _ _ _ cs => 1 + astSizeList cs

def astSizeList : List ASTNode → Nat
  | [] => 0
  | c :: cs => astSize c + astSizeList cs

end

theorem astSize_pos (n : ASTNode) : 0 < astSize n := by
  cases n with
  | mk t tx f r cs => simp [astSize]

theorem astSize_eq (n : ASTNode) : astSize n = 1 + astSizeList n.astChildren := by
  cases n with
  | mk t tx f r cs => rfl

theorem astSizeList_append (l₁ l₂ : List ASTNode) :
    astSizeList (l₁ ++ l₂) = astSizeList l₁ + astSizeList l₂ := by
  induction l₁ with
  | nil => simp [astSizeList]
  | cons c cs ih => simp [astSizeList, ih]; omega

theorem astSize_le_of_mem {c : ASTNode} {cs : List ASTNode} (h : c ∈ cs) :
    astSize c ≤ astSizeList cs := by
  induction cs with
  | nil => cases h
  | cons d ds ih =>
    rcases List.mem_cons.mp h with rfl | h
    · simp [astSizeList]
    · have := ih h
      simp [astSizeList]; omega

/-!
## networkx-style directed graph

Nodes are an insertion-ordered list of `(id, attributes)`; edges an
insertion-ordered list of `(source, target, attributes)` with at most one edge
per ordered pair.  `addNode` on an existing id replaces the attributes in
place (all call sites supply every attribute key, so dict-update equals
replacement); `addEdge` inserts missing endpoints with the empty attribute
mapping (`Inhabited.default`), exactly as `networkx.DiGraph.add_edge` does,
and on an existing ordered pair replaces the edge attributes in place.
-/

structure NxDiGraph (α β : Type) where
  nodes : List (String × α) := []
  edges : List (String × String × β) := []
deriving DecidableEq

def NxDiGraph.hasNode (g : NxDiGraph α β) (id : String) : Bool :=
  g.nodes.any (fun p => p.1 == id)

def NxDiGraph.hasEdge (g : NxDiGraph α β) (u v : String) : Bool :=
  g.edges.any (fun e => e.1 == u && e.2.1 == v)

def NxDiGraph.addNode (g : NxDiGraph α β) (id : String) (a : α) : NxDiGraph α β :=
  if g.hasNode id then
    { g with nodes := g.nodes.map (fun p => if p.1 == id then (id, a) else p) }
  else
    { g with nodes := g.nodes ++ [(id, a)] }

def NxDiGraph.addEdge [Inhabited α] (g : NxDiGraph α β) (u v : String) (b : β) :
    NxDiGraph α β :=
  let g := if g.hasNode u then g else { g with nodes := g.nodes ++ [(u, default)] }
  let g := if g.hasNode v then g else { g with nodes := g.nodes ++ [(v, default)] }
  if g.hasEdge u v then
    { g with edges := g.edges.map (fun e => if e.1 == u && e.2.1 == v then (u, v, b) else e) }
  else
    { g with edges := g.edges ++ [(u, v, b)] }

def NxDiGraph.nodeIds (g : NxDiGraph α β) : List String := g.nodes.map (·.1)

def NxDiGraph.lookupNode (g : NxDiGraph α β) (id : String) : Option α :=
  (g.nodes.find? (fun p => p.1 == id)).map (·.2)

/-- `list(g.successors(u))`: targets of the out-edges of `u`, in adjacency
insertion order. -/
def NxDiGraph.successors (g : NxDiGraph α β) (u : String) : List String :=
  (g.edges.filter (fun e => e.1 == u)).map (·.2.1)

/-- Attributes of the edge `u → v`, when present. -/
def NxDiGraph.edgeAttr (g : NxDiGraph α β) (u v : String) : Option β :=
  (g.edges.find? (fun e => e.1 == u && e.2.1 == v)).map (·.2.2)

/-!
## CFG Builder (src/agent/parser/cfg_builder.py)

`CFGNode.to_dict` flattens a node into the attribute keys
`id/type/label/file/line/metadata`; `metadata` is always the empty dict during
construction and is omitted.  The empty attribute mapping that
`DiGraph.add_edge` would attach to an auto-inserted endpoint is modelled by
`default`; every `add_edge` call in `cfg_builder.py` happens after both
endpoints were added, so this default is never observable.
-/

structure CFGAttrs where
  id : String
  type : String
  label : String
  file : Option String := none
  line : Option Nat := none
deriving DecidableEq

instance : Inhabited CFGAttrs := ⟨{ id := "", type := "", label := "" }⟩

def Cfg := NxDiGraph CFGAttrs String
deriving DecidableEq

instance : Inhabited Cfg := ⟨({} : NxDiGraph CFGAttrs String)⟩

def Cfg.addNode (g : Cfg) (id : String) (a : CFGAttrs) : Cfg :=
  NxDiGraph.addNode g id a

def Cfg.addEdge (g : Cfg) (u v t : String) : Cfg :=
  NxDiGraph.addEdge g u v t

def Cfg.nodes (g : Cfg) : List (String × CFGAttrs) := NxDiGraph.nodes g

def Cfg.edges (g : Cfg) : List (String × String × String) := NxDiGraph.edges g

/-- `CFGBuilder._create_statement_node`: a fresh node
`{function_name}_stmt_{counter}`, and the incremented builder counter. -/
def create_statement_node (stmt : ASTNode) (node_type label function_name file_path : String)
    (counter : Nat) : CFGAttrs × Nat :=
  let node_id := function_name ++ "_stmt_" ++ toString counter
  ({ id := node_id, type := node_type, label := label,
     file := some file_path, line := some (stmt.astRow + 1) }, counter + 1)

/-- `CFGBuilder._get_statement_label`. -/
def get_statement_label (stmt : ASTNode) : String :=
  let text := stmt.astText
  if text.length > 50 then text.take 47 ++ "..."
  else py_or_str text.trim "Statement"

/-- `CFGBuilder._extract_condition`: text of the first
`parenthesized_expression` child, truncated to 50 characters. -/
def extract_condition (if_node : ASTNode) : String :=
  match if_node.astChildren.find? (fun c => c.astType == "parenthesized_expression") with
  | some c => c.astText.take 50
  | none => "condition"

/-- Statement kinds kept by `CFGBuilder._extract_statements`. -/
def statement_types : List String :=
  ["if_statement", "for_statement", "while_statement",
   "return_statement", "expression_statement", "declaration"]

/-- `CFGBuilder._extract_statements`, applied to a child list: keeps the
recognized statement kinds and flattens nested `compound_statement`s. -/
def extract_statements_list : List ASTNode → List ASTNode
  | [] => []
  | ASTNode.mk t tx f r cs :: rest =>
    if t ∈ statement_types then ASTNode.mk t tx f r cs :: extract_statements_list rest
    else if t = "compound_statement" then
      extract_statements_list cs ++ extract_statements_list rest
    else extract_statements_list rest

def extract_statements (block : ASTNode) : List ASTNode :=
  extract_statements_list block.astChildren

theorem astSizeList_extract_le (cs : List ASTNode) :
    astSizeList (extract_statements_list cs) ≤ astSizeList cs := by
  induction cs using extract_statements_list.induct with
  | case1 => simp [extract_statements_list]
  | case2 t tx f r cs rest h ih =>
    simp only [extract_statements_list, if_pos h, astSizeList]
    omega
  | case3 tx f r cs rest h ih1 ih2 =>
    simp only [extract_statements_list, if_neg h, if_true, eq_self_iff_true]
    rw [astSizeList_append]
    simp only [astSizeList, astSize]
    omega
  | case4 t tx f r cs rest h h2 ih =>
    simp only [extract_statements_list, if_neg h, if_neg h2, astSizeList]
    omega

/-- `CFGBuilder._process_if_statement`'s scan for the `then` and `else`
blocks: the first `compound_statement` child becomes `then`, every later one
overwrites `else`. -/
def find_then_else (cs : List ASTNode) (acc : Option ASTNode × Option ASTNode) :
    Option ASTNode × Option ASTNode :=
  match cs with
  | [] => acc
  | c :: rest =>
    if c.astType = "compound_statement" then
      match acc.1 with
      | none => find_then_else rest (some c, acc.2)
      | some t => find_then_else rest (some t, some c)
    else find_then_else rest acc

theorem find_then_else_fst_mem (cs : List ASTNode) (a1 a2 : Option ASTNode)
    (t : ASTNode) (h : (find_then_else cs (a1, a2)).1 = some t) :
    a1 = some t ∨ t ∈ cs := by
  induction cs generalizing a1 a2 with
  | nil => exact Or.inl h
  | cons c rest ih =>
    simp only [find_then_else] at h
    by_cases hc : c.astType = "compound_statement"
    · rw [if_pos hc] at h
      cases a1 with
      | none =>
        rcases ih _ _ h with h1 | h1
        · simp at h1; subst h1; exact Or.inr (List.mem_cons_self _ _)
        · exact Or.inr (List.mem_cons_of_mem _ h1)
      | some a =>
        rcases ih _ _ h with h1 | h1
        · exact Or.inl h1
        · exact Or.inr (List.mem_cons_of_mem _ h1)
    · rw [if_neg hc] at h
      rcases ih _ _ h with h1 | h1
      · exact Or.inl h1
      · exact Or.inr (List.mem_cons_of_mem _ h1)

theorem find_then_else_snd_mem (cs : List ASTNode) (a1 a2 : Option ASTNode)
    (e : ASTNode) (h : (find_then_else cs (a1, a2)).2 = some e) :
    a2 = some e ∨ e ∈ cs := by
  induction cs generalizing a1 a2 with
  | nil => exact Or.inl h
  | cons c rest ih =>
    simp only [find_then_else] at h
    by_cases hc : c.astType = "compound_statement"
    · rw [if_pos hc] at h
      cases a1 with
      | none =>
        rcases ih _ _ h with h1 | h1
        · exact Or.inl h1
        · exact Or.inr (List.mem_cons_of_mem _ h1)
      | some a =>
        rcases ih _ _ h with h1 | h1
        · simp at h1; subst h1; exact Or.inr (List.mem_cons_self _ _)
        · exact Or.inr (List.mem_cons_of_mem _ h1)
    · rw [if_neg hc] at h
      rcases ih _ _ h with h1 | h1
      · exact Or.inl h1
      · exact Or.inr (List.mem_cons_of_mem _ h1)

/-- The scan for the loop body in `_process_for_loop` / `_process_while_loop`:
the first `compound_statement` child. -/
def find_first_compound (cs : List ASTNode) : Option ASTNode :=
  cs.find? (fun c => c.astType == "compound_statement")

theorem find_first_compound_mem {cs : List ASTNode} {b : ASTNode}
    (h : find_first_compound cs = some b) : b ∈ cs :=
  List.mem_of_find?_eq_some h

theorem extract_statements_size_lt (b : ASTNode) :
    astSizeList (extract_statements_list b.astChildren) < astSize b := by
  have h := astSizeList_extract_le b.astChildren
  rw [astSize_eq]
  omega

theorem astSize_child_lt {b n : ASTNode} (h : b ∈ n.astChildren) :
    astSize b < astSize n := by
  have := astSize_le_of_mem h
  rw [astSize_eq n]
  omega

theorem lex_left_lt {a b c d : Nat} (h : a < c) :
    Prod.Lex (fun x y => x < y) (fun x y => x < y) (a, b) (c, d) :=
  Prod.Lex.left _ _ h

theorem lex_head_call (c : ASTNode) (cs : List ASTNode) :
    Prod.Lex (fun x y => x < y) (fun x y => x < y)
      (astSize c, 0) (astSizeList (c :: cs), cs.length + 1) := by
  rcases Nat.eq_zero_or_pos (astSizeList cs) with h | h
  · have he : astSizeList (c :: cs) = astSize c := by simp [astSizeList, h]
    rw [he]
    exact Prod.Lex.right _ (Nat.succ_pos _)
  · refine Prod.Lex.left _ _ ?_
    simp [astSizeList]
    omega

theorem lex_tail_call (c : ASTNode) (cs : List ASTNode) :
    Prod.Lex (fun x y => x < y) (fun x y => x < y)
      (astSizeList cs, cs.length) (astSizeList (c :: cs), cs.length + 1) := by
  refine Prod.Lex.left _ _ ?_
  have := astSize_pos c
  simp [astSizeList]
  omega

mutual

/-- The statement loop of `CFGBuilder._process_statement_block` (lines
126-158): threads the frontier `current_node_id`; a `return_statement`
returns early, dropping the remaining statements of the block. -/
def process_statements (stmts : List ASTNode)
    (current_node_id exit_id function_name file_path : String)
    (cfg : Cfg) (counter : Nat) : String × Cfg × Nat :=
  match stmts with
  | [] => (current_node_id, cfg, counter)
  | stmt :: rest =>
    if stmt.astType = "if_statement" then
      let r := process_if_statement stmt current_node_id exit_id function_name file_path cfg counter
      process_statements rest r.1 exit_id function_name file_path r.2.1 r.2.2
    else if stmt.astType = "for_statement" then
      let r := process_for_loop stmt current_node_id exit_id function_name file_path cfg counter
      process_statements rest r.1 exit_id function_name file_path r.2.1 r.2.2
    else if stmt.astType = "while_statement" then
      let r := process_while_loop stmt current_node_id exit_id function_name file_path cfg counter
      process_statements rest r.1 exit_id function_name file_path r.2.1 r.2.2
    else if stmt.astType = "return_statement" then
      let p := create_statement_node stmt "return" "Return" function_name file_path counter
      let cfg := ((cfg.addNode p.1.id p.1).addEdge current_node_id p.1.id "normal").addEdge
        p.1.id exit_id "return"
      (p.1.id, cfg, p.2)
    else
      let p := create_statement_node stmt "statement" (get_statement_label stmt)
        function_name file_path counter
      let cfg := (cfg.addNode p.1.id p.1).addEdge current_node_id p.1.id "normal"
      process_statements rest p.1.id exit_id function_name file_path cfg p.2
termination_by (astSizeList stmts, stmts.length)
decreasing_by
  all_goals simp_wf
  all_goals first
    | exact lex_head_call _ _
    | exact lex_tail_call _ _

/-- `CFGBuilder._process_statement_block`: extracts the statement list of a
block and runs the statement loop (an empty list returns `entry_id`). -/
def process_statement_block (block_node : ASTNode)
    (entry_id exit_id function_name file_path : String)
    (cfg : Cfg) (counter : Nat) : String × Cfg × Nat :=
  process_statements (extract_statements block_node) entry_id exit_id
    function_name file_path cfg counter
termination_by (astSize block_node, 0)
decreasing_by
  all_goals simp_wf
  exact lex_left_lt (extract_statements_size_lt _)

/-- `CFGBuilder._process_if_statement`. -/
def process_if_statement (if_node : ASTNode)
    (entry_id exit_id function_name file_path : String)
    (cfg : Cfg) (counter : Nat) : String × Cfg × Nat :=
  let condition_text := extract_condition if_node
  let p := create_statement_node if_node "branch" ("If: " ++ condition_text)
    function_name file_path counter
  let condition_node := p.1
  let cfg := (cfg.addNode condition_node.id condition_node).addEdge
    entry_id condition_node.id "normal"
  let te := find_then_else if_node.astChildren (none, none)
  let tr :=
    match h : te.1 with
    | some then_block =>
      process_statement_block then_block condition_node.id exit_id function_name file_path cfg p.2
    | none => (condition_node.id, cfg, p.2)
  let then_exit := py_or_str tr.1 condition_node.id
  let er :=
    match h : te.2 with
    | some else_block =>
      process_statement_block else_block condition_node.id exit_id function_name file_path
        tr.2.1 tr.2.2
    | none => (condition_node.id, tr.2.1, tr.2.2)
  let else_exit := py_or_str er.1 condition_node.id
  let q := create_statement_node if_node "statement" "Merge" function_name file_path er.2.2
  let merge_node : CFGAttrs := { q.1 with id := condition_node.id ++ "_merge" }
  let cfg := er.2.1.addNode merge_node.id merge_node
  let cfg := if then_exit ≠ condition_node.id then cfg.addEdge then_exit merge_node.id "true" else cfg
  let cfg :=
    if else_exit ≠ condition_node.id then cfg.addEdge else_exit merge_node.id "false"
    else cfg.addEdge condition_node.id merge_node.id "false"
  (merge_node.id, cfg, q.2)
termination_by (astSize if_node, 0)
decreasing_by
  all_goals simp_wf
  · refine lex_left_lt (astSize_child_lt ?_)
    rcases find_then_else_fst_mem _ _ _ _ (by assumption) with h1 | h1
    · cases h1
    · exact h1
  · refine lex_left_lt (astSize_child_lt ?_)
    rcases find_then_else_snd_mem _ _ _ _ (by assumption) with h1 | h1
    · cases h1
    · exact h1

/-- `CFGBuilder._process_for_loop`: note that the loop-entry id is rebuilt
from the counter value reached after `_create_statement_node`'s increment,
and the counter is then incremented a second time. -/
def process_for_loop (for_node : ASTNode)
    (entry_id exit_id function_name file_path : String)
    (cfg : Cfg) (counter : Nat) : String × Cfg × Nat :=
  let p := create_statement_node for_node "loop" "For Loop Entry" function_name file_path counter
  let loop_entry : CFGAttrs := { p.1 with id := function_name ++ "_for_" ++ toString p.2 }
  let counter := p.2 + 1
  let cfg := (cfg.addNode loop_entry.id loop_entry).addEdge entry_id loop_entry.id "normal"
  let br :=
    match h : find_first_compound for_node.astChildren with
    | some body_block =>
      let r := process_statement_block body_block loop_entry.id exit_id function_name file_path
        cfg counter
      let body_exit := py_or_str r.1 loop_entry.id
      (r.2.1.addEdge body_exit loop_entry.id "back_edge", r.2.2)
    | none => (cfg, counter)
  let q := create_statement_node for_node "statement" "For Loop Exit" function_name file_path br.2
  let loop_exit : CFGAttrs := { q.1 with id := loop_entry.id ++ "_exit" }
  let cfg := (br.1.addNode loop_exit.id loop_exit).addEdge loop_entry.id loop_exit.id "loop_exit"
  (loop_exit.id, cfg, q.2)
termination_by (astSize for_node, 0)
decreasing_by
  all_goals simp_wf
  exact lex_left_lt (astSize_child_lt (find_first_compound_mem (by assumption)))

/-- `CFGBuilder._process_while_loop` (same shape as the for loop). -/
def process_while_loop (while_node : ASTNode)
    (entry_id exit_id function_name file_path : String)
    (cfg : Cfg) (counter : Nat) : String × Cfg × Nat :=
  let p := create_statement_node while_node "loop" "While Loop Entry" function_name file_path counter
  let loop_entry : CFGAttrs := { p.1 with id := function_name ++ "_while_" ++ toString p.2 }
  let counter := p.2 + 1
  let cfg := (cfg.addNode loop_entry.id loop_entry).addEdge entry_id loop_entry.id "normal"
  let br :=
    match h : find_first_compound while_node.astChildren with
    | some body_block =>
      let r := process_statement_block body_block loop_entry.id exit_id function_name file_path
        cfg counter
      let body_exit := py_or_str r.1 loop_entry.id
      (r.2.1.addEdge body_exit loop_entry.id "back_edge", r.2.2)
    | none => (cfg, counter)
  let q := create_statement_node while_node "statement" "While Loop Exit" function_name file_path br.2
  let loop_exit : CFGAttrs := { q.1 with id := loop_entry.id ++ "_exit" }
  let cfg := (br.1.addNode loop_exit.id loop_exit).addEdge loop_entry.id loop_exit.id "loop_exit"
  (loop_exit.id, cfg, q.2)
termination_by (astSize while_node, 0)
decreasing_by
  all_goals simp_wf
  exact lex_left_lt (astSize_child_lt (find_first_compound_mem (by assumption)))

end

mutual

/-- `CFGBuilder._find_function_node`: pre-order first match of a node whose
`function` summary carries the requested name. -/
def find_function_node : ASTNode → String → Option ASTNode
  | ASTNode.mk t tx f r cs, name =>
    if f = some name then some (ASTNode.mk t tx f r cs)
    else find_function_node_list cs name

def find_function_node_list : List ASTNode → String → Option ASTNode
  | [], _ => none
  | c :: rest, name =>
    match find_function_node c name with
    | some x => some x
    | none => find_function_node_list rest name

end

mutual

/-- `CFGBuilder._find_body_node`: first `compound_statement` found by a
depth-first scan of the children. -/
def find_body_node_list : List ASTNode → Option ASTNode
  | [] => none
  | ASTNode.mk t tx f r cs :: rest =>
    if t = "compound_statement" then some (ASTNode.mk t tx f r cs)
    else
      match find_body_node_list cs with
      | some x => some x
      | none => find_body_node_list rest

end

def find_body_node (func_node : ASTNode) : Option ASTNode :=
  find_body_node_list func_node.astChildren

/-- `CFGBuilder.build_cfg_from_ast`: builds the CFG for `function_name` and
returns it together with the builder's updated `node_counter` (the counter
lives on the `CFGBuilder` instance and is threaded across builds). -/
def build_cfg_from_ast (ast : ASTNode) (function_name file_path : String)
    (counter : Nat) : Cfg × Nat :=
  let cfg : Cfg := {}
  match find_function_node ast function_name with
  | none => (cfg, counter)
  | some func_node =>
    let entry_node : CFGAttrs :=
      { id := function_name ++ "_entry", type := "entry",
        label := "Entry: " ++ function_name,
        file := some file_path, line := some (func_node.astRow + 1) }
    let exit_node : CFGAttrs :=
      { id := function_name ++ "_exit", type := "exit",
        label := "Exit: " ++ function_name,
        file := some file_path, line := none }
    let cfg := (cfg.addNode entry_node.id entry_node).addNode exit_node.id exit_node
    match find_body_node func_node with
    | some body_node =>
      let r := process_statement_block body_node entry_node.id exit_node.id
        function_name file_path cfg counter
      let cfg :=
        if r.1 ≠ "" ∧ r.1 ≠ exit_node.id then r.2.1.addEdge r.1 exit_node.id "normal"
        else r.2.1
      (cfg, r.2.2)
    | none => (cfg.addEdge entry_node.id exit_node.id "normal", counter)

/-!
## AST-to-IR Transformer (src/agent/ir/ast_to_ir.py)

`ControlBlock` (src/agent/ir/ir_schema.py) is a pydantic model whose
`children` field is declared `List[Any]`; at runtime it holds either nested
`ControlBlock` objects (as produced by `_traverse_cfg_for_blocks`) or plain
Python values (as produced by re-validating dumped data).  `PyVal` is the
universe of Python values involved: strings, ints, bools, `None`, lists,
string-keyed dicts, and `ControlBlock` model objects.
-/

mutual

inductive PyVal where
  | str (s : String)
  | int (n : Int)
  | bool (b : Bool)
  | none
  | list (xs : List PyVal)
  | dict (kvs : List (String × PyVal))
  | cb (b : ControlBlock)

inductive ControlBlock where
  | mk (block_id : String) (block_type : String) (label : String)
       (condition : Option String) (children : List PyVal)
       (metadata : List (String × PyVal))

end

def ControlBlock.block_id : ControlBlock → String
  | .mk i _ _ _ _ _ => i

def ControlBlock.block_type : ControlBlock → String
  | .mk _ t _ _ _ _ => t

def ControlBlock.label : ControlBlock → String
  | .mk _ _ l _ _ _ => l

def ControlBlock.condition : ControlBlock → Option String
  | .mk _ _ _ c _ _ => c

def ControlBlock.children : ControlBlock → List PyVal
  | .mk _ _ _ _ ch _ => ch

def ControlBlock.metadata : ControlBlock → List (String × PyVal)
  | .mk _ _ _ _ _ m => m

/-- `ASTToIRTransformer._calculate_complexity`: 1 plus one per node whose
`type` is `branch` or `loop`. -/
def calculate_complexity (cfg : Cfg) : Nat :=
  cfg.nodes.foldl
    (fun complexity p =>
      if p.2.type ∈ (["branch", "loop"] : List String) then complexity + 1 else complexity)
    1

mutual

/-- `ASTToIRTransformer._traverse_cfg_for_blocks`, with an explicit fuel
argument; `Option.none` stands for exhausted fuel (or for the `KeyError` a
dangling edge would raise, which a closed CFG rules out).  The Python visited
set is a list; the successor loops iterate the out-edges of the node in
insertion order, which is `networkx`'s successor order. -/
def traverse_cfg_for_blocks (cfg : Cfg) :
    Nat → String → List String → Option (List ControlBlock × List String)
  | 0, _, _ => Option.none
  | fuel + 1, node_id, visited =>
    if node_id ∈ visited then some ([], visited)
    else
      let visited := node_id :: visited
      match cfg.lookupNode node_id with
      | Option.none => Option.none
      | some node_data =>
        if node_data.type = "branch" then
          match traverse_branch_succ cfg fuel (cfg.edges.filter (fun e => e.1 == node_id))
              node_id visited with
          | Option.none => Option.none
          | some (children, visited) =>
            some ([ControlBlock.mk node_id "if" node_data.label
                     (some (node_data.label.replace "If: " "")) children
                     [("node_type", PyVal.str node_data.type)]], visited)
        else if node_data.type = "loop" then
          match traverse_loop_succ cfg fuel (cfg.edges.filter (fun e => e.1 == node_id))
              visited with
          | Option.none => Option.none
          | some (children, visited) =>
            some ([ControlBlock.mk node_id "loop" node_data.label
                     Option.none children
                     [("node_type", PyVal.str node_data.type)]], visited)
        else if node_data.type ∈ (["statement", "return"] : List String) then
          match traverse_stmt_succ cfg fuel (cfg.edges.filter (fun e => e.1 == node_id))
              visited with
          | Option.none => Option.none
          | some (rest, visited) =>
            some (ControlBlock.mk node_id "sequence" node_data.label
                    Option.none []
                    [("node_type", PyVal.str node_data.type)] :: rest, visited)
        else
          some ([], visited)

/-- The successor loop of the `branch` case: a `true` edge extends the if
block's children, a `false` edge appends a synthesized `else` block, any
other edge kind is ignored. -/
def traverse_branch_succ (cfg : Cfg) :
    Nat → List (String × String × String) → String → List String →
      Option (List PyVal × List String)
  | _, [], _, visited => some ([], visited)
  | fuel, e :: rest, node_id, visited =>
    if e.2.2 = "true" then
      match traverse_cfg_for_blocks cfg fuel e.2.1 visited with
      | Option.none => Option.none
      | some (bs, visited) =>
        match traverse_branch_succ cfg fuel rest node_id visited with
        | Option.none => Option.none
        | some (ps, visited) => some (bs.map PyVal.cb ++ ps, visited)
    else if e.2.2 = "false" then
      match traverse_cfg_for_blocks cfg fuel e.2.1 visited with
      | Option.none => Option.none
      | some (bs, visited) =>
        match traverse_branch_succ cfg fuel rest node_id visited with
        | Option.none => Option.none
        | some (ps, visited) =>
          some (PyVal.cb (ControlBlock.mk (node_id ++ "_else") "else" "Else"
                  Option.none (bs.map PyVal.cb) []) :: ps, visited)
    else traverse_branch_succ cfg fuel rest node_id visited

/-- The successor loop of the `loop` case: every edge that is not a
`loop_exit` edge extends the loop block's children. -/
def traverse_loop_succ (cfg : Cfg) :
    Nat → List (String × String × String) → List String →
      Option (List PyVal × List String)
  | _, [], visited => some ([], visited)
  | fuel, e :: rest, visited =>
    if e.2.2 ≠ "loop_exit" then
      match traverse_cfg_for_blocks cfg fuel e.2.1 visited with
      | Option.none => Option.none
      | some (bs, visited) =>
        match traverse_loop_succ cfg fuel rest visited with
        | Option.none => Option.none
        | some (ps, visited) => some (bs.map PyVal.cb ++ ps, visited)
    else traverse_loop_succ cfg fuel rest visited

/-- The successor loop of the `statement`/`return` case: recursion continues
into every successor that is not the `exit` node, appending sibling blocks. -/
def traverse_stmt_succ (cfg : Cfg) :
    Nat → List (String × String × String) → List String →
      Option (List ControlBlock × List String)
  | _, [], visited => some ([], visited)
  | fuel, e :: rest, visited =>
    match cfg.lookupNode e.2.1 with
    | Option.none => Option.none
    | some succ_data =>
      if succ_data.type ≠ "exit" then
        match traverse_cfg_for_blocks cfg fuel e.2.1 visited with
        | Option.none => Option.none
        | some (bs, visited) =>
          match traverse_stmt_succ cfg fuel rest visited with
          | Option.none => Option.none
          | some (ps, visited) => some (bs ++ ps, visited)
      else traverse_stmt_succ cfg fuel rest visited

end

/-- `ASTToIRTransformer._cfg_to_control_blocks`: starts the traversal at the
first node of kind `entry` with an empty visited set; `function_name` is
accepted and ignored, as in the source.  The fuel `|nodes| + 1` is shown
sufficient below. -/
def cfg_to_control_blocks (cfg : Cfg) (function_name : String) :
    Option (List ControlBlock) :=
  match (cfg.nodes.filter (fun p => p.2.type == "entry")).head? with
  | Option.none => some []
  | some p => (traverse_cfg_for_blocks cfg (cfg.nodes.length + 1) p.1 []).map (·.1)

/-!
## Call Graph Builder (src/agent/parser/call_graph.py)

Node attributes are `some attrs` for nodes registered through `add_function`
and `none` for bare nodes created by `add_call` (networkx's empty attribute
dict).  Edge attributes carry the `call_type` / `call_types` keys.
-/

structure CGNodeAttrs where
  function_name : String
  class_name : Option String
  «namespace» : Option String
  file : String
  is_virtual : Bool
  is_static : Bool
deriving DecidableEq

structure CGEdgeAttrs where
  call_type : String
  call_types : List String
deriving DecidableEq

structure FnLoc where
  file : String
  «class» : Option String
  «namespace» : Option String
  is_virtual : Bool
  is_static : Bool
deriving DecidableEq

instance : Inhabited (Option CGNodeAttrs) := ⟨Option.none⟩

/-- Python dict assignment `d[k] = v` on an association list (updates in
place, otherwise appends). -/
def dict_set (d : List (String × α)) (k : String) (v : α) : List (String × α) :=
  if d.any (fun p => p.1 == k) then
    d.map (fun p => if p.1 == k then (k, v) else p)
  else d ++ [(k, v)]

/-- Python `k in d`.  -/
def dict_mem (d : List (String × α)) (k : String) : Bool :=
  d.any (fun p => p.1 == k)

structure CallGraphBuilder where
  call_graph : NxDiGraph (Option CGNodeAttrs) CGEdgeAttrs := {}
  function_locations : List (String × FnLoc) := []
deriving DecidableEq

/-- Python truthiness of an optional string (`None` and `""` are falsy). -/
def py_truthy_opt : Option String → Bool
  | Option.none => false
  | some s => s ≠ ""

/-- `CallGraphBuilder._get_qualified_name`: joins the truthy parts of
namespace, class and function name with `::`. -/
def get_qualified_name (function_name : String)
    (class_name namespace_v : Option String) : String :=
  let parts :=
    (if py_truthy_opt namespace_v then [namespace_v.getD ""] else []) ++
    (if py_truthy_opt class_name then [class_name.getD ""] else []) ++
    [function_name]
  String.intercalate "::" parts

/-- `CallGraphBuilder.add_function`. -/
def add_function (st : CallGraphBuilder) (function_name : String) (file_path : String)
    (class_name namespace_v : Option String)
    (is_virtual is_static : Bool) : CallGraphBuilder :=
  let qualified_name := get_qualified_name function_name class_name namespace_v
  { call_graph := st.call_graph.addNode qualified_name
      (some { function_name := function_name, class_name := class_name,
              «namespace» := namespace_v, file := file_path,
              is_virtual := is_virtual, is_static := is_static }),
    function_locations := dict_set st.function_locations qualified_name
      { file := file_path, «class» := class_name, «namespace» := namespace_v,
        is_virtual := is_virtual, is_static := is_static } }

/-- `CallGraphBuilder.add_call`: qualifies the caller, adds bare nodes for
missing endpoints, and either creates the edge with
`call_type=t, call_types=[t]` or appends the call type to the existing
edge's `call_types` when it is not yet recorded (the `"call_types" not in
edge_data` guard is dead here because every edge is created with the key). -/
def add_call (st : CallGraphBuilder) (caller callee : String)
    (caller_class caller_namespace : Option String) (call_type : String) :
    CallGraphBuilder :=
  let caller_qualified := get_qualified_name caller caller_class caller_namespace
  let callee_qualified := callee
  let g := st.call_graph
  let g := if g.hasNode caller_qualified then g else g.addNode caller_qualified Option.none
  let g := if g.hasNode callee_qualified then g else g.addNode callee_qualified Option.none
  if g.hasEdge caller_qualified callee_qualified then
    { st with call_graph :=
      { g with edges := g.edges.map (fun e =>
          if e.1 == caller_qualified && e.2.1 == callee_qualified then
            (e.1, e.2.1,
              if call_type ∈ e.2.2.call_types then e.2.2
              else { e.2.2 with call_types := e.2.2.call_types ++ [call_type] })
          else e) } }
  else
    let ea : CGEdgeAttrs := { call_type := call_type, call_types := [call_type] }
    { st with call_graph := g.addEdge caller_qualified callee_qualified ea }

/-- `CallGraphBuilder._resolve_callee` (the `file_path` argument is accepted
and unused, as in the source; the two final fall-through branches both
return the bare name). -/
def resolve_callee (st : CallGraphBuilder) (callee_name : String)
    (file_path : String) (class_name namespace_v : Option String) : String :=
  let clsHit : Option String :=
    if py_truthy_opt class_name then
      let qualified := class_name.getD "" ++ "::" ++ callee_name
      if dict_mem st.function_locations qualified then some qualified else Option.none
    else Option.none
  match clsHit with
  | some q => q
  | Option.none =>
    let nsHit : Option String :=
      if py_truthy_opt namespace_v then
        let qualified := namespace_v.getD "" ++ "::" ++ callee_name
        if dict_mem st.function_locations qualified then some qualified else Option.none
      else Option.none
    match nsHit with
    | some q => q
    | Option.none =>
      if dict_mem st.function_locations callee_name then callee_name
      else callee_name

/-!
The exception classes of `networkx/exception.py` that are relevant to
`get_topological_order`, with their (stable, documented) inheritance:
`NetworkXError ⊂ NetworkXException`,
`NetworkXAlgorithmError ⊂ NetworkXException`,
`NetworkXUnfeasible ⊂ NetworkXAlgorithmError`.
`networkx.topological_sort` raises `NetworkXUnfeasible` when the graph
contains a cycle.
-/

inductive NxExcClass where
  | NetworkXException
  | NetworkXError
  | NetworkXPointlessConcept
  | NetworkXAlgorithmError
  | NetworkXUnfeasible
deriving DecidableEq

/-- The ancestor classes (reflexive) of each exception class. -/
def nx_exc_ancestors : NxExcClass → List NxExcClass
  | .NetworkXException => [.NetworkXException]
  | .NetworkXError => [.NetworkXError, .NetworkXException]
  | .NetworkXPointlessConcept => [.NetworkXPointlessConcept, .NetworkXException]
  | .NetworkXAlgorithmError => [.NetworkXAlgorithmError, .NetworkXException]
  | .NetworkXUnfeasible =>
    [.NetworkXUnfeasible, .NetworkXAlgorithmError, .NetworkXException]

/-- Python `isinstance(e, cls)` / `except cls` matching. -/
def nx_exc_matches (e cls : NxExcClass) : Bool :=
  cls ∈ nx_exc_ancestors e

/-- Kahn elimination: repeatedly removes a node with no incoming edge from a
still-remaining node; raises `NetworkXUnfeasible` when none exists while
nodes remain (a cycle).  `fuel = |remaining|` always suffices because each
round removes exactly one node. -/
def kahn_sort : Nat → List String → List (String × String) → List String →
    Except NxExcClass (List String)
  | _, [], _, acc => .ok acc.reverse
  | 0, _ :: _, _, _ => .error .NetworkXUnfeasible
  | fuel + 1, remaining, edges, acc =>
    match remaining.filter
        (fun v => !edges.any (fun e => e.2 == v && remaining.contains e.1)) with
    | [] => .error .NetworkXUnfeasible
    | z :: _ => kahn_sort fuel (remaining.erase z) edges (z :: acc)

/-- `networkx.topological_sort` on our graph model: a topological listing of
all nodes, or `NetworkXUnfeasible` when the graph has a cycle. -/
def topological_sort (g : NxDiGraph α β) : Except NxExcClass (List String) :=
  kahn_sort g.nodeIds.length g.nodeIds (g.edges.map (fun e => (e.1, e.2.1))) []

/-- `CallGraphBuilder.get_topological_order`:
`try: return list(nx.topological_sort(...)) except nx.NetworkXError: return
list(self.call_graph.nodes())`.  The `except` clause only catches exceptions
that are instances of `NetworkXError`. -/
def get_topological_order (st : CallGraphBuilder) : Except NxExcClass (List String) :=
  match topological_sort st.call_graph with
  | .ok l => .ok l
  | .error e =>
    if nx_exc_matches e .NetworkXError then .ok st.call_graph.nodeIds
    else .error e

/-!
## Module Analyzer (src/agent/parser/module_analyzer.py)

A project file is modelled by its path parts relative to the project root
(POSIX separators) together with the list of include literals that
`_extract_includes`'s regex finds in its contents — the analyzer reads
nothing else from a file.  `pathlib` accessors (`name`, `stem`, `suffix`,
`parts`) are reimplemented on that representation.
-/

structure SrcFile where
  parts : List String
  includes : List String
deriving DecidableEq

/-- `str(file_path)` for a project-relative path. -/
def SrcFile.pathStr (f : SrcFile) : String := String.intercalate "/" f.parts

/-- `pathlib.PurePath.name`. -/
def SrcFile.pathName (f : SrcFile) : String := (f.parts.getLast?).getD ""

/-- `pathlib.PurePath.suffix` of a file name: from the last dot, unless that
dot is the first or the last character. -/
def path_suffix (name : String) : String :=
  let cs := name.data
  match cs.reverse.indexOf? '.' with
  | Option.none => ""
  | some rIdx =>
    let i := cs.length - 1 - rIdx
    if 0 < i ∧ i < cs.length - 1 then String.mk (cs.drop i) else ""

/-- `pathlib.PurePath.stem` of a file name. -/
def path_stem (name : String) : String :=
  name.dropRight (path_suffix name).length

/-- `pathlib.PurePath(p).name` of a raw path string. -/
def raw_path_name (p : String) : String :=
  ((p.splitOn "/").getLast?).getD ""

/-- `agent.utils.get_module_name`: first path segment when the file is in a
subdirectory, the sentinel `"root"` otherwise. -/
def get_module_name (f : SrcFile) : String :=
  if f.parts.length > 1 then (f.parts.head?).getD "" else "root"

structure ModuleData where
  name : String
  path : String
  files : List SrcFile := []
  public_headers : List SrcFile := []
  private_headers : List SrcFile := []
  source_files : List SrcFile := []
  dependencies : List String := []
  public_api : List String := []
  private_api : List String := []
deriving DecidableEq

structure ModuleAnalyzer where
  project_root : String
  modules : List (String × ModuleData) := []
  module_dependencies : NxDiGraph Unit Unit := {}
  file_to_module : List (String × String) := []
deriving DecidableEq

instance : Inhabited Unit := ⟨()⟩

/-- The fresh per-module record of `ModuleAnalyzer.analyze_project`
(`dependencies` is a Python set, modelled as an insertion-ordered
duplicate-free list). -/
def init_module_data (module_name project_root : String) : ModuleData :=
  { name := module_name,
    path := if module_name ≠ "root" then project_root ++ "/" ++ module_name
            else project_root }

def update_module (st : ModuleAnalyzer) (module_name : String)
    (upd : ModuleData → ModuleData) : ModuleAnalyzer :=
  { st with modules :=
      st.modules.map (fun p => if p.1 == module_name then (p.1, upd p.2) else p) }

/-- One iteration of the file-grouping loop of
`ModuleAnalyzer.analyze_project` (lines 27-53). -/
def analyze_register_file (st : ModuleAnalyzer) (file_path : SrcFile) : ModuleAnalyzer :=
  let module_name := get_module_name file_path
  let st :=
    if dict_mem st.modules module_name then st
    else { st with modules :=
                st.modules ++ [(module_name, init_module_data module_name st.project_root)] }
  let st := update_module st module_name (fun md => { md with files := md.files ++ [file_path] })
  let st := { st with file_to_module := dict_set st.file_to_module file_path.pathStr module_name }
  if path_suffix file_path.pathName ∈ ([".h", ".hpp"] : List String) then
    if py_in_str "include" file_path.pathStr || py_in_str "public" file_path.pathStr then
      update_module st module_name
        (fun md => { md with public_headers := md.public_headers ++ [file_path] })
    else
      update_module st module_name
        (fun md => { md with private_headers := md.private_headers ++ [file_path] })
  else
    update_module st module_name
      (fun md => { md with source_files := md.source_files ++ [file_path] })

/-- `ModuleAnalyzer._resolve_include_to_module`: first module owning a file
whose stem equals the include's base name or whose name equals the include
literal; the trailing system-include check and the unknown case both yield
`None`. -/
def resolve_include_to_module (st : ModuleAnalyzer) (include_path : String) :
    Option String :=
  let include_base := path_stem (raw_path_name include_path)
  st.modules.findSome? (fun p =>
    if p.2.files.any (fun f =>
        path_stem f.pathName == include_base || f.pathName == include_path) then
      some p.1
    else Option.none)

/-- A Python `set` of strings built by successive `update` calls, modelled as
an insertion-ordered duplicate-free list (set iteration order is opaque; all
properties proved below are order-independent). -/
def py_set_of (l : List String) : List String :=
  l.foldl (fun acc s => if s ∈ acc then acc else acc ++ [s]) []

/-- `ModuleAnalyzer._analyze_module_dependencies`. -/
def analyze_module_dependencies (st : ModuleAnalyzer) (module_name : String) :
    ModuleAnalyzer :=
  match (st.modules.find? (fun p => p.1 == module_name)).map (·.2) with
  | Option.none => st
  | some module_data =>
    let includes := py_set_of (module_data.files.flatMap (·.includes))
    includes.foldl
      (fun st inc =>
        match resolve_include_to_module st inc with
        | some dep_module =>
          if dep_module ≠ module_name then
            let st := update_module st module_name (fun md =>
              { md with dependencies :=
                  if dep_module ∈ md.dependencies then md.dependencies
                  else md.dependencies ++ [dep_module] })
            { st with module_dependencies :=
                st.module_dependencies.addEdge module_name dep_module () }
          else st
        | Option.none => st)
      st

/-- `ModuleAnalyzer.analyze_project`: groups every file, then analyzes the
dependencies of every module (the second loop iterates the module keys in
insertion order; the key set does not change during it). -/
def analyze_project (st : ModuleAnalyzer) (cpp_files : List SrcFile) : ModuleAnalyzer :=
  let st := cpp_files.foldl analyze_register_file st
  (st.modules.map (·.1)).foldl analyze_module_dependencies st

/-!
## IR schema and serializer (src/agent/ir/ir_schema.py, ir_serializer.py)

`IRSerializer.serialize_*` is pydantic-v2 `model_dump()` (python mode):
nested models — including model instances sitting inside `Any`-typed fields —
are recursively dumped to plain dicts.  `IRSerializer.deserialize_*` is model
validation (`Model(**data)`): declared `List[Model]` fields coerce dicts to
models (and keep already-constructed model instances), while `Any`-typed
fields (`ControlBlock.children`, every `metadata`, `main_flows` values) keep
the incoming Python value unchanged.
-/

def dumpOptStr : Option String → PyVal
  | some s => PyVal.str s
  | Option.none => PyVal.none

mutual

def dumpVal : PyVal → PyVal
  | .str s => .str s
  | .int n => .int n
  | .bool b => .bool b
  | .none => .none
  | .list xs => .list (dumpValList xs)
  | .dict kvs => .dict (dumpKvs kvs)
  | .cb b => .dict (dumpCB b)

def dumpValList : List PyVal → List PyVal
  | [] => []
  | v :: vs => dumpVal v :: dumpValList vs

def dumpKvs : List (String × PyVal) → List (String × PyVal)
  | [] => []
  | (k, v) :: kvs => (k, dumpVal v) :: dumpKvs kvs

/-- `ControlBlock.model_dump()`, in declared field order. -/
def dumpCB : ControlBlock → List (String × PyVal)
  | .mk bid btype lbl cond children meta =>
    [("block_id", .str bid), ("block_type", .str btype), ("label", .str lbl),
     ("condition", dumpOptStr cond),
     ("children", .list (dumpValList children)),
     ("metadata", .dict (dumpKvs meta))]

end

def py_lookup (kvs : List (String × PyVal)) (k : String) : Option PyVal :=
  (kvs.find? (fun p => p.1 == k)).map (·.2)

/-- Validation of a required `str` field. -/
def parse_str : Option PyVal → Option String
  | some (.str s) => some s
  | _ => Option.none

/-- Validation of a required `int` field. -/
def parse_int : Option PyVal → Option Int
  | some (.int n) => some n
  | _ => Option.none

/-- Validation of an `Optional[str] = None` field. -/
def parse_opt_str : Option PyVal → Option (Option String)
  | Option.none => some Option.none
  | some PyVal.none => some Option.none
  | some (.str s) => some (some s)
  | _ => Option.none

/-- Validation of a `List[str]` field with default `[]`. -/
def parse_str_list : Option PyVal → Option (List String)
  | Option.none => some []
  | some (.list xs) => xs.mapM (fun v => match v with
      | PyVal.str s => some s
      | _ => Option.none)
  | _ => Option.none

/-- Validation of a `List[Any]` field with default `[]`: the elements are
kept unchanged. -/
def parse_any_list : Option PyVal → Option (List PyVal)
  | Option.none => some []
  | some (.list xs) => some xs
  | _ => Option.none

/-- Validation of a `Dict[str, Any]` field with default `{}`: the values are
kept unchanged. -/
def parse_any_dict : Option PyVal → Option (List (String × PyVal))
  | Option.none => some []
  | some (.dict kvs) => some kvs
  | _ => Option.none

/-- Validation of an `int = 0` field. -/
def parse_int_default : Option PyVal → Option Int
  | Option.none => some 0
  | some (.int n) => some n
  | _ => Option.none

/-- Validation of a `ControlBlock` item inside `List[ControlBlock]`: an
existing model instance is kept, a dict is validated field by field. -/
def parse_control_block : PyVal → Option ControlBlock
  | .cb b => some b
  | .dict kvs => do
    let bid ← parse_str (py_lookup kvs "block_id")
    let btype ← parse_str (py_lookup kvs "block_type")
    let lbl ← parse_str (py_lookup kvs "label")
    let cond ← parse_opt_str (py_lookup kvs "condition")
    let children ← parse_any_list (py_lookup kvs "children")
    let meta ← parse_any_dict (py_lookup kvs "metadata")
    pure (ControlBlock.mk bid btype lbl cond children meta)
  | _ => Option.none

/-- `FunctionIR` (src/agent/ir/ir_schema.py): `inputs` is a list of string
dicts, `children`/`metadata` are open `Any` bags. -/
structure FunctionIR where
  id : String
  name : String
  signature : String
  file : String
  line : Int
  «namespace» : Option String := Option.none
  class_name : Option String := Option.none
  inputs : List (List (String × String)) := []
  outputs : List String := []
  control_blocks : List ControlBlock := []
  calls : List String := []
  complexity : Int := 0
  metadata : List (String × PyVal) := []

structure ModuleIR where
  id : String
  name : String
  path : String
  responsibilities : List String := []
  entry_points : List String := []
  dependencies : List String := []
  public_api : List String := []
  private_api : List String := []
  functions : List String := []
  metadata : List (String × PyVal) := []

structure ProjectIR where
  id : String
  name : String
  root_path : String
  modules : List String := []
  main_flows : List (List (String × PyVal)) := []
  startup_sequence : List String := []
  metadata : List (String × PyVal) := []

/-- `IRSerializer.serialize_function` = `FunctionIR.model_dump()`. -/
def serialize_function (f : FunctionIR) : PyVal :=
  .dict
    [("id", .str f.id), ("name", .str f.name), ("signature", .str f.signature),
     ("file", .str f.file), ("line", .int f.line),
     ("namespace", dumpOptStr f.«namespace»),
     ("class_name", dumpOptStr f.class_name),
     ("inputs", .list (f.inputs.map (fun d =>
        PyVal.dict (d.map (fun p => (p.1, PyVal.str p.2)))))),
     ("outputs", .list (f.outputs.map PyVal.str)),
     ("control_blocks", .list (f.control_blocks.map (fun b => PyVal.dict (dumpCB b)))),
     ("calls", .list (f.calls.map PyVal.str)),
     ("complexity", .int f.complexity),
     ("metadata", .dict (dumpKvs f.metadata))]

/-- Validation of the `List[Dict[str, str]]` `inputs` field. -/
def parse_str_dict_list : Option PyVal → Option (List (List (String × String)))
  | Option.none => some []
  | some (.list xs) => xs.mapM (fun v => match v with
      | PyVal.dict kvs => kvs.mapM (fun p => match p.2 with
          | PyVal.str s => some (p.1, s)
          | _ => Option.none)
      | _ => Option.none)
  | _ => Option.none

/-- Validation of the `List[Dict[str, Any]]` `main_flows` field. -/
def parse_any_dict_list : Option PyVal → Option (List (List (String × PyVal)))
  | Option.none => some []
  | some (.list xs) => xs.mapM (fun v => match v with
      | PyVal.dict kvs => some kvs
      | _ => Option.none)
  | _ => Option.none

/-- `IRSerializer.deserialize_function` = `FunctionIR(**data)`. -/
def deserialize_function : PyVal → Option FunctionIR
  | .dict kvs => do
    let id ← parse_str (py_lookup kvs "id")
    let name ← parse_str (py_lookup kvs "name")
    let signature ← parse_str (py_lookup kvs "signature")
    let file ← parse_str (py_lookup kvs "file")
    let line ← parse_int (py_lookup kvs "line")
    let ns ← parse_opt_str (py_lookup kvs "namespace")
    let cls ← parse_opt_str (py_lookup kvs "class_name")
    let inputs ← parse_str_dict_list (py_lookup kvs "inputs")
    let outputs ← parse_str_list (py_lookup kvs "outputs")
    let cbsRaw ← parse_any_list (py_lookup kvs "control_blocks")
    let cbs ← cbsRaw.mapM parse_control_block
    let calls ← parse_str_list (py_lookup kvs "calls")
    let complexity ← parse_int_default (py_lookup kvs "complexity")
    let meta ← parse_any_dict (py_lookup kvs "metadata")
    pure { id := id, name := name, signature := signature, file := file,
           line := line, «namespace» := ns, class_name := cls,
           inputs := inputs, outputs := outputs, control_blocks := cbs,
           calls := calls, complexity := complexity, metadata := meta }
  | _ => Option.none

/-- `IRSerializer.serialize_module` = `ModuleIR.model_dump()`. -/
def serialize_module (m : ModuleIR) : PyVal :=
  .dict
    [("id", .str m.id), ("name", .str m.name), ("path", .str m.path),
     ("responsibilities", .list (m.responsibilities.map PyVal.str)),
     ("entry_points", .list (m.entry_points.map PyVal.str)),
     ("dependencies", .list (m.dependencies.map PyVal.str)),
     ("public_api", .list (m.public_api.map PyVal.str)),
     ("private_api", .list (m.private_api.map PyVal.str)),
     ("functions", .list (m.functions.map PyVal.str)),
     ("metadata", .dict (dumpKvs m.metadata))]

/-- `IRSerializer.deserialize_module` = `ModuleIR(**data)`. -/
def deserialize_module : PyVal → Option ModuleIR
  | .dict kvs => do
    let id ← parse_str (py_lookup kvs "id")
    let name ← parse_str (py_lookup kvs "name")
    let path ← parse_str (py_lookup kvs "path")
    let responsibilities ← parse_str_list (py_lookup kvs "responsibilities")
    let entry_points ← parse_str_list (py_lookup kvs "entry_points")
    let dependencies ← parse_str_list (py_lookup kvs "dependencies")
    let public_api ← parse_str_list (py_lookup kvs "public_api")
    let private_api ← parse_str_list (py_lookup kvs "private_api")
    let functions ← parse_str_list (py_lookup kvs "functions")
    let meta ← parse_any_dict (py_lookup kvs "metadata")
    pure { id := id, name := name, path := path,
           responsibilities := responsibilities, entry_points := entry_points,
           dependencies := dependencies, public_api := public_api,
           private_api := private_api, functions := functions, metadata := meta }
  | _ => Option.none

/-- `IRSerializer.serialize_project` = `ProjectIR.model_dump()`. -/
def serialize_project (p : ProjectIR) : PyVal :=
  .dict
    [("id", .str p.id), ("name", .str p.name), ("root_path", .str p.root_path),
     ("modules", .list (p.modules.map PyVal.str)),
     ("main_flows", .list (p.main_flows.map (fun d => PyVal.dict (dumpKvs d)))),
     ("startup_sequence", .list (p.startup_sequence.map PyVal.str)),
     ("metadata", .dict (dumpKvs p.metadata))]

/-- `IRSerializer.deserialize_project` = `ProjectIR(**data)`. -/
def deserialize_project : PyVal → Option ProjectIR
  | .dict kvs => do
    let id ← parse_str (py_lookup kvs "id")
    let name ← parse_str (py_lookup kvs "name")
    let root_path ← parse_str (py_lookup kvs "root_path")
    let modules ← parse_str_list (py_lookup kvs "modules")
    let main_flows ← parse_any_dict_list (py_lookup kvs "main_flows")
    let startup_sequence ← parse_str_list (py_lookup kvs "startup_sequence")
    let meta ← parse_any_dict (py_lookup kvs "metadata")
    pure { id := id, name := name, root_path := root_path,
           modules := modules, main_flows := main_flows,
           startup_sequence := startup_sequence, metadata := meta }
  | _ => Option.none

mutual

/-- `true` when a Python value contains no `ControlBlock` model object
anywhere inside it (such values are fixed points of `model_dump`). -/
def cbFreeVal : PyVal → Bool
  | .cb _ => false
  | .list xs => cbFreeList xs
  | .dict kvs => cbFreeKvs kvs
  | _ => true

def cbFreeList : List PyVal → Bool
  | [] => true
  | v :: vs => cbFreeVal v && cbFreeList vs

def cbFreeKvs : List (String × PyVal) → Bool
  | [] => true
  | (_, v) :: kvs => cbFreeVal v && cbFreeKvs kvs

end

/-!
## String facts about generated node ids

Every id minted during statement processing is the function name followed by
a suffix starting with `_stmt_`, `_for_` or `_while_`; such a suffix is never
`_entry` or `_exit`, so the entry/exit nodes are never overwritten.
-/

theorem data_append (a b : String) : (a ++ b).data = a.data ++ b.data := rfl

theorem string_append_cancel {s a b : String} (h : s ++ a = s ++ b) : a = b := by
  apply String.ext
  have h2 : s.data ++ a.data = s.data ++ b.data := by
    have := congrArg String.data h
    simpa [data_append] using this
  exact List.append_cancel_left h2

/-- The suffix shapes of ids minted by the statement-processing functions. -/
def GenSuffix (s : String) : Prop :=
  (∃ r, s = "_stmt_" ++ r) ∨ (∃ r, s = "_for_" ++ r) ∨ (∃ r, s = "_while_" ++ r)

theorem gen_suffix_ne_entry {s : String} (h : GenSuffix s) : s ≠ "_entry" := by
  rcases h with ⟨r, rfl⟩ | ⟨r, rfl⟩ | ⟨r, rfl⟩ <;>
    · intro he
      have hd := congrArg String.data he
      simp [data_append] at hd

theorem gen_suffix_ne_exit {s : String} (h : GenSuffix s) : s ≠ "_exit" := by
  rcases h with ⟨r, rfl⟩ | ⟨r, rfl⟩ | ⟨r, rfl⟩ <;>
    · intro he
      have hd := congrArg String.data he
      simp [data_append] at hd

theorem gen_id_ne_entry {fname s : String} (h : GenSuffix s) :
    fname ++ s ≠ fname ++ "_entry" := fun he =>
  gen_suffix_ne_entry h (string_append_cancel he)

theorem gen_id_ne_exit {fname s : String} (h : GenSuffix s) :
    fname ++ s ≠ fname ++ "_exit" := fun he =>
  gen_suffix_ne_exit h (string_append_cancel he)

theorem entry_ne_exit (fname : String) :
    fname ++ "_entry" ≠ fname ++ "_exit" := by
  intro he
  have hd := congrArg String.data (string_append_cancel he)
  simp at hd

/-- The id minted by `create_statement_node` carries a `GenSuffix`. -/
theorem create_statement_node_id (stmt : ASTNode)
    (node_type label function_name file_path : String) (counter : Nat) :
    (create_statement_node stmt node_type label function_name file_path counter).1.id
      = function_name ++ ("_stmt_" ++ toString counter) := by
  simp [create_statement_node, String.append_assoc]

/-!
## C2: complexity

`_calculate_complexity` folds over the node list starting at 1 and adds 1
for every node whose `type` is `branch` or `loop`.
-/

theorem foldl_complexity_count (l : List (String × CFGAttrs)) (init : Nat) :
    l.foldl
        (fun complexity p =>
          if p.2.type ∈ (["branch", "loop"] : List String) then complexity + 1
          else complexity)
        init
      = init + l.countP (fun p => p.2.type == "branch" || p.2.type == "loop") := by
  induction l generalizing init with
  | nil => simp
  | cons a l ih =>
    by_cases h : a.2.type ∈ (["branch", "loop"] : List String)
    · have hb : (a.2.type == "branch" || a.2.type == "loop") = true := by
        simp at h
        rcases h with h | h <;> simp [h]
      simp only [List.foldl_cons, if_pos h, List.countP_cons, hb, ih, if_true]
      omega
    · have hb : (a.2.type == "branch" || a.2.type == "loop") = false := by
        simp at h ⊢
        exact h
      simp only [List.foldl_cons, if_neg h, List.countP_cons, hb, ih,
        Bool.false_eq_true, if_false]
      omega

/-- C2: for every CFG, the complexity computed by the IR transformer
(`ASTToIRTransformer._calculate_complexity`) equals 1 plus the number of CFG
nodes whose kind is `branch` or `loop`; consequently it is an integer ≥ 1. -/
theorem complexity_eq_one_plus_decision_nodes (cfg : Cfg) :
    calculate_complexity cfg
        = 1 + (Cfg.nodes cfg).countP
            (fun p => p.2.type == "branch" || p.2.type == "loop")
      ∧ 1 ≤ calculate_complexity cfg := by
  have h := foldl_complexity_count (Cfg.nodes cfg) 1
  constructor
  · exact h
  · rw [calculate_complexity] at *
    omega

/-!
## Concrete scenario inputs
-/

theorem toString_nat_0 : (toString (0 : Nat)) = "0" := rfl
theorem toString_nat_1 : (toString (1 : Nat)) = "1" := rfl
theorem toString_nat_2 : (toString (2 : Nat)) = "2" := rfl
theorem toString_nat_3 : (toString (3 : Nat)) = "3" := rfl
theorem toString_nat_4 : (toString (4 : Nat)) = "4" := rfl

/-- A `return_statement` AST leaf. -/
def retStmt (txt : String) : ASTNode := ASTNode.mk "return_statement" txt none 0 []

/-- The body `{ if (x>0) { return 1; } return 0; }` of Scenario A. -/
def scenarioA_body : ASTNode :=
  ASTNode.mk "compound_statement" "{ if (x>0) { return 1; } return 0; }" none 0
    [ ASTNode.mk "if_statement" "if (x>0) { return 1; }" none 0
        [ ASTNode.mk "parenthesized_expression" "(x>0)" none 0 []
        , ASTNode.mk "compound_statement" "{ return 1; }" none 0 [retStmt "return 1;"] ]
    , retStmt "return 0;" ]

/-- A function `f` whose body is Scenario A's body. -/
def scenarioA_ast : ASTNode :=
  ASTNode.mk "function_definition" "int f() ..." (some "f") 0 [scenarioA_body]

/-- The CFG the builder produces for Scenario A (starting counter 0). -/
def scenarioA_cfg : Cfg := (build_cfg_from_ast scenarioA_ast "f" "a.cc" 0).1

/-- The value of `scenarioA_cfg`, written out. -/
def scenarioA_cfg_val : Cfg :=
  { nodes :=
      [("f_entry", ⟨"f_entry", "entry", "Entry: f", some "a.cc", some 1⟩),
       ("f_exit", ⟨"f_exit", "exit", "Exit: f", some "a.cc", none⟩),
       ("f_stmt_0", ⟨"f_stmt_0", "branch", "If: (x>0)", some "a.cc", some 1⟩),
       ("f_stmt_1", ⟨"f_stmt_1", "return", "Return", some "a.cc", some 1⟩),
       ("f_stmt_0_merge", ⟨"f_stmt_0_merge", "statement", "Merge", some "a.cc", some 1⟩),
       ("f_stmt_3", ⟨"f_stmt_3", "return", "Return", some "a.cc", some 1⟩)],
    edges :=
      [("f_entry", "f_stmt_0", "normal"),
       ("f_stmt_0", "f_stmt_1", "normal"),
       ("f_stmt_1", "f_exit", "return"),
       ("f_stmt_1", "f_stmt_0_merge", "true"),
       ("f_stmt_0", "f_stmt_0_merge", "false"),
       ("f_stmt_0_merge", "f_stmt_3", "normal"),
       ("f_stmt_3", "f_exit", "normal")] }

set_option maxRecDepth 10000 in
theorem take_xgt0 : ("(x>0)".take 50) = "(x>0)" := rfl

theorem scenarioA_cfg_eq : scenarioA_cfg = scenarioA_cfg_val := by
  simp [scenarioA_cfg, scenarioA_cfg_val, take_xgt0, build_cfg_from_ast, scenarioA_ast,
    scenarioA_body, retStmt,
    find_function_node, find_function_node_list, find_body_node,
    find_body_node_list, process_statement_block, process_statements,
    process_if_statement, extract_statements, extract_statements_list,
    statement_types, find_then_else, create_statement_node, extract_condition,
    get_statement_label, py_or_str, Cfg.addNode, Cfg.addEdge,
    NxDiGraph.addNode, NxDiGraph.addEdge, NxDiGraph.hasNode, NxDiGraph.hasEdge,
    ASTNode.astType, ASTNode.astChildren, ASTNode.astText, ASTNode.astFun,
    ASTNode.astRow, toString_nat_0, toString_nat_1, toString_nat_2,
    toString_nat_3]

/-- Scenario A as the claim states it: one Branch node; a True edge whose
target is a Return node linked to Exit by a ReturnEdge; two distinct Return
nodes each linked to Exit by a ReturnEdge; complexity 2. -/
def scenarioA_claim (g : Cfg) : Prop :=
  (Cfg.nodes g).countP (fun p => p.2.type == "branch") = 1 ∧
  (∃ e ∈ Cfg.edges g, e.2.2 = "true" ∧
     ∃ p ∈ Cfg.nodes g, p.1 = e.2.1 ∧ p.2.type = "return" ∧
       NxDiGraph.edgeAttr g p.1 "f_exit" = some "return") ∧
  (∃ p ∈ Cfg.nodes g, ∃ q ∈ Cfg.nodes g, p.1 ≠ q.1 ∧
     p.2.type = "return" ∧ q.2.type = "return" ∧
     NxDiGraph.edgeAttr g p.1 "f_exit" = some "return" ∧
     NxDiGraph.edgeAttr g q.1 "f_exit" = some "return") ∧
  calculate_complexity g = 2

/-- C3, counterexample: on Scenario A's input the claimed CFG shape does not
hold — the `true` edge leaves the first Return node (it does not lead to
one), and the second Return node's edge to Exit is `normal`, because the
final closure step of `build_cfg_from_ast` overwrote the `return` edge. -/
theorem scenarioA_claim_false : ¬ scenarioA_claim scenarioA_cfg := by
  rw [scenarioA_claim, scenarioA_cfg_eq]
  decide

/-- C3, amended: the CFG for Scenario A has exactly one Branch node; the
Branch reaches the first Return by a Normal edge; that Return is linked to
Exit by a ReturnEdge and to the synthesized Merge node by the True edge; the
False edge goes from the Branch to the Merge node; from the Merge a Normal
edge reaches the second Return node, whose edge to Exit has kind Normal (the
builder's final closure overwrites the ReturnEdge); complexity is 2. -/
theorem scenarioA_actual_structure :
    (Cfg.nodes scenarioA_cfg).countP (fun p => p.2.type == "branch") = 1 ∧
    NxDiGraph.edgeAttr scenarioA_cfg "f_stmt_0" "f_stmt_1" = some "normal" ∧
    (∃ p ∈ Cfg.nodes scenarioA_cfg, p.1 = "f_stmt_1" ∧ p.2.type = "return") ∧
    NxDiGraph.edgeAttr scenarioA_cfg "f_stmt_1" "f_exit" = some "return" ∧
    NxDiGraph.edgeAttr scenarioA_cfg "f_stmt_1" "f_stmt_0_merge" = some "true" ∧
    NxDiGraph.edgeAttr scenarioA_cfg "f_stmt_0" "f_stmt_0_merge" = some "false" ∧
    NxDiGraph.edgeAttr scenarioA_cfg "f_stmt_0_merge" "f_stmt_3" = some "normal" ∧
    (∃ p ∈ Cfg.nodes scenarioA_cfg, p.1 = "f_stmt_3" ∧ p.2.type = "return") ∧
    NxDiGraph.edgeAttr scenarioA_cfg "f_stmt_3" "f_exit" = some "normal" ∧
    calculate_complexity scenarioA_cfg = 2 := by
  rw [scenarioA_cfg_eq]
  decide


/-- C10: a function name that is absent from the AST yields a graph with no
nodes and no edges at all (in particular no Entry/Exit), while a found
function without a locatable body yields exactly an Entry and an Exit node
joined by one Normal edge. -/
theorem build_cfg_not_found_vs_empty_body
    (ast ast2 fn : ASTNode) (name file : String) (c c2 : Nat)
    (h1 : find_function_node ast name = Option.none)
    (h2 : find_function_node ast2 name = some fn)
    (h3 : find_body_node fn = Option.none) :
    Cfg.nodes (build_cfg_from_ast ast name file c).1 = [] ∧
    Cfg.edges (build_cfg_from_ast ast name file c).1 = [] ∧
    (Cfg.nodes (build_cfg_from_ast ast2 name file c2).1).map (fun p => (p.1, p.2.type))
        = [(name ++ "_entry", "entry"), (name ++ "_exit", "exit")] ∧
    Cfg.edges (build_cfg_from_ast ast2 name file c2).1
        = [(name ++ "_entry", name ++ "_exit", "normal")] := by
  have hne : ((name ++ "_entry") == (name ++ "_exit")) = false := by
    rw [beq_eq_false_iff_ne]
    exact entry_ne_exit name
  refine ⟨?_, ?_, ?_, ?_⟩ <;>
    simp [build_cfg_from_ast, h1, h2, h3, Cfg.addNode, NxDiGraph.addNode,
      NxDiGraph.hasNode, Cfg.addEdge, NxDiGraph.addEdge, NxDiGraph.hasEdge,
      Cfg.nodes, Cfg.edges, hne]

/-- Witness for C10: a leaf AST without any function, and a function node
without a `compound_statement` body. -/
theorem build_cfg_not_found_vs_empty_body_witness :
    Cfg.nodes (build_cfg_from_ast (ASTNode.mk "translation_unit" "" Option.none 0 [])
        "g" "a.cc" 0).1 = [] ∧
    Cfg.edges (build_cfg_from_ast (ASTNode.mk "translation_unit" "" Option.none 0 [])
        "g" "a.cc" 0).1 = [] ∧
    (Cfg.nodes (build_cfg_from_ast (ASTNode.mk "function_definition" "" (some "g") 0 [])
        "g" "a.cc" 0).1).map (fun p => (p.1, p.2.type))
        = [("g" ++ "_entry", "entry"), ("g" ++ "_exit", "exit")] ∧
    Cfg.edges (build_cfg_from_ast (ASTNode.mk "function_definition" "" (some "g") 0 [])
        "g" "a.cc" 0).1
        = [("g" ++ "_entry", "g" ++ "_exit", "normal")] :=
  build_cfg_not_found_vs_empty_body
    (ASTNode.mk "translation_unit" "" Option.none 0 [])
    (ASTNode.mk "function_definition" "" (some "g") 0 [])
    (ASTNode.mk "function_definition" "" (some "g") 0 [])
    "g" "a.cc" 0 0 rfl rfl (by simp [find_body_node, find_body_node_list, ASTNode.astChildren])

/-!
## C8: node ids across two same-named functions

`main.py` (line 148) passes the bare `func_name` to `build_cfg_from_ast`, and
the builder instance's `node_counter` persists across builds.  Two functions
with the same bare name — for example methods of two different classes — are
therefore built under the same name.
-/

/-- A function body consisting of a single `return;`. -/
def fooBody : ASTNode :=
  ASTNode.mk "compound_statement" "{ return; }" none 0 [retStmt "return;"]

def fooAstA : ASTNode :=
  ASTNode.mk "function_definition" "void A::foo() ..." (some "foo") 0 [fooBody]

def fooAstB : ASTNode :=
  ASTNode.mk "function_definition" "void B::foo() ..." (some "foo") 0 [fooBody]

/-- First build (`A::foo`, bare name `foo`, fresh builder). -/
def fooBuild1 : Cfg × Nat := build_cfg_from_ast fooAstA "foo" "a.cc" 0

/-- Second build (`B::foo`, bare name `foo`, same builder counter). -/
def fooBuild2 : Cfg × Nat := build_cfg_from_ast fooAstB "foo" "b.cc" fooBuild1.2

theorem fooBuild1_ids :
    NxDiGraph.nodeIds fooBuild1.1 = ["foo_entry", "foo_exit", "foo_stmt_0"]
      ∧ fooBuild1.2 = 1 := by
  constructor <;>
    simp [fooBuild1, fooAstA, fooBody, retStmt, NxDiGraph.nodeIds,
      build_cfg_from_ast, find_function_node, find_function_node_list,
      find_body_node, find_body_node_list, process_statement_block,
      process_statements, extract_statements, extract_statements_list,
      statement_types, create_statement_node, Cfg.addNode, Cfg.addEdge,
      NxDiGraph.addNode, NxDiGraph.addEdge, NxDiGraph.hasNode,
      NxDiGraph.hasEdge, ASTNode.astType, ASTNode.astChildren,
      ASTNode.astText, ASTNode.astFun, ASTNode.astRow, toString_nat_0]

theorem fooBuild2_ids :
    NxDiGraph.nodeIds fooBuild2.1 = ["foo_entry", "foo_exit", "foo_stmt_1"]
      ∧ fooBuild2.2 = 2 := by
  have h1 : fooBuild1.2 = 1 := fooBuild1_ids.2
  constructor <;>
    simp [fooBuild2, h1, fooAstB, fooBody, retStmt, NxDiGraph.nodeIds,
      build_cfg_from_ast, find_function_node, find_function_node_list,
      find_body_node, find_body_node_list, process_statement_block,
      process_statements, extract_statements, extract_statements_list,
      statement_types, create_statement_node, Cfg.addNode, Cfg.addEdge,
      NxDiGraph.addNode, NxDiGraph.addEdge, NxDiGraph.hasNode,
      NxDiGraph.hasEdge, ASTNode.astType, ASTNode.astChildren,
      ASTNode.astText, ASTNode.astFun, ASTNode.astRow, toString_nat_1]

/-- C8, counterexample: the node-id sets of the CFGs of two distinct
same-named functions are not disjoint — both builds emit `foo_entry` and
`foo_exit`, because entry/exit ids are derived from the caller-supplied bare
name only. -/
theorem same_named_functions_ids_not_disjoint :
    ¬ List.Disjoint (NxDiGraph.nodeIds fooBuild1.1) (NxDiGraph.nodeIds fooBuild2.1) := by
  rw [fooBuild1_ids.1, fooBuild2_ids.1]
  intro hd
  exact hd (a := "foo_entry") (by decide) (by decide)

/-- C8, amended: node ids are deterministic, derived from the function name
passed by the caller (the bare name, per `main.py`) plus the builder-wide
counter; the counter value is consumed exactly once, so the counter-bearing
statement ids of the two builds differ, but the entry/exit ids coincide: the
two id sets overlap in exactly `foo_entry` and `foo_exit`. -/
theorem same_named_functions_id_overlap :
    NxDiGraph.nodeIds fooBuild1.1 = ["foo_entry", "foo_exit", "foo_stmt_0"] ∧
    NxDiGraph.nodeIds fooBuild2.1 = ["foo_entry", "foo_exit", "foo_stmt_1"] ∧
    fooBuild1.2 = 1 ∧ fooBuild2.2 = 2 ∧
    (NxDiGraph.nodeIds fooBuild1.1).filter
        (fun id => id ∈ NxDiGraph.nodeIds fooBuild2.1)
      = ["foo_entry", "foo_exit"] := by
  refine ⟨fooBuild1_ids.1, fooBuild2_ids.1, fooBuild1_ids.2, fooBuild2_ids.2, ?_⟩
  rw [fooBuild1_ids.1, fooBuild2_ids.1]
  decide

/-!
## C5: topological order on a cyclic call graph
-/

/-- Scenario C's builder state: functions `a` and `b`, `a` calls `b` and `b`
calls `a` (callees resolved through `_resolve_callee`, as
`extract_calls_from_ast` does). -/
def cycle_cg_builder : CallGraphBuilder :=
  let st : CallGraphBuilder := {}
  let st := add_function st "a" "a.cc" Option.none Option.none false false
  let st := add_function st "b" "a.cc" Option.none Option.none false false
  let st := add_call st "a" (resolve_callee st "b" "a.cc" Option.none Option.none)
    Option.none Option.none "direct"
  add_call st "b" (resolve_callee st "a" "a.cc" Option.none Option.none)
    Option.none Option.none "direct"

/-- C5: on the two-node cyclic call graph of Scenario C,
`get_topological_order` does not fall back to the node listing — it raises.
`nx.topological_sort` raises `NetworkXUnfeasible` on a cycle, and the
`except nx.NetworkXError` clause does not match it
(`NetworkXUnfeasible` derives from `NetworkXAlgorithmError`, not from
`NetworkXError`), so the exception propagates to the caller. -/
theorem topological_order_cycle_raises :
    NxDiGraph.nodeIds cycle_cg_builder.call_graph = ["a", "b"] ∧
    (NxDiGraph.edges cycle_cg_builder.call_graph).map (fun e => (e.1, e.2.1))
      = [("a", "b"), ("b", "a")] ∧
    get_topological_order cycle_cg_builder
      = Except.error NxExcClass.NetworkXUnfeasible ∧
    nx_exc_matches NxExcClass.NetworkXUnfeasible NxExcClass.NetworkXError = false :=
  ⟨rfl, rfl, rfl, rfl⟩

/-!
## C6: callee resolution policy
-/

/-- The resolution order as the spec states it, over an abstract "known
qualified name" predicate: class-qualified first, then namespace-qualified,
then the bare name, else the bare name unchanged. -/
def resolve_callee_spec (known : String → Bool) (callee : String)
    (class_name namespace_v : Option String) : String :=
  if py_truthy_opt class_name && known (class_name.getD "" ++ "::" ++ callee) then
    class_name.getD "" ++ "::" ++ callee
  else if py_truthy_opt namespace_v && known (namespace_v.getD "" ++ "::" ++ callee) then
    namespace_v.getD "" ++ "::" ++ callee
  else callee

/-- C6, part of the claim's theorem: `_resolve_callee` implements the
first-match-wins order (a) class-qualified, (b) namespace-qualified, (c) bare
known, (d) bare unchanged, where "known" is membership in
`function_locations`. -/
theorem resolve_callee_eq_spec (st : CallGraphBuilder) (callee file : String)
    (class_name namespace_v : Option String) :
    resolve_callee st callee file class_name namespace_v
      = resolve_callee_spec (fun q => dict_mem st.function_locations q) callee
          class_name namespace_v := by
  rw [resolve_callee, resolve_callee_spec]
  by_cases hc : py_truthy_opt class_name
  · by_cases hk : dict_mem st.function_locations (class_name.getD "" ++ "::" ++ callee)
    · simp [hc, hk]
    · by_cases hn : py_truthy_opt namespace_v
      · by_cases hk2 : dict_mem st.function_locations (namespace_v.getD "" ++ "::" ++ callee)
        · simp [hc, hk, hn, hk2]
        · by_cases hk3 : dict_mem st.function_locations callee <;>
            simp [hc, hk, hn, hk2, hk3]
      · by_cases hk3 : dict_mem st.function_locations callee <;>
          simp [hc, hk, hn, hk3]
  · by_cases hn : py_truthy_opt namespace_v
    · by_cases hk2 : dict_mem st.function_locations (namespace_v.getD "" ++ "::" ++ callee)
      · simp [hc, hn, hk2]
      · by_cases hk3 : dict_mem st.function_locations callee <;>
          simp [hc, hn, hk2, hk3]
    · by_cases hk3 : dict_mem st.function_locations callee <;>
        simp [hc, hn, hk3]

theorem hasNode_append_right (g : NxDiGraph α β) (l : List (String × α)) (x : String)
    (h : g.hasNode x = true) :
    NxDiGraph.hasNode { g with nodes := g.nodes ++ l } x = true := by
  rw [NxDiGraph.hasNode] at h ⊢
  simp only [List.any_append, h, Bool.true_or]

theorem addNode_hasNode_self (g : NxDiGraph α β) (id : String) (a : α) :
    (g.addNode id a).hasNode id = true := by
  rw [NxDiGraph.addNode]
  by_cases h : g.hasNode id
  · rw [if_pos h]
    rw [NxDiGraph.hasNode, List.any_eq_true] at h ⊢
    obtain ⟨p, hp, hpe⟩ := h
    exact ⟨(id, a), List.mem_map.mpr ⟨p, hp, by simp [hpe]⟩, by simp⟩
  · rw [if_neg h]
    rw [NxDiGraph.hasNode]
    simp [List.any_append]

theorem addNode_hasNode_mono (g : NxDiGraph α β) (id : String) (a : α) (x : String)
    (h : g.hasNode x = true) : (g.addNode id a).hasNode x = true := by
  rw [NxDiGraph.addNode]
  by_cases hi : g.hasNode id
  · rw [if_pos hi]
    rw [NxDiGraph.hasNode, List.any_eq_true] at h ⊢
    obtain ⟨p, hp, hpe⟩ := h
    by_cases he : (p.1 == id) = true
    · refine ⟨(id, a), List.mem_map.mpr ⟨p, hp, by simp [he]⟩, ?_⟩
      have h1 : p.1 = id := by simpa using he
      have h2 : p.1 = x := by simpa using hpe
      simp [← h1, h2]
    · exact ⟨p, List.mem_map.mpr ⟨p, hp, by simp [he]⟩, hpe⟩
  · rw [if_neg hi]
    exact hasNode_append_right g _ x h

theorem ensure_node_hasNode [Inhabited α] (g : NxDiGraph α β) (u x : String)
    (h : g.hasNode x = true) :
    NxDiGraph.hasNode
      (if g.hasNode u then g else { g with nodes := g.nodes ++ [(u, default)] }) x
      = true := by
  split
  · exact h
  · exact hasNode_append_right g _ x h

theorem ensure_node_self [Inhabited α] (g : NxDiGraph α β) (u : String) :
    NxDiGraph.hasNode
      (if g.hasNode u then g else { g with nodes := g.nodes ++ [(u, default)] }) u
      = true := by
  by_cases h : g.hasNode u
  · rw [if_pos h]; exact h
  · rw [if_neg h]
    rw [NxDiGraph.hasNode]
    simp [List.any_append]

theorem addEdge_nodes_shape [Inhabited α] (g : NxDiGraph α β) (u v : String) (b : β) :
    ∃ l, (g.addEdge u v b).nodes = g.nodes ++ l := by
  rw [NxDiGraph.addEdge]
  split <;> split <;> split
  · exact ⟨[], by rw [List.append_nil]⟩
  · exact ⟨[], by rw [List.append_nil]⟩
  · exact ⟨[(v, default)], rfl⟩
  · exact ⟨[(v, default)], rfl⟩
  · exact ⟨[(u, default)], rfl⟩
  · exact ⟨[(u, default)], rfl⟩
  · exact ⟨[(u, default), (v, default)], by rw [List.append_assoc] <;> rfl⟩
  · exact ⟨[(u, default), (v, default)], by rw [List.append_assoc] <;> rfl⟩

theorem addEdge_hasNode_mono [Inhabited α] (g : NxDiGraph α β) (u v : String) (b : β)
    (x : String) (h : g.hasNode x = true) : (g.addEdge u v b).hasNode x = true := by
  obtain ⟨l, hl⟩ := addEdge_nodes_shape g u v b
  rw [NxDiGraph.hasNode] at h ⊢
  rw [hl]
  simp [List.any_append, h]

theorem add_call_hasNode_callee (st : CallGraphBuilder) (caller callee : String)
    (cc cns : Option String) (ct : String) :
    NxDiGraph.hasNode (add_call st caller callee cc cns ct).call_graph callee = true := by
  rw [add_call]
  set q := get_qualified_name caller cc cns with hq
  set g1 : NxDiGraph (Option CGNodeAttrs) CGEdgeAttrs :=
    if st.call_graph.hasNode q = true then st.call_graph
    else st.call_graph.addNode q Option.none with hg1
  by_cases h2 : g1.hasNode callee = true
  · rw [if_pos h2]
    by_cases h3 : g1.hasEdge q callee = true
    · rw [if_pos h3]
      exact h2
    · rw [if_neg h3]
      exact addEdge_hasNode_mono g1 q callee _ callee h2
  · rw [if_neg h2]
    by_cases h3 : (g1.addNode callee Option.none).hasEdge q callee = true
    · rw [if_pos h3]
      exact addNode_hasNode_self g1 callee Option.none
    · rw [if_neg h3]
      exact addEdge_hasNode_mono (g1.addNode callee Option.none) q callee _ callee
        (addNode_hasNode_self g1 callee Option.none)

theorem addNode_fresh_lookup (g : NxDiGraph α β) (x : String) (a : α)
    (h : g.hasNode x = false) :
    NxDiGraph.lookupNode (g.addNode x a) x = some a := by
  rw [NxDiGraph.addNode, if_neg (by simp [h])]
  rw [NxDiGraph.lookupNode]
  have hfind : g.nodes.find? (fun p => p.1 == x) = Option.none := by
    rw [List.find?_eq_none]
    rw [NxDiGraph.hasNode, List.any_eq_false] at h
    exact h
  simp [List.find?_append, hfind]

theorem lookupNode_eq_of_nodes_eq (g g' : NxDiGraph α β) (x : String)
    (h : NxDiGraph.nodes g = NxDiGraph.nodes g') :
    NxDiGraph.lookupNode g x = NxDiGraph.lookupNode g' x := by
  rw [NxDiGraph.lookupNode, NxDiGraph.lookupNode, h]

theorem addEdge_nodes_of_hasNode [Inhabited α] (g : NxDiGraph α β) (u v : String) (b : β)
    (hu : g.hasNode u = true) (hv : g.hasNode v = true) :
    (g.addEdge u v b).nodes = g.nodes := by
  rw [NxDiGraph.addEdge, if_pos hu, if_pos hv]
  split <;> rfl

theorem add_call_fresh_callee_unresolved (st : CallGraphBuilder) (caller callee : String)
    (cc cns : Option String) (ct : String)
    (h : st.call_graph.hasNode callee = false) :
    NxDiGraph.lookupNode (add_call st caller callee cc cns ct).call_graph callee
      = some Option.none := by
  rw [add_call]
  set q := get_qualified_name caller cc cns with hq
  by_cases h1 : st.call_graph.hasNode q = true
  · rw [if_pos h1,
      if_neg (show ¬ (st.call_graph.hasNode callee = true) by simp [h])]
    have hlk : NxDiGraph.lookupNode (st.call_graph.addNode callee Option.none) callee
        = some Option.none := addNode_fresh_lookup _ _ _ h
    have hqn : (st.call_graph.addNode callee Option.none).hasNode q = true :=
      addNode_hasNode_mono _ _ _ _ h1
    have hcn : (st.call_graph.addNode callee Option.none).hasNode callee = true :=
      addNode_hasNode_self _ _ _
    by_cases h3 : (st.call_graph.addNode callee Option.none).hasEdge q callee = true
    · rw [if_pos h3]
      exact (lookupNode_eq_of_nodes_eq _ _ callee rfl).trans hlk
    · rw [if_neg h3]
      refine (lookupNode_eq_of_nodes_eq _ _ callee ?_).trans hlk
      exact addEdge_nodes_of_hasNode _ _ _ _ hqn hcn
  · rw [if_neg h1]
    by_cases h2 : (st.call_graph.addNode q Option.none).hasNode callee = true
    · rw [if_pos h2]
      have hqc : q = callee := by
        rw [NxDiGraph.addNode, if_neg (by simp [h1])] at h2
        rw [NxDiGraph.hasNode] at h2
        rw [List.any_append] at h2
        rw [NxDiGraph.hasNode] at h
        simp only [h, Bool.false_or] at h2
        simpa using h2
      have hlk : NxDiGraph.lookupNode (st.call_graph.addNode q Option.none) callee
          = some Option.none := by
        rw [hqc]
        exact addNode_fresh_lookup _ _ _ h
      have hqn : (st.call_graph.addNode q Option.none).hasNode q = true :=
        addNode_hasNode_self _ _ _
      by_cases h3 : (st.call_graph.addNode q Option.none).hasEdge q callee = true
      · rw [if_pos h3]
        exact (lookupNode_eq_of_nodes_eq _ _ callee rfl).trans hlk
      · rw [if_neg h3]
        refine (lookupNode_eq_of_nodes_eq _ _ callee ?_).trans hlk
        exact addEdge_nodes_of_hasNode _ _ _ _ hqn h2
    · rw [if_neg h2]
      have hlk : NxDiGraph.lookupNode
          ((st.call_graph.addNode q Option.none).addNode callee Option.none) callee
          = some Option.none :=
        addNode_fresh_lookup _ _ _ (by simpa using h2)
      have hqn : ((st.call_graph.addNode q Option.none).addNode callee Option.none).hasNode q
          = true :=
        addNode_hasNode_mono _ _ _ _ (addNode_hasNode_self _ _ _)
      have hcn : ((st.call_graph.addNode q Option.none).addNode callee Option.none).hasNode
          callee = true := addNode_hasNode_self _ _ _
      by_cases h3 : ((st.call_graph.addNode q Option.none).addNode callee
          Option.none).hasEdge q callee = true
      · rw [if_pos h3]
        exact (lookupNode_eq_of_nodes_eq _ _ callee rfl).trans hlk
      · rw [if_neg h3]
        refine (lookupNode_eq_of_nodes_eq _ _ callee ?_).trans hlk
        exact addEdge_nodes_of_hasNode _ _ _ _ hqn hcn

/-- C6: `_resolve_callee` tries, first match winning, (a) the class-qualified
name when the caller has a class context and that key is known, (b) the
namespace-qualified name when known, (c) the bare name when known, and
otherwise (d) returns the bare name unchanged; `add_call` then makes the
resolved callee a node of the graph, and when it was not yet a node it is
added as a fresh node with the empty attribute mapping (an
external/unresolved callee). -/
theorem resolve_callee_policy (st : CallGraphBuilder) (callee file caller ct : String)
    (class_name namespace_v cc cns : Option String) :
    resolve_callee st callee file class_name namespace_v
        = resolve_callee_spec (fun q => dict_mem st.function_locations q) callee
            class_name namespace_v
      ∧ NxDiGraph.hasNode
          (add_call st caller (resolve_callee st callee file class_name namespace_v)
            cc cns ct).call_graph
          (resolve_callee st callee file class_name namespace_v) = true
      ∧ (st.call_graph.hasNode (resolve_callee st callee file class_name namespace_v)
            = false →
          NxDiGraph.lookupNode
            (add_call st caller (resolve_callee st callee file class_name namespace_v)
              cc cns ct).call_graph
            (resolve_callee st callee file class_name namespace_v) = some Option.none) :=
  ⟨resolve_callee_eq_spec st callee file class_name namespace_v,
   add_call_hasNode_callee st caller _ cc cns ct,
   fun h => add_call_fresh_callee_unresolved st caller _ cc cns ct h⟩

/-- A builder knowing only `C::m`, used as the witness state for C6. -/
def c6_builder : CallGraphBuilder :=
  add_function {} "m" "c.cc" (some "C") Option.none false false

/-- Witness for C6 at a concrete state: the bare name `helper` resolves to
itself (branch (d)) and `add_call` adds it as a fresh attribute-less node. -/
theorem resolve_callee_policy_witness :
    resolve_callee c6_builder "helper" "c.cc" (some "C") Option.none
        = resolve_callee_spec (fun q => dict_mem c6_builder.function_locations q) "helper"
            (some "C") Option.none
      ∧ NxDiGraph.hasNode
          (add_call c6_builder "caller"
            (resolve_callee c6_builder "helper" "c.cc" (some "C") Option.none)
            Option.none Option.none "direct").call_graph
          (resolve_callee c6_builder "helper" "c.cc" (some "C") Option.none) = true
      ∧ NxDiGraph.lookupNode
          (add_call c6_builder "caller"
            (resolve_callee c6_builder "helper" "c.cc" (some "C") Option.none)
            Option.none Option.none "direct").call_graph
          (resolve_callee c6_builder "helper" "c.cc" (some "C") Option.none)
          = some Option.none := by
  have h := resolve_callee_policy c6_builder "helper" "c.cc" "caller" "direct"
    (some "C") Option.none Option.none Option.none
  exact ⟨h.1, h.2.1, h.2.2 (by decide)⟩

/-!
## C7: termination and uniqueness of control-block recovery
-/

/-- A CFG whose edge endpoints are all nodes of the graph (true of every
networkx `DiGraph`, which inserts endpoints on `add_edge`). -/
def Closed (cfg : Cfg) : Prop :=
  ∀ e ∈ NxDiGraph.edges cfg, e.1 ∈ NxDiGraph.nodeIds cfg ∧ e.2.1 ∈ NxDiGraph.nodeIds cfg

instance (cfg : Cfg) : Decidable (Closed cfg) := by
  rw [Closed]
  infer_instance

/-- The number of distinct node ids not yet visited. -/
def unvisited (cfg : Cfg) (visited : List String) : Nat :=
  (((NxDiGraph.nodeIds cfg).dedup).filter (fun id => decide (id ∉ visited))).length

mutual

/-- The CFG node ids that contributed a block recovered from a node:
the ids of `if`/`loop`/`sequence` blocks, not of synthesized `else` blocks
(whose ids do not come from a CFG node). -/
def recIdsCB : ControlBlock → List String
  | .mk bid btype _ _ children _ =>
    (if btype = "else" then [] else [bid]) ++ recIdsVals children

def recIdsVal : PyVal → List String
  | .cb b => recIdsCB b
  | .list xs => recIdsVals xs
  | .dict kvs => recIdsKvs kvs
  | _ => []

def recIdsVals : List PyVal → List String
  | [] => []
  | v :: vs => recIdsVal v ++ recIdsVals vs

def recIdsKvs : List (String × PyVal) → List String
  | [] => []
  | (_, v) :: kvs => recIdsVal v ++ recIdsKvs kvs

end

def recIdsCBs : List ControlBlock → List String
  | [] => []
  | b :: bs => recIdsCB b ++ recIdsCBs bs

theorem recIdsCBs_append (l₁ l₂ : List ControlBlock) :
    recIdsCBs (l₁ ++ l₂) = recIdsCBs l₁ ++ recIdsCBs l₂ := by
  induction l₁ with
  | nil => simp [recIdsCBs]
  | cons b bs ih => simp [recIdsCBs, ih]

theorem recIdsVals_append (l₁ l₂ : List PyVal) :
    recIdsVals (l₁ ++ l₂) = recIdsVals l₁ ++ recIdsVals l₂ := by
  induction l₁ with
  | nil => simp [recIdsVals]
  | cons v vs ih => simp [recIdsVals, ih]

theorem recIdsVals_map_cb (l : List ControlBlock) :
    recIdsVals (l.map PyVal.cb) = recIdsCBs l := by
  induction l with
  | nil => simp [recIdsVals, recIdsCBs]
  | cons b bs ih => simp [recIdsVals, recIdsVal, recIdsCBs, ih]

/-- The visited list only grows, and it grows only by node ids of the graph. -/
def VisExt (cfg : Cfg) (visited vis : List String) : Prop :=
  (∀ x ∈ visited, x ∈ vis) ∧ (∀ x ∈ vis, x ∈ visited ∨ x ∈ NxDiGraph.nodeIds cfg)

/-- The recovered ids are distinct, were unvisited on entry, and are visited
on exit. -/
def RecOK (ids visited vis : List String) : Prop :=
  ids.Nodup ∧ ∀ x ∈ ids, x ∉ visited ∧ x ∈ vis

theorem visext_refl (cfg : Cfg) (v : List String) : VisExt cfg v v :=
  ⟨fun _ h => h, fun _ h => Or.inl h⟩

theorem visext_trans {cfg : Cfg} {a b c : List String}
    (h1 : VisExt cfg a b) (h2 : VisExt cfg b c) : VisExt cfg a c := by
  refine ⟨fun x hx => h2.1 x (h1.1 x hx), fun x hx => ?_⟩
  rcases h2.2 x hx with h | h
  · rcases h1.2 x h with h' | h'
    · exact Or.inl h'
    · exact Or.inr h'
  · exact Or.inr h

theorem visext_cons {cfg : Cfg} {v : List String} {node : String}
    (h : node ∈ NxDiGraph.nodeIds cfg) : VisExt cfg v (node :: v) := by
  refine ⟨fun x hx => List.mem_cons_of_mem _ hx, fun x hx => ?_⟩
  rcases List.mem_cons.mp hx with rfl | hx
  · exact Or.inr h
  · exact Or.inl hx

theorem recok_nil (visited vis : List String) : RecOK [] visited vis :=
  ⟨List.nodup_nil, fun x hx => absurd hx (List.not_mem_nil x)⟩

theorem recok_seq {ids₁ ids₂ visited vis₁ vis₂ : List String}
    (h1 : RecOK ids₁ visited vis₁) (h2 : RecOK ids₂ vis₁ vis₂)
    (hsub : ∀ x ∈ visited, x ∈ vis₁) (hsub2 : ∀ x ∈ vis₁, x ∈ vis₂) :
    RecOK (ids₁ ++ ids₂) visited vis₂ := by
  refine ⟨?_, ?_⟩
  · rw [List.nodup_append]
    refine ⟨h1.1, h2.1, fun x hx₁ hx₂ => ?_⟩
    exact (h2.2 x hx₂).1 ((h1.2 x hx₁).2)
  · intro x hx
    rcases List.mem_append.mp hx with hx | hx
    · exact ⟨(h1.2 x hx).1, hsub2 x (h1.2 x hx).2⟩
    · exact ⟨fun hv => (h2.2 x hx).1 (hsub x hv), (h2.2 x hx).2⟩

theorem countP_lt_of_witness (l : List String) (p q : String → Bool)
    (hpq : ∀ a ∈ l, q a = true → p a = true) (a : String) (ha : a ∈ l)
    (hp : p a = true) (hq : q a = false) :
    l.countP q < l.countP p := by
  induction l with
  | nil => cases ha
  | cons b bs ih =>
    rcases List.mem_cons.mp ha with rfl | ha
    · have h1 : bs.countP q ≤ bs.countP p :=
        List.countP_mono_left (fun x hx => hpq x (List.mem_cons_of_mem _ hx))
      simp only [List.countP_cons, hp, hq, Bool.false_eq_true, if_false,
        eq_self_iff_true, if_true]
      omega
    · have h1 := ih (fun x hx => hpq x (List.mem_cons_of_mem _ hx)) ha
      simp only [List.countP_cons]
      by_cases hb : q b = true
      · have := hpq b (List.mem_cons_self _ _) hb
        simp [hb, this]
        omega
      · simp only [Bool.not_eq_true] at hb
        by_cases hb2 : p b = true <;> simp [hb, hb2] <;> omega

theorem unvisited_le_of_visext {cfg : Cfg} {v₁ v₂ : List String}
    (h : ∀ x ∈ v₁, x ∈ v₂) : unvisited cfg v₂ ≤ unvisited cfg v₁ := by
  rw [unvisited, unvisited, ← List.countP_eq_length_filter, ← List.countP_eq_length_filter]
  refine List.countP_mono_left (fun x _ hx => ?_)
  simp only [decide_eq_true_eq] at hx ⊢
  exact fun hv => hx (h x hv)

theorem unvisited_cons_lt {cfg : Cfg} {visited : List String} {node : String}
    (h1 : node ∈ NxDiGraph.nodeIds cfg) (h2 : node ∉ visited) :
    unvisited cfg (node :: visited) < unvisited cfg visited := by
  rw [unvisited, unvisited, ← List.countP_eq_length_filter, ← List.countP_eq_length_filter]
  refine countP_lt_of_witness _ _ _ ?_ node (List.mem_dedup.mpr h1) ?_ ?_
  · intro a _ ha
    simp only [decide_eq_true_eq] at ha ⊢
    exact fun hv => ha (List.mem_cons_of_mem _ hv)
  · simpa using h2
  · simp

theorem lookupNode_isSome_of_mem (g : NxDiGraph α β) (x : String)
    (h : x ∈ g.nodeIds) : ∃ a, g.lookupNode x = some a := by
  rw [NxDiGraph.nodeIds] at h
  obtain ⟨p, hp, hpx⟩ := List.mem_map.mp h
  rw [NxDiGraph.lookupNode]
  have : (g.nodes.find? (fun p => p.1 == x)).isSome := by
    rw [List.find?_isSome]
    exact ⟨p, hp, by simp [hpx]⟩
  obtain ⟨q, hq⟩ := Option.isSome_iff_exists.mp this
  exact ⟨q.2, by rw [hq]; rfl⟩

def TraverseOK (cfg : Cfg) (fuel : Nat) : Prop :=
  ∀ node visited, node ∈ NxDiGraph.nodeIds cfg → unvisited cfg visited < fuel →
    ∃ bs vis, traverse_cfg_for_blocks cfg fuel node visited = some (bs, vis) ∧
      VisExt cfg visited vis ∧ RecOK (recIdsCBs bs) visited vis

def BranchOK (cfg : Cfg) (fuel : Nat) : Prop :=
  ∀ es node_id, ∀ visited, (∀ e ∈ es, e ∈ NxDiGraph.edges cfg) →
    unvisited cfg visited < fuel →
    ∃ ps vis, traverse_branch_succ cfg fuel es node_id visited = some (ps, vis) ∧
      VisExt cfg visited vis ∧ RecOK (recIdsVals ps) visited vis

def LoopOK (cfg : Cfg) (fuel : Nat) : Prop :=
  ∀ es, ∀ visited, (∀ e ∈ es, e ∈ NxDiGraph.edges cfg) →
    unvisited cfg visited < fuel →
    ∃ ps vis, traverse_loop_succ cfg fuel es visited = some (ps, vis) ∧
      VisExt cfg visited vis ∧ RecOK (recIdsVals ps) visited vis

def StmtOK (cfg : Cfg) (fuel : Nat) : Prop :=
  ∀ es, ∀ visited, (∀ e ∈ es, e ∈ NxDiGraph.edges cfg) →
    unvisited cfg visited < fuel →
    ∃ ps vis, traverse_stmt_succ cfg fuel es visited = some (ps, vis) ∧
      VisExt cfg visited vis ∧ RecOK (recIdsCBs ps) visited vis

theorem traverse_fuel_ok (cfg : Cfg) (hC : Closed cfg) (fuel : Nat) :
    TraverseOK cfg fuel ∧ BranchOK cfg fuel ∧ LoopOK cfg fuel ∧ StmtOK cfg fuel := by
  induction fuel with
  | zero =>
    refine ⟨?_, ?_, ?_, ?_⟩
    · intro node visited _ hfuel
      exact absurd hfuel (Nat.not_lt_zero _)
    · intro es node_id visited _ hfuel
      exact absurd hfuel (Nat.not_lt_zero _)
    · intro es visited _ hfuel
      exact absurd hfuel (Nat.not_lt_zero _)
    · intro es visited _ hfuel
      exact absurd hfuel (Nat.not_lt_zero _)
  | succ fuel ih =>
    have hT : TraverseOK cfg (fuel + 1) := by
      intro node visited hnode hfuel
      by_cases hv : node ∈ visited
      · refine ⟨[], visited, ?_, visext_refl cfg visited, recok_nil _ _⟩
        simp [traverse_cfg_for_blocks, hv]
      · obtain ⟨a, ha⟩ := lookupNode_isSome_of_mem cfg node hnode
        have hfuel' : unvisited cfg (node :: visited) < fuel := by
          have h1 : unvisited cfg (node :: visited) < unvisited cfg visited :=
            unvisited_cons_lt hnode hv
          omega
        have hvx0 : VisExt cfg visited (node :: visited) := visext_cons hnode
        by_cases hb : a.type = "branch"
        · obtain ⟨ps, vis, hrun, hvx, hrec⟩ :=
            ih.2.1 ((Cfg.edges cfg).filter (fun e => e.1 == node)) node
              (node :: visited) (fun e he => (List.mem_filter.mp he).1) hfuel'
          refine ⟨[ControlBlock.mk node "if" a.label
              (some (a.label.replace "If: " "")) ps
              [("node_type", PyVal.str a.type)]], vis, ?_, visext_trans hvx0 hvx, ?_⟩
          · simp [traverse_cfg_for_blocks, hv, ha, hb, hrun]
          · have hids : recIdsCBs [ControlBlock.mk node "if" a.label
                (some (a.label.replace "If: " "")) ps
                [("node_type", PyVal.str a.type)]] = node :: recIdsVals ps := by
              simp [recIdsCBs, recIdsCB]
            rw [hids]
            refine ⟨?_, ?_⟩
            · rw [List.nodup_cons]
              exact ⟨fun hmem => (hrec.2 node hmem).1 (List.mem_cons_self _ _), hrec.1⟩
            · intro x hx
              rcases List.mem_cons.mp hx with rfl | hx
              · exact ⟨hv, hvx.1 x (List.mem_cons_self _ _)⟩
              · exact ⟨fun hvv => (hrec.2 x hx).1 (List.mem_cons_of_mem _ hvv),
                  (hrec.2 x hx).2⟩
        · by_cases hl : a.type = "loop"
          · obtain ⟨ps, vis, hrun, hvx, hrec⟩ :=
              ih.2.2.1 ((Cfg.edges cfg).filter (fun e => e.1 == node))
                (node :: visited) (fun e he => (List.mem_filter.mp he).1) hfuel'
            refine ⟨[ControlBlock.mk node "loop" a.label Option.none ps
                [("node_type", PyVal.str a.type)]], vis, ?_, visext_trans hvx0 hvx, ?_⟩
            · simp [traverse_cfg_for_blocks, hv, ha, hb, hl, hrun]
            · have hids : recIdsCBs [ControlBlock.mk node "loop" a.label Option.none ps
                  [("node_type", PyVal.str a.type)]] = node :: recIdsVals ps := by
                simp [recIdsCBs, recIdsCB]
              rw [hids]
              refine ⟨?_, ?_⟩
              · rw [List.nodup_cons]
                exact ⟨fun hmem => (hrec.2 node hmem).1 (List.mem_cons_self _ _), hrec.1⟩
              · intro x hx
                rcases List.mem_cons.mp hx with rfl | hx
                · exact ⟨hv, hvx.1 x (List.mem_cons_self _ _)⟩
                · exact ⟨fun hvv => (hrec.2 x hx).1 (List.mem_cons_of_mem _ hvv),
                    (hrec.2 x hx).2⟩
          · by_cases hs : a.type ∈ (["statement", "return"] : List String)
            · obtain ⟨ps, vis, hrun, hvx, hrec⟩ :=
                ih.2.2.2 ((Cfg.edges cfg).filter (fun e => e.1 == node))
                  (node :: visited) (fun e he => (List.mem_filter.mp he).1) hfuel'
              refine ⟨ControlBlock.mk node "sequence" a.label Option.none []
                  [("node_type", PyVal.str a.type)] :: ps, vis, ?_,
                visext_trans hvx0 hvx, ?_⟩
              · simp [traverse_cfg_for_blocks, hv, ha, hb, hl, hs, hrun]
              · have hids : recIdsCBs (ControlBlock.mk node "sequence" a.label Option.none []
                    [("node_type", PyVal.str a.type)] :: ps) = node :: recIdsCBs ps := by
                  simp [recIdsCBs, recIdsCB, recIdsVals]
                rw [hids]
                refine ⟨?_, ?_⟩
                · rw [List.nodup_cons]
                  exact ⟨fun hmem => (hrec.2 node hmem).1 (List.mem_cons_self _ _), hrec.1⟩
                · intro x hx
                  rcases List.mem_cons.mp hx with rfl | hx
                  · exact ⟨hv, hvx.1 x (List.mem_cons_self _ _)⟩
                  · exact ⟨fun hvv => (hrec.2 x hx).1 (List.mem_cons_of_mem _ hvv),
                      (hrec.2 x hx).2⟩
            · refine ⟨[], node :: visited, ?_, hvx0, recok_nil _ _⟩
              simp [traverse_cfg_for_blocks, hv, ha, hb, hl, hs]
    have hB : BranchOK cfg (fuel + 1) := by
      intro es node_id
      induction es with
      | nil =>
        intro visited _ _
        exact ⟨[], visited, by simp [traverse_branch_succ], visext_refl _ _, recok_nil _ _⟩
      | cons e rest ihes =>
        intro visited hes hfuel
        have he : e ∈ NxDiGraph.edges cfg := hes e (List.mem_cons_self _ _)
        have hsucc : e.2.1 ∈ NxDiGraph.nodeIds cfg := (hC e he).2
        have hrest : ∀ e' ∈ rest, e' ∈ NxDiGraph.edges cfg :=
          fun e' he' => hes e' (List.mem_cons_of_mem _ he')
        by_cases ht : e.2.2 = "true"
        · obtain ⟨bs, vis1, hrun1, hvx1, hrec1⟩ := hT e.2.1 visited hsucc hfuel
          obtain ⟨ps, vis2, hrun2, hvx2, hrec2⟩ := ihes vis1 hrest
            (lt_of_le_of_lt (unvisited_le_of_visext hvx1.1) hfuel)
          refine ⟨bs.map PyVal.cb ++ ps, vis2, ?_, visext_trans hvx1 hvx2, ?_⟩
          · simp [traverse_branch_succ, ht, hrun1, hrun2]
          · rw [recIdsVals_append, recIdsVals_map_cb]
            exact recok_seq hrec1 hrec2 hvx1.1 hvx2.1
        · by_cases hf : e.2.2 = "false"
          · obtain ⟨bs, vis1, hrun1, hvx1, hrec1⟩ := hT e.2.1 visited hsucc hfuel
            obtain ⟨ps, vis2, hrun2, hvx2, hrec2⟩ := ihes vis1 hrest
              (lt_of_le_of_lt (unvisited_le_of_visext hvx1.1) hfuel)
            refine ⟨PyVal.cb (ControlBlock.mk (node_id ++ "_else") "else" "Else"
                Option.none (bs.map PyVal.cb) []) :: ps, vis2, ?_,
              visext_trans hvx1 hvx2, ?_⟩
            · simp [traverse_branch_succ, ht, hf, hrun1, hrun2]
            · have hids : recIdsVals (PyVal.cb (ControlBlock.mk (node_id ++ "_else") "else"
                  "Else" Option.none (bs.map PyVal.cb) []) :: ps)
                  = recIdsCBs bs ++ recIdsVals ps := by
                simp [recIdsVals, recIdsVal, recIdsCB, recIdsVals_map_cb]
              rw [hids]
              exact recok_seq hrec1 hrec2 hvx1.1 hvx2.1
          · obtain ⟨ps, vis2, hrun2, hvx2, hrec2⟩ := ihes visited hrest hfuel
            refine ⟨ps, vis2, ?_, hvx2, hrec2⟩
            simp [traverse_branch_succ, ht, hf, hrun2]
    have hL : LoopOK cfg (fuel + 1) := by
      intro es
      induction es with
      | nil =>
        intro visited _ _
        exact ⟨[], visited, by simp [traverse_loop_succ], visext_refl _ _, recok_nil _ _⟩
      | cons e rest ihes =>
        intro visited hes hfuel
        have he : e ∈ NxDiGraph.edges cfg := hes e (List.mem_cons_self _ _)
        have hsucc : e.2.1 ∈ NxDiGraph.nodeIds cfg := (hC e he).2
        have hrest : ∀ e' ∈ rest, e' ∈ NxDiGraph.edges cfg :=
          fun e' he' => hes e' (List.mem_cons_of_mem _ he')
        by_cases ht : e.2.2 ≠ "loop_exit"
        · obtain ⟨bs, vis1, hrun1, hvx1, hrec1⟩ := hT e.2.1 visited hsucc hfuel
          obtain ⟨ps, vis2, hrun2, hvx2, hrec2⟩ := ihes vis1 hrest
            (lt_of_le_of_lt (unvisited_le_of_visext hvx1.1) hfuel)
          refine ⟨bs.map PyVal.cb ++ ps, vis2, ?_, visext_trans hvx1 hvx2, ?_⟩
          · simp [traverse_loop_succ, ht, hrun1, hrun2]
          · rw [recIdsVals_append, recIdsVals_map_cb]
            exact recok_seq hrec1 hrec2 hvx1.1 hvx2.1
        · obtain ⟨ps, vis2, hrun2, hvx2, hrec2⟩ := ihes visited hrest hfuel
          refine ⟨ps, vis2, ?_, hvx2, hrec2⟩
          simp only [Ne, not_not] at ht
          simp [traverse_loop_succ, ht, hrun2]
    have hS : StmtOK cfg (fuel + 1) := by
      intro es
      induction es with
      | nil =>
        intro visited _ _
        exact ⟨[], visited, by simp [traverse_stmt_succ], visext_refl _ _, recok_nil _ _⟩
      | cons e rest ihes =>
        intro visited hes hfuel
        have he : e ∈ NxDiGraph.edges cfg := hes e (List.mem_cons_self _ _)
        have hsucc : e.2.1 ∈ NxDiGraph.nodeIds cfg := (hC e he).2
        have hrest : ∀ e' ∈ rest, e' ∈ NxDiGraph.edges cfg :=
          fun e' he' => hes e' (List.mem_cons_of_mem _ he')
        obtain ⟨a, ha⟩ := lookupNode_isSome_of_mem cfg e.2.1 hsucc
        by_cases hx : a.type ≠ "exit"
        · obtain ⟨bs, vis1, hrun1, hvx1, hrec1⟩ := hT e.2.1 visited hsucc hfuel
          obtain ⟨ps, vis2, hrun2, hvx2, hrec2⟩ := ihes vis1 hrest
            (lt_of_le_of_lt (unvisited_le_of_visext hvx1.1) hfuel)
          refine ⟨bs ++ ps, vis2, ?_, visext_trans hvx1 hvx2, ?_⟩
          · simp [traverse_stmt_succ, ha, hx, hrun1, hrun2]
          · rw [recIdsCBs_append]
            exact recok_seq hrec1 hrec2 hvx1.1 hvx2.1
        · obtain ⟨ps, vis2, hrun2, hvx2, hrec2⟩ := ihes visited hrest hfuel
          refine ⟨ps, vis2, ?_, hvx2, hrec2⟩
          simp only [Ne, not_not] at hx
          simp [traverse_stmt_succ, ha, hx, hrun2]
    exact ⟨hT, hB, hL, hS⟩

/-- C7: on every finite closed CFG (edge endpoints are nodes — true of every
graph networkx produces), control-block recovery terminates — fuel
`|nodes| + 1` always yields a result — and in the recovered tree every
CFG node id contributes at most one recovered block (the ids of the
`if`/`loop`/`sequence` blocks are pairwise distinct, and all are node ids of
the CFG; revisited ids are dropped). -/
theorem control_block_recovery_terminates_unique (cfg : Cfg) (function_name : String)
    (hC : Closed cfg) :
    ∃ bs, cfg_to_control_blocks cfg function_name = some bs ∧
      (recIdsCBs bs).Nodup ∧
      (∀ x ∈ recIdsCBs bs, x ∈ NxDiGraph.nodeIds cfg) := by
  rw [cfg_to_control_blocks]
  cases hh : ((Cfg.nodes cfg).filter (fun p => p.2.type == "entry")).head? with
  | none =>
    exact ⟨[], rfl, List.nodup_nil, by simp [recIdsCBs]⟩
  | some p =>
    have hp : p ∈ Cfg.nodes cfg :=
      List.mem_of_mem_filter (List.mem_of_mem_head? hh)
    have hpid : p.1 ∈ NxDiGraph.nodeIds cfg := List.mem_map.mpr ⟨p, hp, rfl⟩
    have hfuel : unvisited cfg [] < (Cfg.nodes cfg).length + 1 := by
      rw [unvisited]
      have h1 := List.length_filter_le (fun id => decide (id ∉ ([] : List String)))
        (NxDiGraph.nodeIds cfg).dedup
      have h2 := (List.dedup_sublist (NxDiGraph.nodeIds cfg)).length_le
      have h3 : (NxDiGraph.nodeIds cfg).length = (Cfg.nodes cfg).length :=
        List.length_map _ _
      omega
    obtain ⟨bs, vis, hrun, hvx, hrec⟩ :=
      (traverse_fuel_ok cfg hC ((Cfg.nodes cfg).length + 1)).1 p.1 [] hpid hfuel
    refine ⟨bs, ?_, hrec.1, ?_⟩
    · simp [hrun]
    · intro x hx
      rcases hvx.2 x ((hrec.2 x hx).2) with h | h
      · cases h
      · exact h

/-- Witness for C7 at the concrete Scenario A CFG. -/
theorem control_block_recovery_terminates_unique_witness :
    Closed scenarioA_cfg_val ∧
    ∃ bs, cfg_to_control_blocks scenarioA_cfg_val "f" = some bs ∧
      (recIdsCBs bs).Nodup ∧
      (∀ x ∈ recIdsCBs bs, x ∈ NxDiGraph.nodeIds scenarioA_cfg_val) :=
  ⟨by decide, control_block_recovery_terminates_unique scenarioA_cfg_val "f" (by decide)⟩

/-!
## C4: serialization round-trip
-/

mutual

theorem dumpVal_id : ∀ v : PyVal, cbFreeVal v = true → dumpVal v = v
  | .str _, _ => rfl
  | .int _, _ => rfl
  | .bool _, _ => rfl
  | .none, _ => rfl
  | .list xs, h => by
    rw [dumpVal, dumpValList_id xs (by simpa [cbFreeVal] using h)]
  | .dict kvs, h => by
    rw [dumpVal, dumpKvs_id kvs (by simpa [cbFreeVal] using h)]
  | .cb _, h => by simp [cbFreeVal] at h

theorem dumpValList_id : ∀ xs : List PyVal, cbFreeList xs = true → dumpValList xs = xs
  | [], _ => rfl
  | v :: vs, h => by
    have h1 : cbFreeVal v = true := by
      have := h
      simp [cbFreeList] at this
      exact this.1
    have h2 : cbFreeList vs = true := by
      have := h
      simp [cbFreeList] at this
      exact this.2
    rw [dumpValList, dumpVal_id v h1, dumpValList_id vs h2]

theorem dumpKvs_id : ∀ kvs : List (String × PyVal), cbFreeKvs kvs = true → dumpKvs kvs = kvs
  | [], _ => rfl
  | (k, v) :: kvs, h => by
    have h1 : cbFreeVal v = true := by
      have := h
      simp [cbFreeKvs] at this
      exact this.1
    have h2 : cbFreeKvs kvs = true := by
      have := h
      simp [cbFreeKvs] at this
      exact this.2
    rw [dumpKvs, dumpVal_id v h1, dumpKvs_id kvs h2]

end

theorem parse_control_block_dump (b : ControlBlock)
    (hch : cbFreeList b.children = true) (hmd : cbFreeKvs b.metadata = true) :
    parse_control_block (PyVal.dict (dumpCB b)) = some b := by
  cases b with
  | mk bid btype lbl cond children meta =>
    rw [ControlBlock.children] at hch
    rw [ControlBlock.metadata] at hmd
    rw [dumpCB]
    cases cond <;>
      simp [parse_control_block, py_lookup, parse_str, parse_opt_str,
        parse_any_list, parse_any_dict, dumpOptStr,
        dumpValList_id _ hch, dumpKvs_id _ hmd]

theorem parse_str_list_dump (l : List String) :
    parse_str_list (some (PyVal.list (l.map PyVal.str))) = some l := by
  rw [parse_str_list]
  induction l with
  | nil => rfl
  | cons s rest ih =>
    simp only [List.map_cons, List.mapM_cons]
    simp only [List.map] at ih ⊢
    rw [show (List.mapM (fun v => match v with
        | PyVal.str s => some s
        | x => Option.none) (rest.map PyVal.str)) = some rest from ih]
    rfl

theorem parse_str_dict_list_dump (l : List (List (String × String))) :
    parse_str_dict_list (some (PyVal.list (l.map (fun d =>
      PyVal.dict (d.map (fun p => (p.1, PyVal.str p.2))))))) = some l := by
  rw [parse_str_dict_list]
  induction l with
  | nil => rfl
  | cons d rest ih =>
    simp only [List.map_cons, List.mapM_cons]
    have hd : (d.map (fun p => (p.1, PyVal.str p.2))).mapM
        (fun p => match p.2 with
          | PyVal.str s => some (p.1, s)
          | x => Option.none) = some d := by
      induction d with
      | nil => rfl
      | cons p ps ihd =>
        simp only [List.map_cons, List.mapM_cons, ihd]
        rfl
    simp only [List.map] at ih ⊢
    rw [show (List.mapM (fun v => match v with
        | PyVal.dict kvs => kvs.mapM (fun p => match p.2 with
            | PyVal.str s => some (p.1, s)
            | x => Option.none)
        | x => Option.none) (rest.map (fun d =>
          PyVal.dict (d.map (fun p => (p.1, PyVal.str p.2)))))) = some rest from ih]
    rw [hd]
    rfl

theorem parse_cbs_dump (l : List ControlBlock)
    (h : ∀ b ∈ l, cbFreeList b.children = true ∧ cbFreeKvs b.metadata = true) :
    (l.map (fun b => PyVal.dict (dumpCB b))).mapM parse_control_block = some l := by
  induction l with
  | nil => rfl
  | cons b rest ih =>
    have hb := h b (List.mem_cons_self _ _)
    simp only [List.map_cons, List.mapM_cons,
      parse_control_block_dump b hb.1 hb.2,
      ih (fun b hb => h b (List.mem_cons_of_mem _ hb))]
    rfl

theorem parse_any_dict_list_dump (l : List (List (String × PyVal)))
    (h : ∀ d ∈ l, cbFreeKvs d = true) :
    parse_any_dict_list (some (PyVal.list (l.map (fun d => PyVal.dict (dumpKvs d)))))
      = some l := by
  rw [parse_any_dict_list]
  induction l with
  | nil => rfl
  | cons d rest ih =>
    simp only [List.map_cons, List.mapM_cons]
    simp only [List.map] at ih ⊢
    rw [show (List.mapM (fun v => match v with
        | PyVal.dict kvs => some kvs
        | x => Option.none) (rest.map (fun d => PyVal.dict (dumpKvs d))))
      = some rest from ih (fun d hd => h d (List.mem_cons_of_mem _ hd))]
    rw [dumpKvs_id d (h d (List.mem_cons_self _ _))]
    rfl

/-- The values of this `FunctionIR` survive `model_dump` unchanged: no
`ControlBlock` model object hides inside a `children` list or a metadata
map. -/
def FunctionIRDumpSafe (f : FunctionIR) : Prop :=
  (∀ b ∈ f.control_blocks, cbFreeList b.children = true ∧ cbFreeKvs b.metadata = true) ∧
  cbFreeKvs f.metadata = true

/-- C4, amended: `deserialize(serialize(x)) == x` holds for every
`ModuleIR` and `ProjectIR` (whose open `Any` bags hold no model objects) and
for every `FunctionIR` whose control blocks carry no nested `ControlBlock`
model objects in their `children`; nested child blocks are dumped to plain
dicts that validation keeps as dicts, so equality fails there. -/
theorem ir_roundtrip_without_nested_models
    (f : FunctionIR) (m : ModuleIR) (p : ProjectIR)
    (hf : FunctionIRDumpSafe f)
    (hm : cbFreeKvs m.metadata = true)
    (hp1 : cbFreeKvs p.metadata = true)
    (hp2 : ∀ d ∈ p.main_flows, cbFreeKvs d = true) :
    deserialize_function (serialize_function f) = some f ∧
    deserialize_module (serialize_module m) = some m ∧
    deserialize_project (serialize_project p) = some p := by
  refine ⟨?_, ?_, ?_⟩
  · obtain ⟨hf1, hf2⟩ := hf
    cases f with
    | mk id name signature file line ns cls inputs outputs cbs calls complexity meta =>
      simp only [FunctionIR.control_blocks] at hf1
      simp only [FunctionIR.metadata] at hf2
      have hcb := parse_cbs_dump cbs hf1
      rw [List.mapM] at hcb
      cases ns <;> cases cls <;>
        simp [serialize_function, deserialize_function, py_lookup, parse_str,
          parse_int, parse_opt_str, parse_int_default, parse_any_list,
          parse_any_dict, dumpOptStr, parse_str_list_dump,
          parse_str_dict_list_dump, hcb, dumpKvs_id meta hf2]
  · cases m with
    | mk id name path resp ep deps pub priv funcs meta =>
      simp only [ModuleIR.metadata] at hm
      simp [serialize_module, deserialize_module, py_lookup, parse_str,
        parse_any_dict, parse_str_list_dump, dumpKvs_id meta hm]
  · cases p with
    | mk id name root modules flows startup meta =>
      simp only [ProjectIR.metadata] at hp1
      simp only [ProjectIR.main_flows] at hp2
      simp [serialize_project, deserialize_project, py_lookup, parse_str,
        parse_any_dict, parse_str_list_dump, parse_any_dict_list_dump flows hp2,
        dumpKvs_id meta hp1]

/-- Observes whether the first child of the first control block is a
`ControlBlock` model object (as opposed to a plain dict). -/
def headChildIsModel (f : FunctionIR) : Bool :=
  match f.control_blocks with
  | b :: _ =>
    match b.children with
    | PyVal.cb _ :: _ => true
    | _ => false
  | _ => false

/-- A `FunctionIR` with one control block holding one nested child block, as
`_traverse_cfg_for_blocks` produces for an `if` with a body. -/
def nested_cb_function : FunctionIR :=
  { id := "func_f", name := "f", signature := "void f()", file := "a.cc", line := 1,
    control_blocks := [ControlBlock.mk "b0" "if" "If: c" (some "c")
      [PyVal.cb (ControlBlock.mk "b1" "sequence" "s" Option.none [] [])] []] }

/-- C4, counterexample: for a `FunctionIR` whose control blocks contain a
nested child block, `deserialize(serialize(x)) ≠ x`: `model_dump` turns the
nested `ControlBlock` into a plain dict, and re-validation keeps the
`Any`-typed `children` entries as dicts. -/
theorem roundtrip_nested_children_fails :
    deserialize_function (serialize_function nested_cb_function)
      ≠ some nested_cb_function := by
  intro h
  have h0 : Option.map headChildIsModel
      (deserialize_function (serialize_function nested_cb_function)) = some false := by
    simp [nested_cb_function, serialize_function, deserialize_function, py_lookup,
      parse_str, parse_int, parse_opt_str, parse_int_default, parse_any_list,
      parse_any_dict, parse_str_list, parse_str_dict_list, parse_control_block,
      dumpOptStr, dumpCB, dumpValList, dumpKvs, dumpVal, headChildIsModel,
      List.mapM.loop, ControlBlock.children]
  rw [h] at h0
  simp [headChildIsModel, nested_cb_function, ControlBlock.children] at h0

/-- Witness for C4's amended theorem at small concrete values. -/
theorem ir_roundtrip_without_nested_models_witness :
    deserialize_function (serialize_function
      ({ id := "func_g", name := "g", signature := "int g()", file := "b.cc",
         line := 2,
         control_blocks := [ControlBlock.mk "g0" "sequence" "s" Option.none [] []] }
        : FunctionIR)) = some
      ({ id := "func_g", name := "g", signature := "int g()", file := "b.cc",
         line := 2,
         control_blocks := [ControlBlock.mk "g0" "sequence" "s" Option.none [] []] }
        : FunctionIR) ∧
    deserialize_module (serialize_module
      ({ id := "mod_core", name := "core", path := "/p/core" } : ModuleIR)) = some
      ({ id := "mod_core", name := "core", path := "/p/core" } : ModuleIR) ∧
    deserialize_project (serialize_project
      ({ id := "proj_p", name := "p", root_path := "/p",
         main_flows := [[("module", PyVal.str "mod_core")]] } : ProjectIR)) = some
      ({ id := "proj_p", name := "p", root_path := "/p",
         main_flows := [[("module", PyVal.str "mod_core")]] } : ProjectIR) := by
  have h := ir_roundtrip_without_nested_models
    ({ id := "func_g", name := "g", signature := "int g()", file := "b.cc",
       line := 2,
       control_blocks := [ControlBlock.mk "g0" "sequence" "s" Option.none [] []] }
      : FunctionIR)
    ({ id := "mod_core", name := "core", path := "/p/core" } : ModuleIR)
    ({ id := "proj_p", name := "p", root_path := "/p",
       main_flows := [[("module", PyVal.str "mod_core")]] } : ProjectIR)
    ⟨by
        intro b hb
        simp only [FunctionIR.control_blocks] at hb
        rcases List.mem_singleton.mp hb with rfl
        exact ⟨by simp [ControlBlock.children, cbFreeList],
          by simp [ControlBlock.metadata, cbFreeKvs]⟩,
      by simp [FunctionIR.metadata, cbFreeKvs]⟩
    (by simp [ModuleIR.metadata, cbFreeKvs])
    (by simp [ProjectIR.metadata, cbFreeKvs])
    (by
      intro d hd
      simp only [ProjectIR.main_flows] at hd
      rcases List.mem_singleton.mp hd with rfl
      simp [cbFreeKvs, cbFreeVal])
  exact h

/-!
## C9: running the Module Analyzer twice
-/

def mlookup (st : ModuleAnalyzer) (mn : String) : Option ModuleData :=
  (st.modules.find? (fun p => p.1 == mn)).map (·.2)

def is_header_file (f : SrcFile) : Bool :=
  decide (path_suffix f.pathName ∈ ([".h", ".hpp"] : List String))

def is_public_path (f : SrcFile) : Bool :=
  py_in_str "include" f.pathStr || py_in_str "public" f.pathStr

/-- The effect of one file-grouping iteration on its module's record. -/
def register_effect (f : SrcFile) (md : ModuleData) : ModuleData :=
  let md := { md with files := md.files ++ [f] }
  if is_header_file f then
    if is_public_path f then
      { md with public_headers := md.public_headers ++ [f] }
    else { md with private_headers := md.private_headers ++ [f] }
  else { md with source_files := md.source_files ++ [f] }

theorem update_module_root (st : ModuleAnalyzer) (m : String) (u : ModuleData → ModuleData) :
    (update_module st m u).project_root = st.project_root := rfl

theorem update_module_graph (st : ModuleAnalyzer) (m : String) (u : ModuleData → ModuleData) :
    (update_module st m u).module_dependencies = st.module_dependencies := rfl

theorem update_module_f2m (st : ModuleAnalyzer) (m : String) (u : ModuleData → ModuleData) :
    (update_module st m u).file_to_module = st.file_to_module := rfl

theorem find?_append_none {α : Type} (p : α → Bool) (l₁ l₂ : List α)
    (h : l₁.find? p = Option.none) : (l₁ ++ l₂).find? p = l₂.find? p := by
  induction l₁ with
  | nil => rfl
  | cons a l ih =>
    by_cases hpa : p a = true
    · rw [List.find?_cons_of_pos _ hpa] at h; cases h
    · rw [List.find?_cons_of_neg _ hpa] at h
      rw [List.cons_append, List.find?_cons_of_neg _ hpa]
      exact ih h

theorem find?_append_some {α : Type} (p : α → Bool) (l₁ l₂ : List α) (a : α)
    (h : l₁.find? p = some a) : (l₁ ++ l₂).find? p = some a := by
  induction l₁ with
  | nil => cases h
  | cons b l ih =>
    by_cases hpb : p b = true
    · rw [List.find?_cons_of_pos _ hpb] at h
      rw [List.cons_append, List.find?_cons_of_pos _ hpb]
      exact h
    · rw [List.find?_cons_of_neg _ hpb] at h
      rw [List.cons_append, List.find?_cons_of_neg _ hpb]
      exact ih h

theorem update_module_keys (st : ModuleAnalyzer) (m : String) (u : ModuleData → ModuleData) :
    (update_module st m u).modules.map (·.1) = st.modules.map (·.1) := by
  rw [update_module]
  dsimp only
  rw [List.map_map]
  apply List.map_congr_left
  intro p _
  by_cases h : p.1 = m <;> simp [h]

theorem find?_update_map (l : List (String × ModuleData)) (m mn : String)
    (u : ModuleData → ModuleData) :
    (((l.map (fun p => if p.1 == m then (p.1, u p.2) else p)).find?
        (fun p => p.1 == mn)).map (·.2))
      = ((l.find? (fun p => p.1 == mn)).map (·.2)).map
          (fun md => if mn = m then u md else md) := by
  induction l with
  | nil => rfl
  | cons a l ih =>
    by_cases ham : (a.1 == m) = true
    · simp only [List.map_cons, if_pos ham]
      by_cases hamn : (a.1 == mn) = true
      · have h1 : a.1 = m := by simpa using ham
        have h2 : a.1 = mn := by simpa using hamn
        have hmnm : mn = m := by rw [← h2, h1]
        rw [List.find?_cons_of_pos (p := fun q : String × ModuleData => q.1 == mn) (a := (a.1, u a.2)) _ hamn,
          List.find?_cons_of_pos (p := fun q : String × ModuleData => q.1 == mn) (a := a) _ hamn]
        simp [hmnm]
      · rw [List.find?_cons_of_neg (p := fun q : String × ModuleData => q.1 == mn) (a := (a.1, u a.2)) _ hamn,
          List.find?_cons_of_neg (p := fun q : String × ModuleData => q.1 == mn) (a := a) _ hamn]
        exact ih
    · simp only [List.map_cons, if_neg ham]
      by_cases hamn : (a.1 == mn) = true
      · rw [List.find?_cons_of_pos (p := fun q : String × ModuleData => q.1 == mn) (a := a) _ hamn,
          List.find?_cons_of_pos (p := fun q : String × ModuleData => q.1 == mn) (a := a) _ hamn]
        have h2 : a.1 = mn := by simpa using hamn
        have hnm : ¬ mn = m := by rw [← h2]; simpa using ham
        simp [hnm]
      · rw [List.find?_cons_of_neg (p := fun q : String × ModuleData => q.1 == mn) (a := a) _ hamn,
          List.find?_cons_of_neg (p := fun q : String × ModuleData => q.1 == mn) (a := a) _ hamn]
        exact ih

theorem update_module_mlookup (st : ModuleAnalyzer) (m : String) (u : ModuleData → ModuleData)
    (mn : String) :
    mlookup (update_module st m u) mn
      = (mlookup st mn).map (fun md => if mn = m then u md else md) := by
  rw [mlookup, mlookup, update_module]
  exact find?_update_map st.modules m mn u

theorem mlookup_of_dict_mem_false (st : ModuleAnalyzer) (mn : String)
    (h : dict_mem st.modules mn = false) :
    mlookup st mn = Option.none := by
  rw [mlookup]
  rw [dict_mem] at h
  have : st.modules.find? (fun p => p.1 == mn) = Option.none := by
    rw [List.find?_eq_none]
    rw [List.any_eq_false] at h
    exact h
  rw [this]
  rfl

theorem arf_char (st : ModuleAnalyzer) (f : SrcFile) :
    (analyze_register_file st f).project_root = st.project_root ∧
    (analyze_register_file st f).module_dependencies = st.module_dependencies ∧
    (analyze_register_file st f).file_to_module
      = dict_set st.file_to_module f.pathStr (get_module_name f) ∧
    (analyze_register_file st f).modules.map (·.1)
      = (if dict_mem st.modules (get_module_name f) = true then st.modules.map (·.1)
         else st.modules.map (·.1) ++ [get_module_name f]) ∧
    (∀ mn, mn ≠ get_module_name f →
        mlookup (analyze_register_file st f) mn = mlookup st mn) ∧
    mlookup (analyze_register_file st f) (get_module_name f)
      = some (register_effect f
          ((mlookup st (get_module_name f)).getD
            (init_module_data (get_module_name f) st.project_root))) := by
  set m := get_module_name f with hm
  set st1 : ModuleAnalyzer :=
    (if dict_mem st.modules m then st
     else { st with modules := st.modules ++ [(m, init_module_data m st.project_root)] })
    with hst1
  have hroot1 : st1.project_root = st.project_root := by
    rw [hst1]; split <;> rfl
  have hgraph1 : st1.module_dependencies = st.module_dependencies := by
    rw [hst1]; split <;> rfl
  have hf2m1 : st1.file_to_module = st.file_to_module := by
    rw [hst1]; split <;> rfl
  have hkeys1 : st1.modules.map (·.1)
      = (if dict_mem st.modules m = true then st.modules.map (·.1)
         else st.modules.map (·.1) ++ [m]) := by
    rw [hst1]
    by_cases hmem : dict_mem st.modules m = true
    · rw [if_pos hmem, if_pos hmem]
    · rw [if_neg hmem, if_neg hmem]
      simp
  have hlk1ne : ∀ mn, mn ≠ m → mlookup st1 mn = mlookup st mn := by
    intro mn hne
    rw [hst1]
    split
    · rfl
    · rw [mlookup, mlookup]
      dsimp only
      cases hfind : st.modules.find? (fun q => q.1 == mn) with
      | some q => rw [find?_append_some _ _ _ _ hfind]
      | none =>
        rw [find?_append_none _ _ _ hfind]
        rw [List.find?_cons_of_neg (p := fun q : String × ModuleData => q.1 == mn)
          (a := (m, init_module_data m st.project_root)) _
          (by simp only [beq_iff_eq]; exact fun hh => hne hh.symm)]
        rfl
  have hlk1eq : mlookup st1 m
      = some ((mlookup st m).getD (init_module_data m st.project_root)) := by
    rw [hst1]
    by_cases hmem : dict_mem st.modules m = true
    · rw [if_pos hmem]
      rw [dict_mem, List.any_eq_true] at hmem
      obtain ⟨p, hp, hpe⟩ := hmem
      cases hfind : st.modules.find? (fun q => q.1 == m) with
      | none =>
        rw [List.find?_eq_none] at hfind
        exact absurd hpe (hfind p hp)
      | some q => simp [mlookup, hfind]
    · rw [if_neg hmem]
      have h1 : st.modules.find? (fun q => q.1 == m) = Option.none := by
        rw [List.find?_eq_none]
        rw [dict_mem] at hmem
        simp only [Bool.not_eq_true] at hmem
        rw [List.any_eq_false] at hmem
        exact hmem
      have h0 : mlookup st m = Option.none := by
        rw [mlookup, h1]; rfl
      rw [h0, mlookup]
      dsimp only
      rw [find?_append_none _ _ _ h1]
      rw [List.find?_cons_of_pos (p := fun q : String × ModuleData => q.1 == m)
        (a := (m, init_module_data m st.project_root)) _ (by simp)]
      rfl
  have harf : analyze_register_file st f =
      (let st2 := update_module st1 m (fun md => { md with files := md.files ++ [f] })
       let st3 := { st2 with
         file_to_module := dict_set st2.file_to_module f.pathStr m }
       if path_suffix f.pathName ∈ ([".h", ".hpp"] : List String) then
         if py_in_str "include" f.pathStr || py_in_str "public" f.pathStr then
           update_module st3 m
             (fun md => { md with public_headers := md.public_headers ++ [f] })
         else
           update_module st3 m
             (fun md => { md with private_headers := md.private_headers ++ [f] })
       else
         update_module st3 m
           (fun md => { md with source_files := md.source_files ++ [f] })) := by
    rw [analyze_register_file]
  rw [harf]
  dsimp only
  by_cases hsuf : path_suffix f.pathName ∈ ([".h", ".hpp"] : List String)
  · by_cases hpub : (py_in_str "include" f.pathStr || py_in_str "public" f.pathStr) = true
    · rw [if_pos hsuf, if_pos hpub]
      refine ⟨by rw [update_module_root]; exact hroot1,
        by rw [update_module_graph]; exact hgraph1,
        by rw [update_module_f2m]; dsimp only; rw [update_module_f2m, hf2m1],
        by rw [update_module_keys]; dsimp only; rw [update_module_keys, hkeys1],
        ?_, ?_⟩
      · intro mn hne
        rw [update_module_mlookup]
        have hmid : mlookup ({ update_module st1 m (fun md => { md with files := md.files ++ [f] }) with
            file_to_module := dict_set (update_module st1 m fun md =>
              { md with files := md.files ++ [f] }).file_to_module f.pathStr m } :
            ModuleAnalyzer) mn
            = mlookup (update_module st1 m (fun md => { md with files := md.files ++ [f] })) mn := rfl
        rw [hmid, update_module_mlookup, hlk1ne mn hne]
        cases mlookup st mn <;> simp [hne]
      · rw [update_module_mlookup]
        have hmid : mlookup ({ update_module st1 m (fun md => { md with files := md.files ++ [f] }) with
            file_to_module := dict_set (update_module st1 m fun md =>
              { md with files := md.files ++ [f] }).file_to_module f.pathStr m } :
            ModuleAnalyzer) m
            = mlookup (update_module st1 m (fun md => { md with files := md.files ++ [f] })) m := rfl
        rw [hmid, update_module_mlookup, hlk1eq]
        simp [register_effect, is_header_file, is_public_path, hsuf, hpub]
    · rw [if_pos hsuf, if_neg (by simpa using hpub)]
      refine ⟨by rw [update_module_root]; exact hroot1,
        by rw [update_module_graph]; exact hgraph1,
        by rw [update_module_f2m]; dsimp only; rw [update_module_f2m, hf2m1],
        by rw [update_module_keys]; dsimp only; rw [update_module_keys, hkeys1],
        ?_, ?_⟩
      · intro mn hne
        rw [update_module_mlookup]
        have hmid : mlookup ({ update_module st1 m (fun md => { md with files := md.files ++ [f] }) with
            file_to_module := dict_set (update_module st1 m fun md =>
              { md with files := md.files ++ [f] }).file_to_module f.pathStr m } :
            ModuleAnalyzer) mn
            = mlookup (update_module st1 m (fun md => { md with files := md.files ++ [f] })) mn := rfl
        rw [hmid, update_module_mlookup, hlk1ne mn hne]
        cases mlookup st mn <;> simp [hne]
      · rw [update_module_mlookup]
        have hmid : mlookup ({ update_module st1 m (fun md => { md with files := md.files ++ [f] }) with
            file_to_module := dict_set (update_module st1 m fun md =>
              { md with files := md.files ++ [f] }).file_to_module f.pathStr m } :
            ModuleAnalyzer) m
            = mlookup (update_module st1 m (fun md => { md with files := md.files ++ [f] })) m := rfl
        rw [hmid, update_module_mlookup, hlk1eq]
        simp only [Bool.not_eq_true] at hpub
        simp [register_effect, is_header_file, is_public_path, hsuf, hpub]
  · rw [if_neg hsuf]
    refine ⟨by rw [update_module_root]; exact hroot1,
      by rw [update_module_graph]; exact hgraph1,
      by rw [update_module_f2m]; dsimp only; rw [update_module_f2m, hf2m1],
      by rw [update_module_keys]; dsimp only; rw [update_module_keys, hkeys1],
      ?_, ?_⟩
    · intro mn hne
      rw [update_module_mlookup]
      have hmid : mlookup ({ update_module st1 m (fun md => { md with files := md.files ++ [f] }) with
          file_to_module := dict_set (update_module st1 m fun md =>
            { md with files := md.files ++ [f] }).file_to_module f.pathStr m } :
          ModuleAnalyzer) mn
          = mlookup (update_module st1 m (fun md => { md with files := md.files ++ [f] })) mn := rfl
      rw [hmid, update_module_mlookup, hlk1ne mn hne]
      cases mlookup st mn <;> simp [hne]
    · rw [update_module_mlookup]
      have hmid : mlookup ({ update_module st1 m (fun md => { md with files := md.files ++ [f] }) with
          file_to_module := dict_set (update_module st1 m fun md =>
            { md with files := md.files ++ [f] }).file_to_module f.pathStr m } :
          ModuleAnalyzer) m
          = mlookup (update_module st1 m (fun md => { md with files := md.files ++ [f] })) m := rfl
      rw [hmid, update_module_mlookup, hlk1eq]
      simp [register_effect, is_header_file, is_public_path, hsuf]

def files_of_module (mn : String) (fs : List SrcFile) : List SrcFile :=
  fs.filter (fun f => get_module_name f == mn)

def pub_of_module (mn : String) (fs : List SrcFile) : List SrcFile :=
  fs.filter (fun f => (get_module_name f == mn) && is_header_file f && is_public_path f)

def priv_of_module (mn : String) (fs : List SrcFile) : List SrcFile :=
  fs.filter (fun f => (get_module_name f == mn) && is_header_file f && !is_public_path f)

def src_of_module (mn : String) (fs : List SrcFile) : List SrcFile :=
  fs.filter (fun f => (get_module_name f == mn) && !is_header_file f)

/-- The cumulative effect of the file-grouping loop on one module record. -/
def extend_spec (mn : String) (fs : List SrcFile) (md : ModuleData) : ModuleData :=
  { md with
    files := md.files ++ files_of_module mn fs,
    public_headers := md.public_headers ++ pub_of_module mn fs,
    private_headers := md.private_headers ++ priv_of_module mn fs,
    source_files := md.source_files ++ src_of_module mn fs }

theorem extend_spec_nil (mn : String) (md : ModuleData) : extend_spec mn [] md = md := by
  cases md
  simp [extend_spec, files_of_module, pub_of_module, priv_of_module, src_of_module]

theorem extend_spec_cons_eq (mn : String) (f : SrcFile) (fs : List SrcFile) (md : ModuleData)
    (hmf : get_module_name f = mn) :
    extend_spec mn (f :: fs) md = extend_spec mn fs (register_effect f md) := by
  cases md
  have hb : (get_module_name f == mn) = true := by simpa using hmf
  by_cases hh : is_header_file f = true <;>
    by_cases hp : is_public_path f = true <;>
      simp [extend_spec, register_effect, files_of_module, pub_of_module,
        priv_of_module, src_of_module, List.filter_cons,
        hh, hp, hb, List.append_assoc]

theorem extend_spec_cons_ne (mn : String) (f : SrcFile) (fs : List SrcFile) (md : ModuleData)
    (hmf : get_module_name f ≠ mn) :
    extend_spec mn (f :: fs) md = extend_spec mn fs md := by
  have h : (get_module_name f == mn) = false := by simpa using hmf
  simp [extend_spec, files_of_module, pub_of_module, priv_of_module, src_of_module,
    List.filter_cons, h]

theorem regFold_char : ∀ (fs : List SrcFile) (st : ModuleAnalyzer),
    (fs.foldl analyze_register_file st).project_root = st.project_root ∧
    (fs.foldl analyze_register_file st).module_dependencies = st.module_dependencies ∧
    (∀ mn md, mlookup st mn = some md →
      mlookup (fs.foldl analyze_register_file st) mn = some (extend_spec mn fs md)) ∧
    (∀ mn, mlookup st mn = Option.none →
      mlookup (fs.foldl analyze_register_file st) mn =
        (if fs.any (fun f => get_module_name f == mn)
         then some (extend_spec mn fs (init_module_data mn st.project_root))
         else Option.none)) := by
  intro fs
  induction fs with
  | nil =>
    intro st
    refine ⟨rfl, rfl, fun mn md h => ?_, fun mn h => ?_⟩
    · rw [List.foldl_nil, h, extend_spec_nil]
    · rw [List.foldl_nil, h]
      simp
  | cons f fs ih =>
    intro st
    obtain ⟨hr, hg, _hf2, _hk, hne, heq⟩ := arf_char st f
    obtain ⟨ihr, ihg, ihsome, ihnone⟩ := ih (analyze_register_file st f)
    refine ⟨by rw [List.foldl_cons]; exact ihr.trans hr,
            by rw [List.foldl_cons]; exact ihg.trans hg,
            fun mn md h => ?_, fun mn h => ?_⟩
    · rw [List.foldl_cons]
      by_cases hmf : get_module_name f = mn
      · subst hmf
        rw [h] at heq
        simp only [Option.getD_some] at heq
        rw [ihsome _ _ heq, extend_spec_cons_eq _ _ _ _ rfl]
      · have hst' : mlookup (analyze_register_file st f) mn = some md := by
          rw [hne mn (fun e => hmf e.symm), h]
        rw [ihsome _ _ hst', extend_spec_cons_ne _ _ _ _ hmf]
    · rw [List.foldl_cons]
      by_cases hmf : get_module_name f = mn
      · subst hmf
        rw [h] at heq
        simp only [Option.getD_none] at heq
        rw [ihsome _ _ heq, extend_spec_cons_eq _ _ _ _ rfl]
        rw [if_pos]
        simp [List.any_cons]
      · have hst' : mlookup (analyze_register_file st f) mn = Option.none := by
          rw [hne mn (fun e => hmf e.symm), h]
        have hb : (get_module_name f == mn) = false := by simpa using hmf
        rw [ihnone _ hst', hr, extend_spec_cons_ne _ _ _ _ hmf]
        simp [List.any_cons, hb]

theorem dict_mem_congr {α β : Type} (d : List (String × α)) (d' : List (String × β))
    (k : String) (h : d.map (·.1) = d'.map (·.1)) : dict_mem d k = dict_mem d' k := by
  induction d generalizing d' with
  | nil =>
    cases d' with
    | nil => rfl
    | cons b t => simp at h
  | cons a t ih =>
    cases d' with
    | nil => simp at h
    | cons b t' =>
      simp only [List.map_cons, List.cons.injEq] at h
      have hrest := ih t' h.2
      rw [dict_mem, dict_mem, List.any_cons, List.any_cons, h.1]
      rw [dict_mem, dict_mem] at hrest
      rw [hrest]

theorem mlookup_none_iff (st : ModuleAnalyzer) (mn : String) :
    mlookup st mn = Option.none ↔ mn ∉ st.modules.map (·.1) := by
  rw [mlookup]
  constructor
  · intro h hmem
    obtain ⟨p, hp, hpe⟩ := List.mem_map.mp hmem
    cases hfind : st.modules.find? (fun q => q.1 == mn) with
    | some q => rw [hfind] at h; simp at h
    | none =>
      rw [List.find?_eq_none] at hfind
      exact hfind p hp (by simpa using hpe)
  · intro h
    have hfind : st.modules.find? (fun q => q.1 == mn) = Option.none := by
      rw [List.find?_eq_none]
      intro p hp hpe
      exact h (List.mem_map.mpr ⟨p, hp, by simpa using hpe⟩)
    rw [hfind]
    rfl

theorem regFold_keys_stable : ∀ (fs : List SrcFile) (st : ModuleAnalyzer),
    (∀ f ∈ fs, dict_mem st.modules (get_module_name f) = true) →
    (fs.foldl analyze_register_file st).modules.map (·.1) = st.modules.map (·.1) := by
  intro fs
  induction fs with
  | nil => intro st _; rfl
  | cons f fs ih =>
    intro st hall
    rw [List.foldl_cons]
    obtain ⟨_, _, _, hk, _, _⟩ := arf_char st f
    have hkeys : (analyze_register_file st f).modules.map (·.1) = st.modules.map (·.1) := by
      rw [hk, if_pos (hall f (by simp))]
    rw [ih _ ?_, hkeys]
    intro g hg
    rw [dict_mem_congr _ st.modules _ hkeys]
    exact hall g (by simp [hg])

theorem regFold_keys_nodup : ∀ (fs : List SrcFile) (st : ModuleAnalyzer),
    (st.modules.map (·.1)).Nodup →
    ((fs.foldl analyze_register_file st).modules.map (·.1)).Nodup := by
  intro fs
  induction fs with
  | nil => intro st h; exact h
  | cons f fs ih =>
    intro st h
    rw [List.foldl_cons]
    apply ih
    obtain ⟨_, _, _, hk, _, _⟩ := arf_char st f
    rw [hk]
    by_cases hmem : dict_mem st.modules (get_module_name f) = true
    · rw [if_pos hmem]; exact h
    · rw [if_neg hmem]
      rw [List.nodup_append]
      refine ⟨h, List.nodup_singleton _, ?_⟩
      intro x hx hx2
      simp only [List.mem_singleton] at hx2
      subst hx2
      rw [dict_mem] at hmem
      simp only [Bool.not_eq_true, List.any_eq_false] at hmem
      obtain ⟨p, hp, hpeq⟩ := List.mem_map.mp hx
      have hne : p.1 ≠ get_module_name f := by simpa using hmem p hp
      exact hne hpeq

theorem ensure_hasEdge {α β : Type} (c : Prop) [Decidable c] (g : NxDiGraph α β)
    (n : List (String × α)) (u v : String) :
    NxDiGraph.hasEdge (if c then g else { g with nodes := n }) u v = g.hasEdge u v := by
  split <;> rfl

theorem ensure_edges {α β : Type} (c : Prop) [Decidable c] (g : NxDiGraph α β)
    (n : List (String × α)) :
    NxDiGraph.edges (if c then g else { g with nodes := n }) = g.edges := by
  split <;> rfl

theorem addEdge_edges_shape {α β : Type} [Inhabited α] (g : NxDiGraph α β) (u v : String)
    (b : β) :
    (g.addEdge u v b).edges
      = (if g.hasEdge u v
         then g.edges.map (fun e => if e.1 == u && e.2.1 == v then (u, v, b) else e)
         else g.edges ++ [(u, v, b)]) := by
  rw [NxDiGraph.addEdge]
  set g1 : NxDiGraph α β :=
    if g.hasNode u = true then g else { g with nodes := g.nodes ++ [(u, default)] } with hg1
  set g2 : NxDiGraph α β :=
    if g1.hasNode v = true then g1 else { g1 with nodes := g1.nodes ++ [(v, default)] } with hg2
  have hg1e : g1.edges = g.edges := by rw [hg1]; split <;> rfl
  have hg2e : g2.edges = g.edges := by
    rw [hg2]
    split
    · exact hg1e
    · exact hg1e
  have hg2he : g2.hasEdge u v = g.hasEdge u v := by
    rw [NxDiGraph.hasEdge, NxDiGraph.hasEdge, hg2e]
  rw [hg2he]
  split
  · dsimp only
    rw [hg2e]
  · dsimp only
    rw [hg2e]

theorem addEdge_hasEdge_self {α β : Type} [Inhabited α] (g : NxDiGraph α β) (u v : String)
    (b : β) : (g.addEdge u v b).hasEdge u v = true := by
  rw [NxDiGraph.hasEdge, addEdge_edges_shape]
  by_cases he : g.hasEdge u v = true
  · rw [if_pos he]
    rw [NxDiGraph.hasEdge] at he
    obtain ⟨e, he1, he2⟩ := List.any_eq_true.mp he
    exact List.any_eq_true.mpr ⟨(u, v, b), List.mem_map.mpr ⟨e, he1, by rw [if_pos he2]⟩, by simp⟩
  · rw [if_neg he]
    apply List.any_eq_true.mpr
    exact ⟨(u, v, b), by simp, by simp⟩

theorem addEdge_hasEdge_mono {α β : Type} [Inhabited α] (g : NxDiGraph α β)
    (u v x y : String) (b : β) (h : g.hasEdge x y = true) :
    (g.addEdge u v b).hasEdge x y = true := by
  rw [NxDiGraph.hasEdge, addEdge_edges_shape]
  rw [NxDiGraph.hasEdge] at h
  obtain ⟨e, he1, he2⟩ := List.any_eq_true.mp h
  by_cases hc : g.hasEdge u v = true
  · rw [if_pos hc]
    apply List.any_eq_true.mpr
    by_cases hm : (e.1 == u && e.2.1 == v) = true
    · refine ⟨(u, v, b), List.mem_map.mpr ⟨e, he1, by rw [if_pos hm]⟩, ?_⟩
      simp only [Bool.and_eq_true, beq_iff_eq] at he2 hm ⊢
      exact ⟨hm.1 ▸ he2.1, hm.2 ▸ he2.2⟩
    · exact ⟨e, List.mem_map.mpr ⟨e, he1, by rw [if_neg hm]⟩, he2⟩
  · rw [if_neg hc]
    exact List.any_eq_true.mpr ⟨e, List.mem_append_left _ he1, he2⟩

theorem addEdge_hasNode_left {α β : Type} [Inhabited α] (g : NxDiGraph α β) (u v : String)
    (b : β) : (g.addEdge u v b).hasNode u = true := by
  rw [NxDiGraph.addEdge]
  set g1 : NxDiGraph α β :=
    if g.hasNode u = true then g else { g with nodes := g.nodes ++ [(u, default)] } with hg1
  set g2 : NxDiGraph α β :=
    if g1.hasNode v = true then g1 else { g1 with nodes := g1.nodes ++ [(v, default)] } with hg2
  have h1 : g1.hasNode u = true := by rw [hg1]; exact ensure_node_self g u
  have h2 : g2.hasNode u = true := by rw [hg2]; exact ensure_node_hasNode g1 v u h1
  split
  · exact h2
  · exact h2

theorem addEdge_hasNode_right {α β : Type} [Inhabited α] (g : NxDiGraph α β) (u v : String)
    (b : β) : (g.addEdge u v b).hasNode v = true := by
  rw [NxDiGraph.addEdge]
  set g1 : NxDiGraph α β :=
    if g.hasNode u = true then g else { g with nodes := g.nodes ++ [(u, default)] } with hg1
  set g2 : NxDiGraph α β :=
    if g1.hasNode v = true then g1 else { g1 with nodes := g1.nodes ++ [(v, default)] } with hg2
  have h2 : g2.hasNode v = true := by rw [hg2]; exact ensure_node_self g1 v
  split
  · exact h2
  · exact h2

theorem addEdge_idem (g : NxDiGraph Unit Unit) (u v : String)
    (hu : g.hasNode u = true) (hv : g.hasNode v = true) (he : g.hasEdge u v = true) :
    g.addEdge u v () = g := by
  have hn := addEdge_nodes_of_hasNode g u v () hu hv
  have hedg : (g.addEdge u v ()).edges = g.edges := by
    rw [addEdge_edges_shape, if_pos he]
    have hid : ∀ e ∈ g.edges,
        (if e.1 == u && e.2.1 == v then ((u, v, ()) : String × String × Unit) else e) = e := by
      intro e he'
      by_cases hm : (e.1 == u && e.2.1 == v) = true
      · rw [if_pos hm]
        simp only [Bool.and_eq_true, beq_iff_eq] at hm
        obtain ⟨e1, e2, e3⟩ := e
        cases e3
        simp_all
      · rw [if_neg hm]
    rw [List.map_congr_left hid, List.map_id']
  calc g.addEdge u v () = ⟨(g.addEdge u v ()).nodes, (g.addEdge u v ()).edges⟩ := rfl
    _ = ⟨g.nodes, g.edges⟩ := by rw [hn, hedg]
    _ = g := rfl

theorem py_ins_mem_mono : ∀ (l acc : List String) (x : String), x ∈ acc →
    x ∈ l.foldl (fun acc s => if s ∈ acc then acc else acc ++ [s]) acc := by
  intro l
  induction l with
  | nil => intro acc x h; exact h
  | cons a t ih =>
    intro acc x h
    rw [List.foldl_cons]
    apply ih
    by_cases ha : a ∈ acc
    · rw [if_pos ha]; exact h
    · rw [if_neg ha]; exact List.mem_append_left _ h

theorem py_ins_mem_of_mem : ∀ (l acc : List String) (x : String), x ∈ l →
    x ∈ l.foldl (fun acc s => if s ∈ acc then acc else acc ++ [s]) acc := by
  intro l
  induction l with
  | nil => intro acc x h; cases h
  | cons a t ih =>
    intro acc x h
    rw [List.foldl_cons]
    rcases List.mem_cons.mp h with h | h
    · subst h
      apply py_ins_mem_mono
      by_cases ha : x ∈ acc
      · rw [if_pos ha]; exact ha
      · rw [if_neg ha]; exact List.mem_append_right _ (by simp)
    · exact ih _ x h

theorem py_ins_skip : ∀ (l acc : List String), (∀ x ∈ l, x ∈ acc) →
    l.foldl (fun acc s => if s ∈ acc then acc else acc ++ [s]) acc = acc := by
  intro l
  induction l with
  | nil => intro acc _; rfl
  | cons a t ih =>
    intro acc h
    rw [List.foldl_cons, if_pos (h a (by simp))]
    exact ih acc (fun x hx => h x (by simp [hx]))

theorem py_set_of_append_self (l : List String) : py_set_of (l ++ l) = py_set_of l := by
  rw [py_set_of, py_set_of, List.foldl_append]
  exact py_ins_skip l _ (fun x hx => py_ins_mem_of_mem l [] x hx)

/-- The data `_resolve_include_to_module` reads from the analyzer: module keys
with their file lists, in insertion order. -/
def analyzer_view (st : ModuleAnalyzer) : List (String × List SrcFile) :=
  st.modules.map (fun p => (p.1, p.2.files))

def resolve_view (vw : List (String × List SrcFile)) (include_path : String) : Option String :=
  let include_base := path_stem (raw_path_name include_path)
  vw.findSome? (fun p =>
    if p.2.any (fun f =>
        path_stem f.pathName == include_base || f.pathName == include_path) then
      some p.1
    else Option.none)

theorem findSome?_files (l : List (String × ModuleData)) (inc base : String) :
    (l.map (fun p => (p.1, p.2.files))).findSome? (fun p =>
        if p.2.any (fun f => path_stem f.pathName == base || f.pathName == inc) then
          some p.1
        else Option.none)
      = l.findSome? (fun p =>
        if p.2.files.any (fun f => path_stem f.pathName == base || f.pathName == inc) then
          some p.1
        else Option.none) := by
  induction l with
  | nil => rfl
  | cons a t ih =>
    rw [List.map_cons, List.findSome?_cons, List.findSome?_cons]
    dsimp only
    by_cases hc : (a.2.files.any (fun f => path_stem f.pathName == base || f.pathName == inc))
        = true
    · rw [if_pos hc]
    · rw [if_neg hc]
      exact ih

theorem resolve_eq_view (st : ModuleAnalyzer) (inc : String) :
    resolve_include_to_module st inc = resolve_view (analyzer_view st) inc := by
  simp only [resolve_include_to_module, resolve_view, analyzer_view]
  exact (findSome?_files st.modules inc (path_stem (raw_path_name inc))).symm

theorem findSome?_doubled {γ : Type} (t : List (String × List γ)) (q : γ → Bool) :
    (t.map (fun p => (p.1, p.2 ++ p.2))).findSome?
        (fun p => if p.2.any q then some p.1 else Option.none)
      = t.findSome? (fun p => if p.2.any q then some p.1 else Option.none) := by
  induction t with
  | nil => rfl
  | cons a t ih =>
    rw [List.map_cons, List.findSome?_cons, List.findSome?_cons]
    dsimp only
    rw [List.any_append]
    by_cases hc : (a.2.any q) = true
    · rw [if_pos hc, if_pos (show (a.2.any q || a.2.any q) = true from by simp [hc])]
    · have hc' : (a.2.any q) = false := by simpa using hc
      rw [if_neg hc, if_neg (show ¬((a.2.any q || a.2.any q) = true) from by rw [hc']; simp)]
      exact ih

theorem resolve_view_doubled (vw : List (String × List SrcFile)) (inc : String) :
    resolve_view (vw.map (fun p => (p.1, p.2 ++ p.2))) inc = resolve_view vw inc := by
  simp only [resolve_view]
  exact findSome?_doubled vw (fun f =>
    path_stem f.pathName == path_stem (raw_path_name inc) || f.pathName == inc)

theorem update_module_view (st : ModuleAnalyzer) (m : String) (u : ModuleData → ModuleData)
    (hu : ∀ md, (u md).files = md.files) :
    analyzer_view (update_module st m u) = analyzer_view st := by
  rw [analyzer_view, analyzer_view, update_module]
  dsimp only
  rw [List.map_map]
  apply List.map_congr_left
  intro p _
  by_cases h : p.1 = m <;> simp [h, hu]

def depsOf (st : ModuleAnalyzer) (mn : String) : List String :=
  ((mlookup st mn).map (·.dependencies)).getD []

theorem mlookup_graph_update (st : ModuleAnalyzer) (g : NxDiGraph Unit Unit) (mn : String) :
    mlookup { st with module_dependencies := g } mn = mlookup st mn := rfl

/-- One iteration of the include-resolution loop of
`ModuleAnalyzer._analyze_module_dependencies` (lines 69-73). -/
def dep_step (module_name : String) (st : ModuleAnalyzer) (inc : String) : ModuleAnalyzer :=
  match resolve_include_to_module st inc with
  | some dep_module =>
    if dep_module ≠ module_name then
      let st := update_module st module_name (fun md =>
        { md with dependencies :=
            if dep_module ∈ md.dependencies then md.dependencies
            else md.dependencies ++ [dep_module] })
      { st with module_dependencies :=
          st.module_dependencies.addEdge module_name dep_module () }
    else st
  | Option.none => st

theorem amd_eq (st : ModuleAnalyzer) (m : String) :
    analyze_module_dependencies st m =
      (match mlookup st m with
       | Option.none => st
       | some md => (py_set_of (md.files.flatMap (·.includes))).foldl (dep_step m) st) := by
  cases h : mlookup st m with
  | none =>
    have h' : (st.modules.find? (fun p => p.1 == m)).map (·.2) = Option.none := h
    rw [analyze_module_dependencies.eq_def, h']
  | some md =>
    have h' : (st.modules.find? (fun p => p.1 == m)).map (·.2) = some md := h
    rw [analyze_module_dependencies.eq_def, h']
    rfl

theorem dep_step_root (m : String) (st : ModuleAnalyzer) (inc : String) :
    (dep_step m st inc).project_root = st.project_root := by
  unfold dep_step
  split
  · split
    · rfl
    · rfl
  · rfl

def md_skel (md : ModuleData) :
    String × String × List SrcFile × List SrcFile × List SrcFile × List SrcFile ×
      List String × List String :=
  (md.name, md.path, md.files, md.public_headers, md.private_headers, md.source_files,
    md.public_api, md.private_api)

theorem dep_step_keys (m : String) (st : ModuleAnalyzer) (inc : String) :
    (dep_step m st inc).modules.map (·.1) = st.modules.map (·.1) := by
  unfold dep_step
  split
  · split
    · dsimp only
      exact update_module_keys st m _
    · rfl
  · rfl

theorem dep_step_view (m : String) (st : ModuleAnalyzer) (inc : String) :
    analyzer_view (dep_step m st inc) = analyzer_view st := by
  unfold dep_step
  split
  · rename_i dep heq
    split
    · dsimp only
      exact update_module_view st m (fun md =>
        { md with dependencies :=
            if dep ∈ md.dependencies then md.dependencies
            else md.dependencies ++ [dep] }) (fun md => rfl)
    · rfl
  · rfl

theorem dep_step_skel (m : String) (st : ModuleAnalyzer) (inc : String) (mn : String) :
    (mlookup (dep_step m st inc) mn).map md_skel = (mlookup st mn).map md_skel := by
  unfold dep_step
  split
  · split
    · dsimp only
      rw [mlookup_graph_update, update_module_mlookup]
      cases mlookup st mn with
      | none => rfl
      | some md => by_cases hmn : mn = m <;> simp [md_skel, hmn]
    · rfl
  · rfl

theorem dep_step_deps_mono (m : String) (st : ModuleAnalyzer) (inc : String)
    (mn dep' : String) (h : dep' ∈ depsOf st mn) : dep' ∈ depsOf (dep_step m st inc) mn := by
  unfold dep_step
  split
  · rename_i dep heq
    split
    · dsimp only
      rw [depsOf, mlookup_graph_update, update_module_mlookup]
      cases hmm : mlookup st mn with
      | none =>
        rw [depsOf, hmm] at h
        simp at h
      | some md =>
        rw [depsOf, hmm] at h
        simp only [Option.map_some', Option.getD_some] at h ⊢
        by_cases hmn : mn = m
        · subst hmn
          by_cases hin : dep ∈ md.dependencies <;> simp [hin, h]
        · simp [hmn, h]
    · exact h
  · exact h

theorem dep_step_edge_mono (m : String) (st : ModuleAnalyzer) (inc : String) (x y : String)
    (h : st.module_dependencies.hasEdge x y = true) :
    (dep_step m st inc).module_dependencies.hasEdge x y = true := by
  unfold dep_step
  split
  · split
    · exact addEdge_hasEdge_mono _ _ _ _ _ _ h
    · exact h
  · exact h

theorem dep_step_node_mono (m : String) (st : ModuleAnalyzer) (inc : String) (x : String)
    (h : st.module_dependencies.hasNode x = true) :
    (dep_step m st inc).module_dependencies.hasNode x = true := by
  unfold dep_step
  split
  · split
    · exact addEdge_hasNode_mono _ _ _ _ _ h
    · exact h
  · exact h

theorem dep_step_isSome (m : String) (st : ModuleAnalyzer) (inc mn : String)
    (h : mlookup st mn ≠ Option.none) : mlookup (dep_step m st inc) mn ≠ Option.none := by
  have hs := dep_step_skel m st inc mn
  intro hnone
  rw [hnone] at hs
  cases hlk : mlookup st mn with
  | none => exact h hlk
  | some md =>
    rw [hlk] at hs
    simp at hs

theorem dep_step_establish (m : String) (st : ModuleAnalyzer) (inc dep : String)
    (hres : resolve_include_to_module st inc = some dep) (hd : dep ≠ m)
    (hm : mlookup st m ≠ Option.none) :
    dep ∈ depsOf (dep_step m st inc) m ∧
    (dep_step m st inc).module_dependencies.hasEdge m dep = true ∧
    (dep_step m st inc).module_dependencies.hasNode m = true ∧
    (dep_step m st inc).module_dependencies.hasNode dep = true := by
  unfold dep_step
  split
  · rename_i dep0 heq
    rw [hres] at heq
    have hdd : dep0 = dep := (Option.some.inj heq).symm
    subst hdd
    rw [if_pos hd]
    refine ⟨?_, ?_, ?_, ?_⟩
    · dsimp only
      rw [depsOf, mlookup_graph_update, update_module_mlookup]
      cases hmm : mlookup st m with
      | none => exact absurd hmm hm
      | some md =>
        simp only [Option.map_some', Option.getD_some]
        by_cases hin : dep0 ∈ md.dependencies <;> simp [hin]
    · dsimp only
      exact addEdge_hasEdge_self _ m dep0 ()
    · dsimp only
      exact addEdge_hasNode_left _ m dep0 ()
    · dsimp only
      exact addEdge_hasNode_right _ m dep0 ()
  · rename_i heq
    rw [hres] at heq
    cases heq

theorem dep_fold_keys (m : String) : ∀ (l : List String) (st : ModuleAnalyzer),
    (l.foldl (dep_step m) st).modules.map (·.1) = st.modules.map (·.1) := by
  intro l
  induction l with
  | nil => intro st; rfl
  | cons a t ih => intro st; rw [List.foldl_cons, ih, dep_step_keys]

theorem dep_fold_view (m : String) : ∀ (l : List String) (st : ModuleAnalyzer),
    analyzer_view (l.foldl (dep_step m) st) = analyzer_view st := by
  intro l
  induction l with
  | nil => intro st; rfl
  | cons a t ih => intro st; rw [List.foldl_cons, ih, dep_step_view]

theorem dep_fold_skel (m : String) : ∀ (l : List String) (st : ModuleAnalyzer) (mn : String),
    (mlookup (l.foldl (dep_step m) st) mn).map md_skel = (mlookup st mn).map md_skel := by
  intro l
  induction l with
  | nil => intro st mn; rfl
  | cons a t ih => intro st mn; rw [List.foldl_cons, ih, dep_step_skel]

theorem dep_fold_deps_mono (m mn dep' : String) : ∀ (l : List String) (st : ModuleAnalyzer),
    dep' ∈ depsOf st mn → dep' ∈ depsOf (l.foldl (dep_step m) st) mn := by
  intro l
  induction l with
  | nil => intro st h; exact h
  | cons a t ih => intro st h; rw [List.foldl_cons]; exact ih _ (dep_step_deps_mono m st a mn dep' h)

theorem dep_fold_edge_mono (m x y : String) : ∀ (l : List String) (st : ModuleAnalyzer),
    st.module_dependencies.hasEdge x y = true →
    (l.foldl (dep_step m) st).module_dependencies.hasEdge x y = true := by
  intro l
  induction l with
  | nil => intro st h; exact h
  | cons a t ih => intro st h; rw [List.foldl_cons]; exact ih _ (dep_step_edge_mono m st a x y h)

theorem dep_fold_node_mono (m x : String) : ∀ (l : List String) (st : ModuleAnalyzer),
    st.module_dependencies.hasNode x = true →
    (l.foldl (dep_step m) st).module_dependencies.hasNode x = true := by
  intro l
  induction l with
  | nil => intro st h; exact h
  | cons a t ih => intro st h; rw [List.foldl_cons]; exact ih _ (dep_step_node_mono m st a x h)

theorem dep_fold_isSome (m mn : String) : ∀ (l : List String) (st : ModuleAnalyzer),
    mlookup st mn ≠ Option.none →
    mlookup (l.foldl (dep_step m) st) mn ≠ Option.none := by
  intro l
  induction l with
  | nil => intro st h; exact h
  | cons a t ih => intro st h; rw [List.foldl_cons]; exact ih _ (dep_step_isSome m st a mn h)

theorem amd_keys (st : ModuleAnalyzer) (m : String) :
    (analyze_module_dependencies st m).modules.map (·.1) = st.modules.map (·.1) := by
  rw [amd_eq]
  cases mlookup st m with
  | none => rfl
  | some md => exact dep_fold_keys m _ st

theorem amd_view (st : ModuleAnalyzer) (m : String) :
    analyzer_view (analyze_module_dependencies st m) = analyzer_view st := by
  rw [amd_eq]
  cases mlookup st m with
  | none => rfl
  | some md => exact dep_fold_view m _ st

theorem amd_skel (st : ModuleAnalyzer) (m mn : String) :
    (mlookup (analyze_module_dependencies st m) mn).map md_skel
      = (mlookup st mn).map md_skel := by
  rw [amd_eq]
  cases mlookup st m with
  | none => rfl
  | some md => exact dep_fold_skel m _ st mn

theorem amd_deps_mono (st : ModuleAnalyzer) (m mn dep' : String)
    (h : dep' ∈ depsOf st mn) : dep' ∈ depsOf (analyze_module_dependencies st m) mn := by
  rw [amd_eq]
  cases mlookup st m with
  | none => exact h
  | some md => exact dep_fold_deps_mono m mn dep' _ st h

theorem amd_edge_mono (st : ModuleAnalyzer) (m x y : String)
    (h : st.module_dependencies.hasEdge x y = true) :
    (analyze_module_dependencies st m).module_dependencies.hasEdge x y = true := by
  rw [amd_eq]
  cases mlookup st m with
  | none => exact h
  | some md => exact dep_fold_edge_mono m x y _ st h

theorem amd_node_mono (st : ModuleAnalyzer) (m x : String)
    (h : st.module_dependencies.hasNode x = true) :
    (analyze_module_dependencies st m).module_dependencies.hasNode x = true := by
  rw [amd_eq]
  cases mlookup st m with
  | none => exact h
  | some md => exact dep_fold_node_mono m x _ st h

theorem amd_isSome (st : ModuleAnalyzer) (m mn : String)
    (h : mlookup st mn ≠ Option.none) :
    mlookup (analyze_module_dependencies st m) mn ≠ Option.none := by
  rw [amd_eq]
  cases mlookup st m with
  | none => exact h
  | some md => exact dep_fold_isSome m mn _ st h

theorem ksfold_keys : ∀ (ks : List String) (st : ModuleAnalyzer),
    ((ks.foldl analyze_module_dependencies st).modules.map (·.1)) = st.modules.map (·.1) := by
  intro ks
  induction ks with
  | nil => intro st; rfl
  | cons a t ih => intro st; rw [List.foldl_cons, ih, amd_keys]

theorem ksfold_view : ∀ (ks : List String) (st : ModuleAnalyzer),
    analyzer_view (ks.foldl analyze_module_dependencies st) = analyzer_view st := by
  intro ks
  induction ks with
  | nil => intro st; rfl
  | cons a t ih => intro st; rw [List.foldl_cons, ih, amd_view]

theorem ksfold_skel : ∀ (ks : List String) (st : ModuleAnalyzer) (mn : String),
    (mlookup (ks.foldl analyze_module_dependencies st) mn).map md_skel
      = (mlookup st mn).map md_skel := by
  intro ks
  induction ks with
  | nil => intro st mn; rfl
  | cons a t ih => intro st mn; rw [List.foldl_cons, ih, amd_skel]

theorem ksfold_deps_mono (mn dep' : String) : ∀ (ks : List String) (st : ModuleAnalyzer),
    dep' ∈ depsOf st mn → dep' ∈ depsOf (ks.foldl analyze_module_dependencies st) mn := by
  intro ks
  induction ks with
  | nil => intro st h; exact h
  | cons a t ih => intro st h; rw [List.foldl_cons]; exact ih _ (amd_deps_mono st a mn dep' h)

theorem ksfold_edge_mono (x y : String) : ∀ (ks : List String) (st : ModuleAnalyzer),
    st.module_dependencies.hasEdge x y = true →
    (ks.foldl analyze_module_dependencies st).module_dependencies.hasEdge x y = true := by
  intro ks
  induction ks with
  | nil => intro st h; exact h
  | cons a t ih => intro st h; rw [List.foldl_cons]; exact ih _ (amd_edge_mono st a x y h)

theorem ksfold_node_mono (x : String) : ∀ (ks : List String) (st : ModuleAnalyzer),
    st.module_dependencies.hasNode x = true →
    (ks.foldl analyze_module_dependencies st).module_dependencies.hasNode x = true := by
  intro ks
  induction ks with
  | nil => intro st h; exact h
  | cons a t ih => intro st h; rw [List.foldl_cons]; exact ih _ (amd_node_mono st a x h)

theorem ksfold_isSome (mn : String) : ∀ (ks : List String) (st : ModuleAnalyzer),
    mlookup st mn ≠ Option.none →
    mlookup (ks.foldl analyze_module_dependencies st) mn ≠ Option.none := by
  intro ks
  induction ks with
  | nil => intro st h; exact h
  | cons a t ih => intro st h; rw [List.foldl_cons]; exact ih _ (amd_isSome st a mn h)

theorem find?_map_val {δ γ : Type} (l : List (String × δ)) (d : δ → γ) (k : String) :
    ((l.map (fun p => (p.1, d p.2))).find? (fun p => p.1 == k)).map (·.2)
      = ((l.find? (fun p => p.1 == k)).map (·.2)).map d := by
  induction l with
  | nil => rfl
  | cons a t ih =>
    rw [List.map_cons]
    by_cases hk : (a.1 == k) = true
    · rw [List.find?_cons_of_pos (p := fun q : String × γ => q.1 == k) (a := (a.1, d a.2)) _ hk,
        List.find?_cons_of_pos (p := fun q : String × δ => q.1 == k) (a := a) _ hk]
      rfl
    · rw [List.find?_cons_of_neg (p := fun q : String × γ => q.1 == k) (a := (a.1, d a.2)) _ hk,
        List.find?_cons_of_neg (p := fun q : String × δ => q.1 == k) (a := a) _ hk]
      exact ih

theorem view_get (st : ModuleAnalyzer) (mn : String) :
    (((analyzer_view st).find? (fun p => p.1 == mn)).map (·.2))
      = (mlookup st mn).map (·.files) :=
  find?_map_val st.modules (fun md => md.files) mn

theorem view_files_eq (s t : ModuleAnalyzer) (h : analyzer_view s = analyzer_view t)
    (mn : String) : (mlookup s mn).map (·.files) = (mlookup t mn).map (·.files) := by
  rw [← view_get, ← view_get, h]

theorem view_keys (st : ModuleAnalyzer) :
    (analyzer_view st).map (·.1) = st.modules.map (·.1) := by
  rw [analyzer_view, List.map_map]
  apply List.map_congr_left
  intro p _
  rfl

theorem alist_ext {γ : Type} : ∀ (l l' : List (String × γ)),
    l.map (·.1) = l'.map (·.1) → (l.map (·.1)).Nodup →
    (∀ k, ((l.find? (fun p => p.1 == k)).map (·.2))
        = ((l'.find? (fun p => p.1 == k)).map (·.2))) →
    l = l' := by
  intro l
  induction l with
  | nil =>
    intro l' hk _ _
    cases l' with
    | nil => rfl
    | cons b t => simp at hk
  | cons a t ih =>
    intro l' hk hnd hget
    cases l' with
    | nil => simp at hk
    | cons b t' =>
      simp only [List.map_cons, List.cons.injEq] at hk
      obtain ⟨h1, h2⟩ := hk
      have hv := hget a.1
      rw [List.find?_cons_of_pos (p := fun q : String × γ => q.1 == a.1) (a := a) _ (by simp),
        List.find?_cons_of_pos (p := fun q : String × γ => q.1 == a.1) (a := b) _
          (by simp [← h1])] at hv
      simp only [Option.map_some'] at hv
      have hab : a = b := Prod.ext h1 (Option.some.inj hv)
      rw [hab]
      have htt : t = t' := by
        apply ih t' h2 (List.nodup_cons.mp hnd).2
        intro k
        by_cases hka : k = a.1
        · have hna : a.1 ∉ t.map (·.1) := (List.nodup_cons.mp hnd).1
          have hnb : a.1 ∉ t'.map (·.1) := by rw [← h2]; exact hna
          have e1 : t.find? (fun p => p.1 == k) = Option.none := by
            rw [List.find?_eq_none]
            intro p hp hpe
            have hpa : p.1 = a.1 := by rw [← hka]; simpa using hpe
            exact hna (List.mem_map.mpr ⟨p, hp, hpa⟩)
          have e2 : t'.find? (fun p => p.1 == k) = Option.none := by
            rw [List.find?_eq_none]
            intro p hp hpe
            have hpa : p.1 = a.1 := by rw [← hka]; simpa using hpe
            exact hnb (List.mem_map.mpr ⟨p, hp, hpa⟩)
          rw [e1, e2]
        · have hgk := hget k
          rw [List.find?_cons_of_neg (p := fun q : String × γ => q.1 == k) (a := a) _
            (by dsimp only; simp only [beq_iff_eq]; exact fun e => hka e.symm),
            List.find?_cons_of_neg (p := fun q : String × γ => q.1 == k) (a := b) _
            (by dsimp only; simp only [beq_iff_eq];
                exact fun e => hka (h1.trans e).symm)] at hgk
          exact hgk
      rw [htt]

theorem dict_mem_iff {α : Type} (d : List (String × α)) (k : String) :
    dict_mem d k = true ↔ k ∈ d.map (·.1) := by
  rw [dict_mem, List.any_eq_true]
  constructor
  · rintro ⟨p, hp, hpe⟩
    exact List.mem_map.mpr ⟨p, hp, by simpa using hpe⟩
  · intro h
    obtain ⟨p, hp, hpe⟩ := List.mem_map.mp h
    exact ⟨p, hp, by simpa using hpe⟩

theorem dep_fold_establish (r : ModuleAnalyzer) (m : String) :
    ∀ (l : List String) (st : ModuleAnalyzer),
      analyzer_view st = analyzer_view r →
      mlookup st m ≠ Option.none →
      ∀ inc ∈ l, ∀ dep, resolve_include_to_module r inc = some dep → dep ≠ m →
        dep ∈ depsOf (l.foldl (dep_step m) st) m ∧
        (l.foldl (dep_step m) st).module_dependencies.hasEdge m dep = true ∧
        (l.foldl (dep_step m) st).module_dependencies.hasNode m = true ∧
        (l.foldl (dep_step m) st).module_dependencies.hasNode dep = true := by
  intro l
  induction l with
  | nil => intro st _ _ inc hinc; cases hinc
  | cons a t ih =>
    intro st hv hm inc hinc dep hres hd
    rw [List.foldl_cons]
    rcases List.mem_cons.mp hinc with h | h
    · subst h
      have hres' : resolve_include_to_module st inc = some dep := by
        rw [resolve_eq_view, hv, ← resolve_eq_view]
        exact hres
      obtain ⟨p1, p2, p3, p4⟩ := dep_step_establish m st inc dep hres' hd hm
      exact ⟨dep_fold_deps_mono m m dep t _ p1, dep_fold_edge_mono m m dep t _ p2,
        dep_fold_node_mono m m t _ p3, dep_fold_node_mono m dep t _ p4⟩
    · exact ih (dep_step m st a) (by rw [dep_step_view]; exact hv)
        (dep_step_isSome m st a m hm) inc h dep hres hd

theorem amd_establish (r : ModuleAnalyzer) (st : ModuleAnalyzer) (m : String)
    (hv : analyzer_view st = analyzer_view r)
    (md : ModuleData) (hmd : mlookup r m = some md) (hm : mlookup st m ≠ Option.none) :
    ∀ inc ∈ py_set_of (md.files.flatMap (·.includes)), ∀ dep,
      resolve_include_to_module r inc = some dep → dep ≠ m →
      dep ∈ depsOf (analyze_module_dependencies st m) m ∧
      (analyze_module_dependencies st m).module_dependencies.hasEdge m dep = true ∧
      (analyze_module_dependencies st m).module_dependencies.hasNode m = true ∧
      (analyze_module_dependencies st m).module_dependencies.hasNode dep = true := by
  intro inc hinc dep hres hd
  rw [amd_eq]
  cases hlk : mlookup st m with
  | none => exact absurd hlk hm
  | some md_st =>
    have hfe : md_st.files = md.files := by
      have hvf := view_files_eq st r hv m
      rw [hlk, hmd] at hvf
      simpa using hvf
    apply dep_fold_establish r m _ st hv hm inc ?_ dep hres hd
    rw [hfe]
    exact hinc

theorem ksfold_post (r : ModuleAnalyzer) :
    ∀ (ks : List String) (st : ModuleAnalyzer),
      analyzer_view st = analyzer_view r →
      (∀ mn ∈ ks, mlookup st mn ≠ Option.none) →
      ∀ m ∈ ks, ∀ md, mlookup r m = some md →
        ∀ inc ∈ py_set_of (md.files.flatMap (·.includes)), ∀ dep,
          resolve_include_to_module r inc = some dep → dep ≠ m →
          dep ∈ depsOf (ks.foldl analyze_module_dependencies st) m ∧
          (ks.foldl analyze_module_dependencies st).module_dependencies.hasEdge m dep = true ∧
          (ks.foldl analyze_module_dependencies st).module_dependencies.hasNode m = true ∧
          (ks.foldl analyze_module_dependencies st).module_dependencies.hasNode dep
            = true := by
  intro ks
  induction ks with
  | nil => intro st _ _ m hm; cases hm
  | cons k t ih =>
    intro st hv hpres m hm md hmd inc hinc dep hres hd
    rw [List.foldl_cons]
    rcases List.mem_cons.mp hm with h | h
    · subst h
      obtain ⟨p1, p2, p3, p4⟩ :=
        amd_establish r st m hv md hmd (hpres m (by simp)) inc hinc dep hres hd
      exact ⟨ksfold_deps_mono m dep t _ p1, ksfold_edge_mono m dep t _ p2,
        ksfold_node_mono m t _ p3, ksfold_node_mono dep t _ p4⟩
    · exact ih (analyze_module_dependencies st k) (by rw [amd_view]; exact hv)
        (fun mn hmn => amd_isSome st k mn (hpres mn (by simp [hmn]))) m h md hmd inc hinc
        dep hres hd

theorem nodup_find_val {γ : Type} : ∀ (l : List (String × γ)), (l.map (·.1)).Nodup →
    ∀ p ∈ l, ((l.find? (fun q => q.1 == p.1)).map (·.2)) = some p.2 := by
  intro l
  induction l with
  | nil => intro _ p hp; cases hp
  | cons a t ih =>
    intro hnd p hp
    rcases List.mem_cons.mp hp with h | h
    · subst h
      rw [List.find?_cons_of_pos (p := fun q : String × γ => q.1 == p.1) (a := p) _ (by simp)]
      rfl
    · have hna : a.1 ∉ t.map (·.1) := (List.nodup_cons.mp hnd).1
      have hne : ¬ ((fun q : String × γ => q.1 == p.1) a) = true := by
        dsimp only
        simp only [beq_iff_eq]
        intro e
        exact hna (by rw [e]; exact List.mem_map.mpr ⟨p, h, rfl⟩)
      rw [List.find?_cons_of_neg (p := fun q : String × γ => q.1 == p.1) (a := a) _ hne]
      exact ih (List.nodup_cons.mp hnd).2 p h

theorem update_module_noop (t : ModuleAnalyzer) (m : String) (u : ModuleData → ModuleData)
    (hnd : (t.modules.map (·.1)).Nodup)
    (h : ∀ md, mlookup t m = some md → u md = md) :
    update_module t m u = t := by
  rw [update_module]
  have hmap : t.modules.map (fun p => if p.1 == m then (p.1, u p.2) else p) = t.modules := by
    have hid : ∀ p ∈ t.modules, (if p.1 == m then (p.1, u p.2) else p) = p := by
      intro p hp
      by_cases hpm : (p.1 == m) = true
      · rw [if_pos hpm]
        have hpm' : p.1 = m := by simpa using hpm
        have hlk : mlookup t m = some p.2 := by
          rw [mlookup, ← hpm']
          exact nodup_find_val t.modules hnd p hp
        rw [h p.2 hlk]
      · rw [if_neg hpm]
    rw [List.map_congr_left hid, List.map_id']
  rw [hmap]

theorem dep_step_noop (m : String) (t : ModuleAnalyzer) (a : String)
    (hnd : (t.modules.map (·.1)).Nodup)
    (h : ∀ dep, resolve_include_to_module t a = some dep → dep ≠ m →
      dep ∈ depsOf t m ∧ t.module_dependencies.hasEdge m dep = true ∧
      t.module_dependencies.hasNode m = true ∧ t.module_dependencies.hasNode dep = true) :
    dep_step m t a = t := by
  unfold dep_step
  split
  · rename_i dep heq
    by_cases hd : dep ≠ m
    · rw [if_pos hd]
      obtain ⟨h1, h2, h3, h4⟩ := h dep heq hd
      have hupd : update_module t m (fun md =>
          { md with dependencies :=
              if dep ∈ md.dependencies then md.dependencies
              else md.dependencies ++ [dep] }) = t := by
        apply update_module_noop t m _ hnd
        intro md hlk
        have hdin : dep ∈ md.dependencies := by
          rw [depsOf, hlk] at h1
          simpa using h1
        rw [if_pos hdin]
      dsimp only
      rw [hupd]
      rw [addEdge_idem _ m dep h3 h4 h2]
    · rw [if_neg hd]
  · rfl

theorem dep_fold_noop (m : String) : ∀ (l : List String) (t : ModuleAnalyzer),
    (t.modules.map (·.1)).Nodup →
    (∀ inc ∈ l, ∀ dep, resolve_include_to_module t inc = some dep → dep ≠ m →
      dep ∈ depsOf t m ∧ t.module_dependencies.hasEdge m dep = true ∧
      t.module_dependencies.hasNode m = true ∧ t.module_dependencies.hasNode dep = true) →
    l.foldl (dep_step m) t = t := by
  intro l
  induction l with
  | nil => intro t _ _; rfl
  | cons a tl ih =>
    intro t hnd hpost
    rw [List.foldl_cons, dep_step_noop m t a hnd (fun dep h1 h2 => hpost a (by simp) dep h1 h2)]
    exact ih t hnd (fun inc hinc dep h1 h2 => hpost inc (by simp [hinc]) dep h1 h2)

theorem amd_noop (t : ModuleAnalyzer) (m : String)
    (hnd : (t.modules.map (·.1)).Nodup)
    (hpost : ∀ md, mlookup t m = some md →
      ∀ inc ∈ py_set_of (md.files.flatMap (·.includes)), ∀ dep,
        resolve_include_to_module t inc = some dep → dep ≠ m →
        dep ∈ depsOf t m ∧ t.module_dependencies.hasEdge m dep = true ∧
        t.module_dependencies.hasNode m = true ∧ t.module_dependencies.hasNode dep = true) :
    analyze_module_dependencies t m = t := by
  rw [amd_eq]
  cases hlk : mlookup t m with
  | none => rfl
  | some md => exact dep_fold_noop m _ t hnd (hpost md hlk)

theorem ksfold_noop : ∀ (ks : List String) (t : ModuleAnalyzer),
    (∀ m ∈ ks, analyze_module_dependencies t m = t) →
    ks.foldl analyze_module_dependencies t = t := by
  intro ks
  induction ks with
  | nil => intro t _; rfl
  | cons k tl ih =>
    intro t h
    rw [List.foldl_cons, h k (by simp)]
    exact ih t (fun m hm => h m (by simp [hm]))

/-- C9 (amended): a second `analyze_project` run over the same unchanged file
set keeps the module key list, the dependency graph and every module's
dependency list exactly as after the first run, while every per-module file
list (and header/source categorization) is appended again, i.e. doubled. -/
theorem analyze_project_rerun (root : String) (fs : List SrcFile) :
    (analyze_project (analyze_project { project_root := root } fs) fs).modules.map (·.1)
      = (analyze_project { project_root := root } fs).modules.map (·.1) ∧
    (analyze_project (analyze_project { project_root := root } fs) fs).module_dependencies
      = (analyze_project { project_root := root } fs).module_dependencies ∧
    (∀ mn, (mlookup (analyze_project (analyze_project { project_root := root } fs) fs)
          mn).map (·.dependencies)
        = (mlookup (analyze_project { project_root := root } fs) mn).map (·.dependencies)) ∧
    (∀ mn md1, mlookup (analyze_project { project_root := root } fs) mn = some md1 →
      mlookup (analyze_project (analyze_project { project_root := root } fs) fs) mn
        = some { md1 with
            files := md1.files ++ md1.files,
            public_headers := md1.public_headers ++ md1.public_headers,
            private_headers := md1.private_headers ++ md1.private_headers,
            source_files := md1.source_files ++ md1.source_files }) := by
  set st0 : ModuleAnalyzer := { project_root := root } with hst0
  set r1 := fs.foldl analyze_register_file st0 with hr1
  set K := r1.modules.map (·.1) with hK
  set s1 := K.foldl analyze_module_dependencies r1 with hs1
  have hs1e : analyze_project st0 fs = s1 := rfl
  set r2 := fs.foldl analyze_register_file s1 with hr2
  set K2 := r2.modules.map (·.1) with hK2
  have hs2e : analyze_project s1 fs = K2.foldl analyze_module_dependencies r2 := rfl
  obtain ⟨hr1root, hr1graph, hr1some, hr1none⟩ := regFold_char fs st0
  obtain ⟨hr2root, hr2graph, hr2some, hr2none⟩ := regFold_char fs s1
  have hnodupK : K.Nodup := by
    rw [hK, hr1]
    exact regFold_keys_nodup fs st0 (by simp [hst0])
  have hkeys_s1 : s1.modules.map (·.1) = K := by
    rw [hs1]
    exact (ksfold_keys K r1).trans hK.symm
  have hview_s1 : analyzer_view s1 = analyzer_view r1 := by
    rw [hs1]
    exact ksfold_view K r1
  have hmemK : ∀ f ∈ fs, get_module_name f ∈ K := by
    intro f hf
    by_contra hnot
    have h0 : mlookup st0 (get_module_name f) = Option.none := rfl
    have h1 := hr1none (get_module_name f) h0
    rw [if_pos (List.any_eq_true.mpr ⟨f, hf, by simp⟩)] at h1
    have h2 : mlookup r1 (get_module_name f) = Option.none :=
      (mlookup_none_iff r1 (get_module_name f)).mpr (by rw [← hK]; exact hnot)
    rw [h1] at h2
    cases h2
  have hpresK_r1 : ∀ mn ∈ K, mlookup r1 mn ≠ Option.none := by
    intro mn hmn hnone
    exact (mlookup_none_iff r1 mn).mp hnone (by rw [← hK]; exact hmn)
  have hpresK_s1 : ∀ mn ∈ K, mlookup s1 mn ≠ Option.none := by
    intro mn hmn
    rw [hs1]
    exact ksfold_isSome mn K r1 (hpresK_r1 mn hmn)
  have hr1char : ∀ mn ∈ K, mlookup r1 mn
      = some (extend_spec mn fs (init_module_data mn root)) := by
    intro mn hmn
    have h0 : mlookup st0 mn = Option.none := rfl
    have h1 := hr1none mn h0
    by_cases hany : fs.any (fun f => get_module_name f == mn) = true
    · rw [if_pos hany] at h1
      exact h1
    · rw [if_neg hany] at h1
      exact absurd h1 (hpresK_r1 mn hmn)
  have hkeys_r2 : r2.modules.map (·.1) = K := by
    rw [hr2]
    rw [regFold_keys_stable fs s1 ?hall, hkeys_s1]
    case hall =>
      intro f hf
      rw [dict_mem_iff, hkeys_s1]
      exact hmemK f hf
  have hK2K : K2 = K := by rw [hK2]; exact hkeys_r2
  have hr2none' : ∀ mn, mlookup s1 mn = Option.none → mlookup r2 mn = Option.none := by
    intro mn hlk
    have hkK : mn ∉ K := fun hk => hpresK_s1 mn hk hlk
    have h2 := hr2none mn hlk
    rw [if_neg ?noany] at h2
    · exact h2
    case noany =>
      intro hany
      obtain ⟨f, hf, hfe⟩ := List.any_eq_true.mp hany
      have hfk : get_module_name f = mn := by simpa using hfe
      exact hkK (hfk ▸ hmemK f hf)
  have hr2char : ∀ mn md1, mlookup s1 mn = some md1 →
      mlookup r2 mn = some { md1 with
        files := md1.files ++ md1.files,
        public_headers := md1.public_headers ++ md1.public_headers,
        private_headers := md1.private_headers ++ md1.private_headers,
        source_files := md1.source_files ++ md1.source_files } := by
    intro mn md1 hlk
    have h2 := hr2some mn md1 hlk
    rw [h2]
    have hskel : (mlookup s1 mn).map md_skel = (mlookup r1 mn).map md_skel := by
      rw [hs1]
      exact ksfold_skel K r1 mn
    have hmnK : mn ∈ K := by
      by_contra hmm
      have hnone : mlookup s1 mn = Option.none :=
        (mlookup_none_iff s1 mn).mpr (by rw [hkeys_s1]; exact hmm)
      rw [hlk] at hnone
      cases hnone
    rw [hlk, hr1char mn hmnK] at hskel
    simp only [Option.map_some'] at hskel
    have hcomp := Option.some.inj hskel
    simp only [md_skel, extend_spec, init_module_data, Prod.mk.injEq, List.nil_append]
      at hcomp
    obtain ⟨e1, e2, e3, e4, e5, e6, e7, e8⟩ := hcomp
    rw [extend_spec, ← e3, ← e4, ← e5, ← e6]
  have hview_r2 : analyzer_view r2 = (analyzer_view s1).map (fun p => (p.1, p.2 ++ p.2)) := by
    apply alist_ext
    · rw [view_keys, hkeys_r2, List.map_map]
      rw [show ((fun x : String × List SrcFile => x.1) ∘
          (fun p : String × List SrcFile => (p.1, p.2 ++ p.2)))
          = (fun p : String × List SrcFile => p.1) from funext (fun p => rfl)]
      rw [view_keys, hkeys_s1]
    · rw [view_keys, hkeys_r2]
      exact hnodupK
    · intro k
      rw [view_get]
      rw [show (((analyzer_view s1).map (fun p => (p.1, p.2 ++ p.2))).find?
            (fun p => p.1 == k)).map (·.2)
          = (((analyzer_view s1).find? (fun p => p.1 == k)).map (·.2)).map
              (fun l => l ++ l) from
        find?_map_val (analyzer_view s1) (fun l => l ++ l) k]
      rw [view_get]
      cases hlk : mlookup s1 k with
      | none =>
        rw [hr2none' k hlk]
        rfl
      | some md1 =>
        rw [hr2char k md1 hlk]
        rfl
  have hres_r2 : ∀ inc, resolve_include_to_module r2 inc
      = resolve_include_to_module r1 inc := by
    intro inc
    rw [resolve_eq_view, hview_r2, resolve_view_doubled, hview_s1, ← resolve_eq_view]
  have hpost_s1 : ∀ m ∈ K, ∀ md, mlookup r1 m = some md →
      ∀ inc ∈ py_set_of (md.files.flatMap (·.includes)), ∀ dep,
        resolve_include_to_module r1 inc = some dep → dep ≠ m →
        dep ∈ depsOf s1 m ∧ s1.module_dependencies.hasEdge m dep = true ∧
        s1.module_dependencies.hasNode m = true ∧
        s1.module_dependencies.hasNode dep = true := by
    rw [hs1]
    exact ksfold_post r1 K r1 rfl hpresK_r1
  have hnodup_r2 : (r2.modules.map (·.1)).Nodup := by
    rw [hkeys_r2]
    exact hnodupK
  have hdeps_r2 : ∀ mn, (mlookup r2 mn).map (·.dependencies)
      = (mlookup s1 mn).map (·.dependencies) := by
    intro mn
    cases hlk : mlookup s1 mn with
    | none =>
      rw [hr2none' mn hlk]
    | some md1 =>
      rw [hr2char mn md1 hlk]
      rfl
  have hs2r2 : K2.foldl analyze_module_dependencies r2 = r2 := by
    apply ksfold_noop
    intro m hmK2
    have hmK : m ∈ K := by rw [← hK2K]; exact hmK2
    apply amd_noop r2 m hnodup_r2
    intro md2 hlk2 inc hinc dep hres hd
    have hs1some : ∃ md1, mlookup s1 m = some md1 := by
      cases hlk : mlookup s1 m with
      | none =>
        have hn2 := hr2none' m hlk
        rw [hn2] at hlk2
        cases hlk2
      | some md1 => exact ⟨md1, rfl⟩
    obtain ⟨md1, hmd1⟩ := hs1some
    have hdb := hr2char m md1 hmd1
    rw [hlk2] at hdb
    have hmd2 := Option.some.inj hdb
    have hfiles2 : md2.files = md1.files ++ md1.files := by rw [hmd2]
    have hmdr1 := hr1char m hmK
    have hfe : md1.files = (extend_spec m fs (init_module_data m root)).files := by
      have hvf := view_files_eq s1 r1 hview_s1 m
      rw [hmd1, hmdr1] at hvf
      simpa using hvf
    have hincs : py_set_of (md2.files.flatMap (·.includes))
        = py_set_of ((extend_spec m fs (init_module_data m root)).files.flatMap
            (·.includes)) := by
      rw [hfiles2, hfe, List.flatMap_append, py_set_of_append_self]
    rw [hincs] at hinc
    have hres1 : resolve_include_to_module r1 inc = some dep := by
      rw [← hres_r2]
      exact hres
    obtain ⟨q1, q2, q3, q4⟩ := hpost_s1 m hmK _ hmdr1 inc hinc dep hres1 hd
    have hdeq : depsOf r2 m = depsOf s1 m := by
      rw [depsOf, depsOf, hdeps_r2 m]
    refine ⟨?_, ?_, ?_, ?_⟩
    · rw [hdeq]
      exact q1
    · rw [hr2graph]
      exact q2
    · rw [hr2graph]
      exact q3
    · rw [hr2graph]
      exact q4
  refine ⟨?_, ?_, ?_, ?_⟩
  · rw [hs1e, hs2e, hs2r2, hkeys_r2, hkeys_s1]
  · rw [hs1e, hs2e, hs2r2]
    exact hr2graph
  · intro mn
    rw [hs1e, hs2e, hs2r2]
    exact hdeps_r2 mn
  · intro mn md1 h
    rw [hs1e] at h ⊢
    rw [hs2e, hs2r2]
    exact hr2char mn md1 h

/-- A single source file `core/a.cpp` with no includes. -/
def aFile : SrcFile := ⟨["core", "a.cpp"], []⟩

/-- The `core` module record after one `analyze_project` run over `[aFile]`. -/
def aMd : ModuleData :=
  { name := "core", path := "p/core", files := [aFile], source_files := [aFile] }

/-- C9 counterexample: running `analyze_project` twice over the unchanged file
set `[core/a.cpp]` does not reproduce the first run's state — the module
partition differs because the file list of `core` is appended again. -/
theorem analyze_project_not_idempotent :
    analyze_project (analyze_project { project_root := "p" } [aFile]) [aFile]
      ≠ analyze_project { project_root := "p" } [aFile] := by
  decide

theorem analyze_project_rerun_witness :
    mlookup (analyze_project { project_root := "p" } [aFile]) "core" = some aMd ∧
    mlookup (analyze_project (analyze_project { project_root := "p" } [aFile]) [aFile])
        "core"
      = some { aMd with
          files := aMd.files ++ aMd.files,
          public_headers := aMd.public_headers ++ aMd.public_headers,
          private_headers := aMd.private_headers ++ aMd.private_headers,
          source_files := aMd.source_files ++ aMd.source_files } :=
  ⟨by decide, (analyze_project_rerun "p" [aFile]).2.2.2 "core" aMd (by decide)⟩

/-!
## C1: entry/exit uniqueness and reachability of the built CFG
-/

/-- One directed CFG edge, ignoring its kind. -/
def EdgeRel (g : Cfg) (u v : String) : Prop :=
  ∃ t, (u, v, t) ∈ NxDiGraph.edges g

/-- Graph reachability along directed edges. -/
def Reach (g : Cfg) (a b : String) : Prop :=
  Relation.ReflTransGen (EdgeRel g) a b

/-- `g'` extends `g`: every node id survives and every edge survives with its
endpoints (its kind may have been overwritten by `DiGraph.add_edge`). -/
def SubG (g g' : Cfg) : Prop :=
  (∀ id, id ∈ NxDiGraph.nodeIds g → id ∈ NxDiGraph.nodeIds g') ∧
  (∀ u v, EdgeRel g u v → EdgeRel g' u v)

/-- Every node except possibly `x` (the not-yet-linked exit) is reachable
from `e`. -/
def AllReachX (g : Cfg) (e x : String) : Prop :=
  ∀ id ∈ NxDiGraph.nodeIds g, id ≠ x → Reach g e id

/-- Entry-typed nodes only at the entry id, exit-typed only at the exit id. -/
def TypeInv (eid xid : String) (g : Cfg) : Prop :=
  ∀ p ∈ NxDiGraph.nodes g, (p.2.type = "entry" → p.1 = eid) ∧ (p.2.type = "exit" → p.1 = xid)

def entry_count (g : Cfg) : Nat :=
  (NxDiGraph.nodes g).countP (fun p => p.2.type == "entry")

def exit_count (g : Cfg) : Nat :=
  (NxDiGraph.nodes g).countP (fun p => p.2.type == "exit")

theorem subg_refl (g : Cfg) : SubG g g := ⟨fun _ h => h, fun _ _ h => h⟩

theorem subg_trans {g g1 g2 : Cfg} (h1 : SubG g g1) (h2 : SubG g1 g2) : SubG g g2 :=
  ⟨fun id h => h2.1 id (h1.1 id h), fun u v h => h2.2 u v (h1.2 u v h)⟩

theorem reach_mono {g g' : Cfg} (h : SubG g g') {a b : String} (hr : Reach g a b) :
    Reach g' a b :=
  Relation.ReflTransGen.mono (fun u v huv => h.2 u v huv) hr

theorem addNode_nodeIds_sub (g : Cfg) (i : String) (a : CFGAttrs) :
    ∀ id ∈ NxDiGraph.nodeIds (NxDiGraph.addNode g i a), id ∈ NxDiGraph.nodeIds g ∨ id = i := by
  intro id hid
  rw [NxDiGraph.addNode] at hid
  split at hid
  · obtain ⟨p, hp, hpe⟩ := List.mem_map.mp hid
    obtain ⟨q, hq, hqe⟩ := List.mem_map.mp hp
    by_cases hm : (q.1 == i) = true
    · right
      rw [← hpe, ← hqe, if_pos hm]
    · left
      rw [← hpe, ← hqe, if_neg hm]
      exact List.mem_map.mpr ⟨q, hq, rfl⟩
  · rw [NxDiGraph.nodeIds, List.map_append] at hid
    rcases List.mem_append.mp hid with h | h
    · exact Or.inl h
    · simp at h
      exact Or.inr h

theorem addEdge_nodes_shape' {α β : Type} [Inhabited α] (g : NxDiGraph α β) (u v : String)
    (b : β) :
    ∃ l, (g.addEdge u v b).nodes = g.nodes ++ l ∧
      ∀ p ∈ l, p = (u, (default : α)) ∨ p = (v, (default : α)) := by
  rw [NxDiGraph.addEdge]
  split <;> split <;> split
  · exact ⟨[], by rw [List.append_nil], by simp⟩
  · exact ⟨[], by rw [List.append_nil], by simp⟩
  · exact ⟨[(v, default)], rfl, by intro p hp; simp at hp; exact Or.inr hp⟩
  · exact ⟨[(v, default)], rfl, by intro p hp; simp at hp; exact Or.inr hp⟩
  · exact ⟨[(u, default)], rfl, by intro p hp; simp at hp; exact Or.inl hp⟩
  · exact ⟨[(u, default)], rfl, by intro p hp; simp at hp; exact Or.inl hp⟩
  · refine ⟨[(u, default), (v, default)], by rw [List.append_assoc] <;> rfl, ?_⟩
    intro p hp
    rcases List.mem_cons.mp hp with h | h
    · exact Or.inl h
    · simp at h
      exact Or.inr h
  · refine ⟨[(u, default), (v, default)], by rw [List.append_assoc] <;> rfl, ?_⟩
    intro p hp
    rcases List.mem_cons.mp hp with h | h
    · exact Or.inl h
    · simp at h
      exact Or.inr h

theorem addEdge_nodeIds_sub (g : Cfg) (u v : String) (b : String) :
    ∀ id ∈ NxDiGraph.nodeIds (NxDiGraph.addEdge g u v b),
      id ∈ NxDiGraph.nodeIds g ∨ id = u ∨ id = v := by
  intro id hid
  obtain ⟨l, hl, hel⟩ := addEdge_nodes_shape' g u v b
  rw [NxDiGraph.nodeIds, hl, List.map_append] at hid
  rcases List.mem_append.mp hid with h | h
  · exact Or.inl h
  · obtain ⟨p, hp, hpe⟩ := List.mem_map.mp h
    rcases hel p hp with h2 | h2 <;> subst h2
    · exact Or.inr (Or.inl hpe.symm)
    · exact Or.inr (Or.inr hpe.symm)

theorem subg_addNode (g : Cfg) (i : String) (a : CFGAttrs) :
    SubG g (NxDiGraph.addNode g i a) := by
  constructor
  · intro id hid
    rw [NxDiGraph.addNode]
    split
    · obtain ⟨p, hp, hpe⟩ := List.mem_map.mp hid
      apply List.mem_map.mpr
      refine ⟨(if p.1 == i then (i, a) else p), List.mem_map_of_mem _ hp, ?_⟩
      by_cases hm : (p.1 == i) = true
      · rw [if_pos hm]
        have hpi : p.1 = i := by simpa using hm
        show i = id
        rw [← hpi]
        exact hpe
      · rw [if_neg hm]
        exact hpe
    · rw [NxDiGraph.nodeIds, List.map_append]
      exact List.mem_append_left _ hid
  · intro u v h
    obtain ⟨t, ht⟩ := h
    refine ⟨t, ?_⟩
    rw [NxDiGraph.addNode]
    split
    · exact ht
    · exact ht

theorem subg_addEdge (g : Cfg) (u v : String) (b : String) :
    SubG g (NxDiGraph.addEdge g u v b) := by
  constructor
  · intro id hid
    obtain ⟨l, hl, _⟩ := addEdge_nodes_shape' g u v b
    rw [NxDiGraph.nodeIds, hl, List.map_append]
    exact List.mem_append_left _ hid
  · intro x y h
    obtain ⟨t, ht⟩ := h
    rw [EdgeRel, addEdge_edges_shape]
    by_cases hc : NxDiGraph.hasEdge g u v = true
    · rw [if_pos hc]
      by_cases hm : (((x, y, t) : String × String × String).1 == u
          && ((x, y, t) : String × String × String).2.1 == v) = true
      · have h2 := List.mem_map_of_mem
          (fun e : String × String × String =>
            if e.1 == u && e.2.1 == v then (u, v, b) else e) ht
        dsimp only at h2
        rw [if_pos hm] at h2
        have hxy : x = u ∧ y = v := by simpa using hm
        refine ⟨b, ?_⟩
        rw [hxy.1, hxy.2]
        exact h2
      · have h2 := List.mem_map_of_mem
          (fun e : String × String × String =>
            if e.1 == u && e.2.1 == v then (u, v, b) else e) ht
        dsimp only at h2
        rw [if_neg hm] at h2
        exact ⟨t, h2⟩
    · rw [if_neg hc]
      exact ⟨t, List.mem_append_left _ ht⟩

theorem addEdge_edgeRel_self (g : Cfg) (u v : String) (b : String) :
    EdgeRel (NxDiGraph.addEdge g u v b) u v := by
  rw [EdgeRel, addEdge_edges_shape]
  by_cases hc : NxDiGraph.hasEdge g u v = true
  · rw [if_pos hc]
    rw [NxDiGraph.hasEdge] at hc
    obtain ⟨e, he, hpe⟩ := List.any_eq_true.mp hc
    exact ⟨b, List.mem_map.mpr ⟨e, he, by rw [if_pos hpe]⟩⟩
  · rw [if_neg hc]
    exact ⟨b, List.mem_append_right _ (by simp)⟩

theorem allreach_addEdge (g : Cfg) (e x u v : String) (t : String)
    (hall : AllReachX g e x) (hu : Reach g e u) :
    AllReachX (NxDiGraph.addEdge g u v t) e x ∧ Reach (NxDiGraph.addEdge g u v t) e v := by
  have hs := subg_addEdge g u v t
  have hu' := reach_mono hs hu
  have hv : Reach (NxDiGraph.addEdge g u v t) e v :=
    hu'.tail (addEdge_edgeRel_self g u v t)
  refine ⟨?_, hv⟩
  intro id hid hne
  rcases addEdge_nodeIds_sub g u v t id hid with h | h | h
  · exact reach_mono hs (hall id h hne)
  · subst h
    exact hu'
  · subst h
    exact hv

theorem allreach_addNode_addEdge (g : Cfg) (e x cur i : String) (a : CFGAttrs) (t : String)
    (hall : AllReachX g e x) (hcur : Reach g e cur) :
    AllReachX (NxDiGraph.addEdge (NxDiGraph.addNode g i a) cur i t) e x ∧
    Reach (NxDiGraph.addEdge (NxDiGraph.addNode g i a) cur i t) e i := by
  have hs1 := subg_addNode g i a
  have hs2 := subg_addEdge (NxDiGraph.addNode g i a) cur i t
  have hs := subg_trans hs1 hs2
  have hcur' := reach_mono hs hcur
  have hi := hcur'.tail (addEdge_edgeRel_self _ cur i t)
  refine ⟨?_, hi⟩
  intro id hid hne
  rcases addEdge_nodeIds_sub _ cur i t id hid with h | h | h
  · rcases addNode_nodeIds_sub g i a id h with h2 | h2
    · exact reach_mono hs (hall id h2 hne)
    · subst h2
      exact hi
  · subst h
    exact hcur'
  · subst h
    exact hi

theorem addNode_counts (g : Cfg) (i : String) (a : CFGAttrs) (eid xid : String)
    (hti : TypeInv eid xid g)
    (hie : i ≠ eid) (hix : i ≠ xid) (hae : a.type ≠ "entry") (hax : a.type ≠ "exit") :
    TypeInv eid xid (NxDiGraph.addNode g i a) ∧
    entry_count (NxDiGraph.addNode g i a) = entry_count g ∧
    exit_count (NxDiGraph.addNode g i a) = exit_count g := by
  rw [NxDiGraph.addNode]
  split
  · refine ⟨?_, ?_, ?_⟩
    · intro p hp
      obtain ⟨q, hq, hqe⟩ := List.mem_map.mp hp
      by_cases hm : (q.1 == i) = true
      · rw [if_pos hm] at hqe
        subst hqe
        exact ⟨fun h => absurd h hae, fun h => absurd h hax⟩
      · rw [if_neg hm] at hqe
        subst hqe
        exact hti q hq
    · rw [entry_count, entry_count]
      dsimp only
      rw [List.countP_map]
      apply List.countP_congr
      intro q hq
      simp only [Function.comp_apply]
      by_cases hm : (q.1 == i) = true
      · rw [if_pos hm]
        have hq1 : q.1 = i := by simpa using hm
        constructor
        · intro h
          exact absurd (by simpa using h) hae
        · intro h
          have ht : q.2.type = "entry" := by simpa using h
          exact absurd (hq1 ▸ (hti q hq).1 ht) hie
      · rw [if_neg hm]
    · rw [exit_count, exit_count]
      dsimp only
      rw [List.countP_map]
      apply List.countP_congr
      intro q hq
      simp only [Function.comp_apply]
      by_cases hm : (q.1 == i) = true
      · rw [if_pos hm]
        have hq1 : q.1 = i := by simpa using hm
        constructor
        · intro h
          exact absurd (by simpa using h) hax
        · intro h
          have ht : q.2.type = "exit" := by simpa using h
          exact absurd (hq1 ▸ (hti q hq).2 ht) hix
      · rw [if_neg hm]
  · refine ⟨?_, ?_, ?_⟩
    · intro p hp
      rcases List.mem_append.mp hp with h | h
      · exact hti p h
      · simp at h
        subst h
        exact ⟨fun h => absurd h hae, fun h => absurd h hax⟩
    · rw [entry_count, entry_count]
      dsimp only
      rw [List.countP_append]
      have h1 : ([(i, a)] : List (String × CFGAttrs)).countP (fun p => p.2.type == "entry")
          = 0 := by
        rw [List.countP_eq_zero]
        intro p hp
        simp at hp
        subst hp
        simpa using hae
      rw [h1]
      omega
    · rw [exit_count, exit_count]
      dsimp only
      rw [List.countP_append]
      have h1 : ([(i, a)] : List (String × CFGAttrs)).countP (fun p => p.2.type == "exit")
          = 0 := by
        rw [List.countP_eq_zero]
        intro p hp
        simp at hp
        subst hp
        simpa using hax
      rw [h1]
      omega

theorem addEdge_counts (g : Cfg) (u v : String) (b : String) (eid xid : String)
    (hti : TypeInv eid xid g) :
    TypeInv eid xid (NxDiGraph.addEdge g u v b) ∧
    entry_count (NxDiGraph.addEdge g u v b) = entry_count g ∧
    exit_count (NxDiGraph.addEdge g u v b) = exit_count g := by
  obtain ⟨l, hl, hel⟩ := addEdge_nodes_shape' g u v b
  have hl0 : ∀ p ∈ l, p.2.type = "" := by
    intro p hp
    rcases hel p hp with h2 | h2 <;> subst h2 <;> rfl
  refine ⟨?_, ?_, ?_⟩
  · intro p hp
    rw [hl] at hp
    rcases List.mem_append.mp hp with h | h
    · exact hti p h
    · have := hl0 p h
      constructor
      · intro ht
        simp [this] at ht
      · intro ht
        simp [this] at ht
  · rw [entry_count, entry_count, hl, List.countP_append]
    have h1 : l.countP (fun p => p.2.type == "entry") = 0 := by
      rw [List.countP_eq_zero]
      intro p hp
      rw [show p.2.type = "" from hl0 p hp]
      simp
    rw [h1]
    omega
  · rw [exit_count, exit_count, hl, List.countP_append]
    have h1 : l.countP (fun p => p.2.type == "exit") = 0 := by
      rw [List.countP_eq_zero]
      intro p hp
      rw [show p.2.type = "" from hl0 p hp]
      simp
    rw [h1]
    omega

theorem gen_id_ne_empty {fname s : String} (h : GenSuffix s) : fname ++ s ≠ "" := by
  rcases h with ⟨r, rfl⟩ | ⟨r, rfl⟩ | ⟨r, rfl⟩ <;>
    · intro he
      have hd := congrArg String.data he
      simp [data_append] at hd

theorem entry_id_ne_empty (fname : String) : fname ++ "_entry" ≠ "" := by
  intro he
  have hd := congrArg String.data he
  simp [data_append] at hd

/-- Precondition threaded through the statement processors: all nodes but the
exit are reachable from `e`, the frontier is reachable and non-empty, and
entry/exit-typed nodes sit only at their canonical ids. -/
def ProcPre (e fn : String) (g : Cfg) (cur : String) : Prop :=
  AllReachX g e (fn ++ "_exit") ∧ Reach g e cur ∧ cur ≠ "" ∧
  TypeInv (fn ++ "_entry") (fn ++ "_exit") g

/-- Postcondition of one processor call with result `r`. -/
def ProcPost (e fn : String) (g : Cfg) (r : String × Cfg × Nat) : Prop :=
  SubG g r.2.1 ∧ AllReachX r.2.1 e (fn ++ "_exit") ∧ Reach r.2.1 e r.1 ∧ r.1 ≠ "" ∧
  TypeInv (fn ++ "_entry") (fn ++ "_exit") r.2.1 ∧
  entry_count r.2.1 = entry_count g ∧ exit_count r.2.1 = exit_count g

theorem procpost_trans (e fn : String) (g g1 : Cfg) (r : String × Cfg × Nat)
    (h1 : SubG g g1) (he : entry_count g1 = entry_count g)
    (hx : exit_count g1 = exit_count g) (h2 : ProcPost e fn g1 r) : ProcPost e fn g r :=
  ⟨subg_trans h1 h2.1, h2.2.1, h2.2.2.1, h2.2.2.2.1, h2.2.2.2.2.1,
   h2.2.2.2.2.2.1.trans he, h2.2.2.2.2.2.2.trans hx⟩

theorem py_or_str_ne {a : String} (b : String) (h : a ≠ "") : py_or_str a b = a := by
  rw [py_or_str, if_neg h]

set_option maxHeartbeats 4000000 in
theorem if_merge_post (e fn : String) (g gB : Cfg) (cid texit eexit mid : String)
    (ma : CFGAttrs) (kk : Nat)
    (hsub : SubG g gB) (hall : AllReachX gB e (fn ++ "_exit"))
    (hrt : Reach gB e texit) (hre : Reach gB e eexit) (hrc : Reach gB e cid)
    (hti : TypeInv (fn ++ "_entry") (fn ++ "_exit") gB)
    (hce : entry_count gB = entry_count g) (hcx : exit_count gB = exit_count g)
    (hmid_e : mid ≠ fn ++ "_entry") (hmid_x : mid ≠ fn ++ "_exit")
    (hmat : ma.type ≠ "entry") (hmax : ma.type ≠ "exit") (hmne : mid ≠ "") :
    ProcPost e fn g
      (mid,
       (if eexit ≠ cid then
          NxDiGraph.addEdge
            (if texit ≠ cid then
              NxDiGraph.addEdge (NxDiGraph.addNode gB mid ma) texit mid "true"
             else NxDiGraph.addNode gB mid ma) eexit mid "false"
        else
          NxDiGraph.addEdge
            (if texit ≠ cid then
              NxDiGraph.addEdge (NxDiGraph.addNode gB mid ma) texit mid "true"
             else NxDiGraph.addNode gB mid ma) cid mid "false"),
       kk) := by
  obtain ⟨hti1, hce1, hcx1⟩ := addNode_counts gB mid ma _ _ hti hmid_e hmid_x hmat hmax
  by_cases ht : texit ≠ cid
  · obtain ⟨hallc2, hrmid2⟩ :=
      allreach_addNode_addEdge gB e (fn ++ "_exit") texit mid ma "true" hall hrt
    obtain ⟨hti2, hce2, hcx2⟩ :=
      addEdge_counts (NxDiGraph.addNode gB mid ma) texit mid "true" _ _ hti1
    have hsub2 : SubG gB (NxDiGraph.addEdge (NxDiGraph.addNode gB mid ma) texit mid "true") :=
      subg_trans (subg_addNode _ _ _) (subg_addEdge _ _ _ _)
    by_cases he2 : eexit ≠ cid
    · rw [if_pos he2, if_pos ht]
      obtain ⟨hall3, _⟩ := allreach_addEdge _ e (fn ++ "_exit") eexit mid "false" hallc2
        (reach_mono hsub2 hre)
      obtain ⟨hti3, hce3, hcx3⟩ := addEdge_counts _ eexit mid "false" _ _ hti2
      exact ⟨subg_trans hsub (subg_trans hsub2 (subg_addEdge _ eexit mid "false")), hall3,
        reach_mono (subg_addEdge _ eexit mid "false") hrmid2, hmne, hti3,
        by rw [hce3, hce2, hce1, hce], by rw [hcx3, hcx2, hcx1, hcx]⟩
    · rw [if_neg he2, if_pos ht]
      obtain ⟨hall3, _⟩ := allreach_addEdge _ e (fn ++ "_exit") cid mid "false" hallc2
        (reach_mono hsub2 hrc)
      obtain ⟨hti3, hce3, hcx3⟩ := addEdge_counts _ cid mid "false" _ _ hti2
      exact ⟨subg_trans hsub (subg_trans hsub2 (subg_addEdge _ cid mid "false")), hall3,
        reach_mono (subg_addEdge _ cid mid "false") hrmid2, hmne, hti3,
        by rw [hce3, hce2, hce1, hce], by rw [hcx3, hcx2, hcx1, hcx]⟩
  · rw [if_neg ht]
    by_cases he2 : eexit ≠ cid
    · rw [if_pos he2]
      obtain ⟨hall3, hrmid3⟩ :=
        allreach_addNode_addEdge gB e (fn ++ "_exit") eexit mid ma "false" hall hre
      obtain ⟨hti3, hce3, hcx3⟩ :=
        addEdge_counts (NxDiGraph.addNode gB mid ma) eexit mid "false" _ _ hti1
      exact ⟨subg_trans hsub
          (subg_trans (subg_addNode gB mid ma) (subg_addEdge _ eexit mid "false")),
        hall3, hrmid3, hmne, hti3, by rw [hce3, hce1, hce], by rw [hcx3, hcx1, hcx]⟩
    · rw [if_neg he2]
      obtain ⟨hall3, hrmid3⟩ :=
        allreach_addNode_addEdge gB e (fn ++ "_exit") cid mid ma "false" hall hrc
      obtain ⟨hti3, hce3, hcx3⟩ :=
        addEdge_counts (NxDiGraph.addNode gB mid ma) cid mid "false" _ _ hti1
      exact ⟨subg_trans hsub
          (subg_trans (subg_addNode gB mid ma) (subg_addEdge _ cid mid "false")),
        hall3, hrmid3, hmne, hti3, by rw [hce3, hce1, hce], by rw [hcx3, hcx1, hcx]⟩

/-!
## C1: entry/exit uniqueness and reachability

The invariant `ProcPre`/`ProcPost` is threaded through the mutual statement
processors by strong induction on the AST size (`builder_inv`), and then
discharged against `build_cfg_from_ast`'s construction of the two-node
initial graph and its final frontier-to-exit closure edge.
-/

/-- Finishing step shared by the two loop processors: adding the loop-exit
node and the `loop_exit` edge to a graph that satisfies the invariant
preserves it, and the new frontier is the loop-exit node. -/
theorem loop_exit_post (e fn : String) (g gB : Cfg) (lid lxid : String) (la : CFGAttrs)
    (kk : Nat)
    (hsub : SubG g gB) (hall : AllReachX gB e (fn ++ "_exit")) (hrl : Reach gB e lid)
    (hti : TypeInv (fn ++ "_entry") (fn ++ "_exit") gB)
    (hce : entry_count gB = entry_count g) (hcx : exit_count gB = exit_count g)
    (hlx_e : lxid ≠ fn ++ "_entry") (hlx_x : lxid ≠ fn ++ "_exit")
    (hat : la.type ≠ "entry") (hax : la.type ≠ "exit") (hlx0 : lxid ≠ "") :
    ProcPost e fn g
      (lxid, NxDiGraph.addEdge (NxDiGraph.addNode gB lxid la) lid lxid "loop_exit", kk) := by
  obtain ⟨hti1, hce1, hcx1⟩ :=
    addNode_counts gB lxid la (fn ++ "_entry") (fn ++ "_exit") hti hlx_e hlx_x hat hax
  obtain ⟨hall2, hrx2⟩ :=
    allreach_addNode_addEdge gB e (fn ++ "_exit") lid lxid la "loop_exit" hall hrl
  obtain ⟨hti2, hce2, hcx2⟩ :=
    addEdge_counts (NxDiGraph.addNode gB lxid la) lid lxid "loop_exit"
      (fn ++ "_entry") (fn ++ "_exit") hti1
  exact ⟨subg_trans hsub (subg_trans (subg_addNode _ _ _) (subg_addEdge _ _ _ _)),
    hall2, hrx2, hlx0, hti2, by rw [hce2, hce1, hce], by rw [hcx2, hcx1, hcx]⟩

set_option maxHeartbeats 4000000 in
/-- Joint invariant of the mutual statement processors, by strong induction
on the AST size: starting from a graph in which every node but the exit is
reachable from `e` and the frontier `cur` is reachable and non-empty, each
processor returns an extension of the graph with the same property, a
reachable non-empty frontier, unchanged entry/exit counts, and entry/exit
types only at the canonical ids. -/
theorem builder_inv (e fn fp : String) : ∀ n : Nat,
    (∀ node cur exit_id cfg k, astSize node ≤ n → ProcPre e fn cfg cur →
      ProcPost e fn cfg (process_statement_block node cur exit_id fn fp cfg k) ∧
      ProcPost e fn cfg (process_if_statement node cur exit_id fn fp cfg k) ∧
      ProcPost e fn cfg (process_for_loop node cur exit_id fn fp cfg k) ∧
      ProcPost e fn cfg (process_while_loop node cur exit_id fn fp cfg k)) ∧
    (∀ stmts cur exit_id cfg k, astSizeList stmts ≤ n → ProcPre e fn cfg cur →
      ProcPost e fn cfg (process_statements stmts cur exit_id fn fp cfg k)) := by
  intro n
  induction n using Nat.strong_induction_on with
  | _ n ih =>
    have nodePart : ∀ node cur exit_id cfg k, astSize node ≤ n → ProcPre e fn cfg cur →
        ProcPost e fn cfg (process_statement_block node cur exit_id fn fp cfg k) ∧
        ProcPost e fn cfg (process_if_statement node cur exit_id fn fp cfg k) ∧
        ProcPost e fn cfg (process_for_loop node cur exit_id fn fp cfg k) ∧
        ProcPost e fn cfg (process_while_loop node cur exit_id fn fp cfg k) := by
      intro node cur exit_id cfg k hn hpre
      have hpos := astSize_pos node
      refine ⟨?_, ?_, ?_, ?_⟩
      · -- statement block: delegate to the statement-list part at a smaller bound
        rw [process_statement_block]
        have hlt : astSizeList (extract_statements node) < astSize node :=
          extract_statements_size_lt node
        have hsz : astSizeList (extract_statements node) ≤ n - 1 := by omega
        exact (ih (n - 1) (by omega)).2 (extract_statements node) cur exit_id cfg k hsz hpre
      · -- if statement
        simp only [process_if_statement, Cfg.addNode, Cfg.addEdge]
        obtain ⟨hpre1, hpre2, hpre3, hpre4⟩ := hpre
        have hid := create_statement_node_id node "branch" ("If: " ++ extract_condition node)
          fn fp k
        have hgs : GenSuffix ("_stmt_" ++ toString k) := Or.inl ⟨_, rfl⟩
        set p := create_statement_node node "branch" ("If: " ++ extract_condition node)
          fn fp k with hpdef
        have hne_e : p.1.id ≠ fn ++ "_entry" := by rw [hid]; exact gen_id_ne_entry hgs
        have hne_x : p.1.id ≠ fn ++ "_exit" := by rw [hid]; exact gen_id_ne_exit hgs
        have hne0 : p.1.id ≠ "" := by rw [hid]; exact gen_id_ne_empty hgs
        have htyb : p.1.type = "branch" := by rw [hpdef]; rfl
        obtain ⟨hall1, hrc1⟩ := allreach_addNode_addEdge cfg e (fn ++ "_exit") cur
          p.1.id p.1 "normal" hpre1 hpre2
        obtain ⟨htiN, hceN, hcxN⟩ := addNode_counts cfg p.1.id p.1 (fn ++ "_entry")
          (fn ++ "_exit") hpre4 hne_e hne_x (by rw [htyb]; decide) (by rw [htyb]; decide)
        obtain ⟨hti1, hceE1, hcxE1⟩ := addEdge_counts (NxDiGraph.addNode cfg p.1.id p.1)
          cur p.1.id "normal" (fn ++ "_entry") (fn ++ "_exit") htiN
        have hsub1 : SubG cfg
            (NxDiGraph.addEdge (NxDiGraph.addNode cfg p.1.id p.1) cur p.1.id "normal") :=
          subg_trans (subg_addNode _ _ _) (subg_addEdge _ _ _ _)
        have hce1 := hceE1.trans hceN
        have hcx1 := hcxE1.trans hcxN
        have hmid_eq : p.1.id ++ "_merge" = fn ++ ("_stmt_" ++ (toString k ++ "_merge")) := by
          rw [hid]
          simp only [String.append_assoc]
        have hmgs : GenSuffix ("_stmt_" ++ (toString k ++ "_merge")) := Or.inl ⟨_, rfl⟩
        have hmid_e : p.1.id ++ "_merge" ≠ fn ++ "_entry" := by
          rw [hmid_eq]; exact gen_id_ne_entry hmgs
        have hmid_x : p.1.id ++ "_merge" ≠ fn ++ "_exit" := by
          rw [hmid_eq]; exact gen_id_ne_exit hmgs
        have hmid0 : p.1.id ++ "_merge" ≠ "" := by
          rw [hmid_eq]; exact gen_id_ne_empty hmgs
        cases hte : (find_then_else node.astChildren (none, none)).1 with
        | some tb =>
          have htb : astSize tb ≤ n - 1 := by
            have hmem : tb ∈ node.astChildren := by
              rcases find_then_else_fst_mem _ _ _ _ hte with h1 | h1
              · cases h1
              · exact h1
            have h2 := astSize_child_lt hmem
            omega
          obtain ⟨hsubB, hallB, hrB, hneB, htiB, hceB, hcxB⟩ :=
            ((ih (n - 1) (by omega)).1 tb p.1.id exit_id
              (NxDiGraph.addEdge (NxDiGraph.addNode cfg p.1.id p.1) cur p.1.id "normal") p.2 htb
              ⟨hall1, hrc1, hne0, hti1⟩).1
          rw [py_or_str_ne p.1.id hneB]
          set rT := process_statement_block tb p.1.id exit_id fn fp
            (NxDiGraph.addEdge (NxDiGraph.addNode cfg p.1.id p.1) cur p.1.id "normal") p.2
            with hrTd
          cases hee : (find_then_else node.astChildren (none, none)).2 with
          | some eb =>
            have heb : astSize eb ≤ n - 1 := by
              have hmem : eb ∈ node.astChildren := by
                rcases find_then_else_snd_mem _ _ _ _ hee with h1 | h1
                · cases h1
                · exact h1
              have h2 := astSize_child_lt hmem
              omega
            obtain ⟨hsubE, hallE, hrE, hneE, htiE, hceE2, hcxE2⟩ :=
              ((ih (n - 1) (by omega)).1 eb p.1.id exit_id rT.2.1 rT.2.2 heb
                ⟨hallB, reach_mono hsubB hrc1, hne0, htiB⟩).1
            rw [py_or_str_ne p.1.id hneE]
            exact if_merge_post e fn cfg _ p.1.id rT.1
              (process_statement_block eb p.1.id exit_id fn fp rT.2.1 rT.2.2).1
              (p.1.id ++ "_merge") _ _
              (subg_trans hsub1 (subg_trans hsubB hsubE)) hallE (reach_mono hsubE hrB) hrE
              (reach_mono hsubE (reach_mono hsubB hrc1)) htiE
              (by rw [hceE2, hceB, hce1]) (by rw [hcxE2, hcxB, hcx1])
              hmid_e hmid_x (by simp [create_statement_node])
              (by simp [create_statement_node]) hmid0
          | none =>
            dsimp only
            rw [py_or_str_ne p.1.id hne0]
            exact if_merge_post e fn cfg _ p.1.id rT.1 p.1.id (p.1.id ++ "_merge") _ _
              (subg_trans hsub1 hsubB) hallB hrB (reach_mono hsubB hrc1)
              (reach_mono hsubB hrc1) htiB (by rw [hceB, hce1]) (by rw [hcxB, hcx1])
              hmid_e hmid_x (by simp [create_statement_node])
              (by simp [create_statement_node]) hmid0
        | none =>
          dsimp only
          rw [py_or_str_ne p.1.id hne0]
          cases hee : (find_then_else node.astChildren (none, none)).2 with
          | some eb =>
            have heb : astSize eb ≤ n - 1 := by
              have hmem : eb ∈ node.astChildren := by
                rcases find_then_else_snd_mem _ _ _ _ hee with h1 | h1
                · cases h1
                · exact h1
              have h2 := astSize_child_lt hmem
              omega
            obtain ⟨hsubE, hallE, hrE, hneE, htiE, hceE2, hcxE2⟩ :=
              ((ih (n - 1) (by omega)).1 eb p.1.id exit_id
                (NxDiGraph.addEdge (NxDiGraph.addNode cfg p.1.id p.1) cur p.1.id "normal") p.2
                heb ⟨hall1, hrc1, hne0, hti1⟩).1
            rw [py_or_str_ne p.1.id hneE]
            exact if_merge_post e fn cfg _ p.1.id p.1.id
              (process_statement_block eb p.1.id exit_id fn fp
                (NxDiGraph.addEdge (NxDiGraph.addNode cfg p.1.id p.1) cur p.1.id "normal")
                p.2).1
              (p.1.id ++ "_merge") _ _
              (subg_trans hsub1 hsubE) hallE (reach_mono hsubE hrc1) hrE
              (reach_mono hsubE hrc1) htiE (by rw [hceE2, hce1]) (by rw [hcxE2, hcx1])
              hmid_e hmid_x (by simp [create_statement_node])
              (by simp [create_statement_node]) hmid0
          | none =>
            dsimp only
            rw [py_or_str_ne p.1.id hne0]
            exact if_merge_post e fn cfg _ p.1.id p.1.id p.1.id (p.1.id ++ "_merge") _ _
              hsub1 hall1 hrc1 hrc1 hrc1 hti1 hce1 hcx1
              hmid_e hmid_x (by simp [create_statement_node])
              (by simp [create_statement_node]) hmid0
      · -- for loop
        simp only [process_for_loop, Cfg.addNode, Cfg.addEdge]
        obtain ⟨hpre1, hpre2, hpre3, hpre4⟩ := hpre
        set p := create_statement_node node "loop" "For Loop Entry" fn fp k with hpdef
        have hlid : fn ++ "_for_" ++ toString p.2 = fn ++ ("_for_" ++ toString p.2) := by
          simp only [String.append_assoc]
        have hgs : GenSuffix ("_for_" ++ toString p.2) := Or.inr (Or.inl ⟨_, rfl⟩)
        have hne_e : fn ++ "_for_" ++ toString p.2 ≠ fn ++ "_entry" := by
          rw [hlid]; exact gen_id_ne_entry hgs
        have hne_x : fn ++ "_for_" ++ toString p.2 ≠ fn ++ "_exit" := by
          rw [hlid]; exact gen_id_ne_exit hgs
        have hne0 : fn ++ "_for_" ++ toString p.2 ≠ "" := by
          rw [hlid]; exact gen_id_ne_empty hgs
        have htyl : (({ id := fn ++ "_for_" ++ toString p.2, type := p.1.type, label := p.1.label, file := p.1.file, line := p.1.line } : CFGAttrs) : CFGAttrs).type
            = "loop" := by rw [hpdef]; rfl
        obtain ⟨hall1, hrl1⟩ := allreach_addNode_addEdge cfg e (fn ++ "_exit") cur
          (fn ++ "_for_" ++ toString p.2) ({ id := fn ++ "_for_" ++ toString p.2, type := p.1.type, label := p.1.label, file := p.1.file, line := p.1.line } : CFGAttrs)
          "normal" hpre1 hpre2
        obtain ⟨htiN, hceN, hcxN⟩ := addNode_counts cfg (fn ++ "_for_" ++ toString p.2)
          ({ id := fn ++ "_for_" ++ toString p.2, type := p.1.type, label := p.1.label, file := p.1.file, line := p.1.line } : CFGAttrs) (fn ++ "_entry") (fn ++ "_exit")
          hpre4 hne_e hne_x (by rw [htyl]; decide) (by rw [htyl]; decide)
        obtain ⟨hti1, hceE1, hcxE1⟩ := addEdge_counts
          (NxDiGraph.addNode cfg (fn ++ "_for_" ++ toString p.2)
            ({ id := fn ++ "_for_" ++ toString p.2, type := p.1.type, label := p.1.label, file := p.1.file, line := p.1.line } : CFGAttrs))
          cur (fn ++ "_for_" ++ toString p.2) "normal" (fn ++ "_entry") (fn ++ "_exit") htiN
        have hsub1 : SubG cfg
            (NxDiGraph.addEdge (NxDiGraph.addNode cfg (fn ++ "_for_" ++ toString p.2)
              ({ id := fn ++ "_for_" ++ toString p.2, type := p.1.type, label := p.1.label, file := p.1.file, line := p.1.line } : CFGAttrs))
              cur (fn ++ "_for_" ++ toString p.2) "normal") :=
          subg_trans (subg_addNode _ _ _) (subg_addEdge _ _ _ _)
        have hce1 := hceE1.trans hceN
        have hcx1 := hcxE1.trans hcxN
        have hlxid : fn ++ "_for_" ++ toString p.2 ++ "_exit"
            = fn ++ ("_for_" ++ (toString p.2 ++ "_exit")) := by
          simp only [String.append_assoc]
        have hlxgs : GenSuffix ("_for_" ++ (toString p.2 ++ "_exit")) :=
          Or.inr (Or.inl ⟨_, rfl⟩)
        have hlx_e : fn ++ "_for_" ++ toString p.2 ++ "_exit" ≠ fn ++ "_entry" := by
          rw [hlxid]; exact gen_id_ne_entry hlxgs
        have hlx_x : fn ++ "_for_" ++ toString p.2 ++ "_exit" ≠ fn ++ "_exit" := by
          rw [hlxid]; exact gen_id_ne_exit hlxgs
        have hlx0 : fn ++ "_for_" ++ toString p.2 ++ "_exit" ≠ "" := by
          rw [hlxid]; exact gen_id_ne_empty hlxgs
        cases hfc : find_first_compound node.astChildren with
        | some body =>
          dsimp only
          have hb : astSize body ≤ n - 1 := by
            have h2 := astSize_child_lt (find_first_compound_mem hfc)
            omega
          obtain ⟨hsubB, hallB, hrB, hneB, htiB, hceB, hcxB⟩ :=
            ((ih (n - 1) (by omega)).1 body (fn ++ "_for_" ++ toString p.2) exit_id
              (NxDiGraph.addEdge (NxDiGraph.addNode cfg (fn ++ "_for_" ++ toString p.2)
                ({ id := fn ++ "_for_" ++ toString p.2, type := p.1.type, label := p.1.label, file := p.1.file, line := p.1.line } : CFGAttrs))
                cur (fn ++ "_for_" ++ toString p.2) "normal") (p.2 + 1) hb
              ⟨hall1, hrl1, hne0, hti1⟩).1
          rw [py_or_str_ne (fn ++ "_for_" ++ toString p.2) hneB]
          set rB := process_statement_block body (fn ++ "_for_" ++ toString p.2) exit_id
            fn fp
            (NxDiGraph.addEdge (NxDiGraph.addNode cfg (fn ++ "_for_" ++ toString p.2)
              ({ id := fn ++ "_for_" ++ toString p.2, type := p.1.type, label := p.1.label, file := p.1.file, line := p.1.line } : CFGAttrs))
              cur (fn ++ "_for_" ++ toString p.2) "normal") (p.2 + 1) with hrBd
          obtain ⟨hall2, hr2⟩ := allreach_addEdge rB.2.1 e (fn ++ "_exit") rB.1
            (fn ++ "_for_" ++ toString p.2) "back_edge" hallB hrB
          obtain ⟨hti2, hce2, hcx2⟩ := addEdge_counts rB.2.1 rB.1
            (fn ++ "_for_" ++ toString p.2) "back_edge" (fn ++ "_entry") (fn ++ "_exit") htiB
          have hsub2 : SubG cfg (NxDiGraph.addEdge rB.2.1 rB.1
              (fn ++ "_for_" ++ toString p.2) "back_edge") :=
            subg_trans hsub1 (subg_trans hsubB (subg_addEdge _ _ _ _))
          exact loop_exit_post e fn cfg _ (fn ++ "_for_" ++ toString p.2)
            (fn ++ "_for_" ++ toString p.2 ++ "_exit") _ _
            hsub2 hall2 hr2 hti2 (by rw [hce2, hceB, hce1]) (by rw [hcx2, hcxB, hcx1])
            hlx_e hlx_x (by simp [create_statement_node]) (by simp [create_statement_node])
            hlx0
        | none =>
          dsimp only
          exact loop_exit_post e fn cfg _ (fn ++ "_for_" ++ toString p.2)
            (fn ++ "_for_" ++ toString p.2 ++ "_exit") _ _
            hsub1 hall1 hrl1 hti1 hce1 hcx1
            hlx_e hlx_x (by simp [create_statement_node]) (by simp [create_statement_node])
            hlx0
      · -- while loop
        simp only [process_while_loop, Cfg.addNode, Cfg.addEdge]
        obtain ⟨hpre1, hpre2, hpre3, hpre4⟩ := hpre
        set p := create_statement_node node "loop" "While Loop Entry" fn fp k with hpdef
        have hlid : fn ++ "_while_" ++ toString p.2 = fn ++ ("_while_" ++ toString p.2) := by
          simp only [String.append_assoc]
        have hgs : GenSuffix ("_while_" ++ toString p.2) := Or.inr (Or.inr ⟨_, rfl⟩)
        have hne_e : fn ++ "_while_" ++ toString p.2 ≠ fn ++ "_entry" := by
          rw [hlid]; exact gen_id_ne_entry hgs
        have hne_x : fn ++ "_while_" ++ toString p.2 ≠ fn ++ "_exit" := by
          rw [hlid]; exact gen_id_ne_exit hgs
        have hne0 : fn ++ "_while_" ++ toString p.2 ≠ "" := by
          rw [hlid]; exact gen_id_ne_empty hgs
        have htyl : (({ id := fn ++ "_while_" ++ toString p.2, type := p.1.type, label := p.1.label, file := p.1.file, line := p.1.line } : CFGAttrs) : CFGAttrs).type
            = "loop" := by rw [hpdef]; rfl
        obtain ⟨hall1, hrl1⟩ := allreach_addNode_addEdge cfg e (fn ++ "_exit") cur
          (fn ++ "_while_" ++ toString p.2) ({ id := fn ++ "_while_" ++ toString p.2, type := p.1.type, label := p.1.label, file := p.1.file, line := p.1.line } : CFGAttrs)
          "normal" hpre1 hpre2
        obtain ⟨htiN, hceN, hcxN⟩ := addNode_counts cfg (fn ++ "_while_" ++ toString p.2)
          ({ id := fn ++ "_while_" ++ toString p.2, type := p.1.type, label := p.1.label, file := p.1.file, line := p.1.line } : CFGAttrs) (fn ++ "_entry") (fn ++ "_exit")
          hpre4 hne_e hne_x (by rw [htyl]; decide) (by rw [htyl]; decide)
        obtain ⟨hti1, hceE1, hcxE1⟩ := addEdge_counts
          (NxDiGraph.addNode cfg (fn ++ "_while_" ++ toString p.2)
            ({ id := fn ++ "_while_" ++ toString p.2, type := p.1.type, label := p.1.label, file := p.1.file, line := p.1.line } : CFGAttrs))
          cur (fn ++ "_while_" ++ toString p.2) "normal" (fn ++ "_entry") (fn ++ "_exit") htiN
        have hsub1 : SubG cfg
            (NxDiGraph.addEdge (NxDiGraph.addNode cfg (fn ++ "_while_" ++ toString p.2)
              ({ id := fn ++ "_while_" ++ toString p.2, type := p.1.type, label := p.1.label, file := p.1.file, line := p.1.line } : CFGAttrs))
              cur (fn ++ "_while_" ++ toString p.2) "normal") :=
          subg_trans (subg_addNode _ _ _) (subg_addEdge _ _ _ _)
        have hce1 := hceE1.trans hceN
        have hcx1 := hcxE1.trans hcxN
        have hlxid : fn ++ "_while_" ++ toString p.2 ++ "_exit"
            = fn ++ ("_while_" ++ (toString p.2 ++ "_exit")) := by
          simp only [String.append_assoc]
        have hlxgs : GenSuffix ("_while_" ++ (toString p.2 ++ "_exit")) :=
          Or.inr (Or.inr ⟨_, rfl⟩)
        have hlx_e : fn ++ "_while_" ++ toString p.2 ++ "_exit" ≠ fn ++ "_entry" := by
          rw [hlxid]; exact gen_id_ne_entry hlxgs
        have hlx_x : fn ++ "_while_" ++ toString p.2 ++ "_exit" ≠ fn ++ "_exit" := by
          rw [hlxid]; exact gen_id_ne_exit hlxgs
        have hlx0 : fn ++ "_while_" ++ toString p.2 ++ "_exit" ≠ "" := by
          rw [hlxid]; exact gen_id_ne_empty hlxgs
        cases hfc : find_first_compound node.astChildren with
        | some body =>
          dsimp only
          have hb : astSize body ≤ n - 1 := by
            have h2 := astSize_child_lt (find_first_compound_mem hfc)
            omega
          obtain ⟨hsubB, hallB, hrB, hneB, htiB, hceB, hcxB⟩ :=
            ((ih (n - 1) (by omega)).1 body (fn ++ "_while_" ++ toString p.2) exit_id
              (NxDiGraph.addEdge (NxDiGraph.addNode cfg (fn ++ "_while_" ++ toString p.2)
                ({ id := fn ++ "_while_" ++ toString p.2, type := p.1.type, label := p.1.label, file := p.1.file, line := p.1.line } : CFGAttrs))
                cur (fn ++ "_while_" ++ toString p.2) "normal") (p.2 + 1) hb
              ⟨hall1, hrl1, hne0, hti1⟩).1
          rw [py_or_str_ne (fn ++ "_while_" ++ toString p.2) hneB]
          set rB := process_statement_block body (fn ++ "_while_" ++ toString p.2) exit_id
            fn fp
            (NxDiGraph.addEdge (NxDiGraph.addNode cfg (fn ++ "_while_" ++ toString p.2)
              ({ id := fn ++ "_while_" ++ toString p.2, type := p.1.type, label := p.1.label, file := p.1.file, line := p.1.line } : CFGAttrs))
              cur (fn ++ "_while_" ++ toString p.2) "normal") (p.2 + 1) with hrBd
          obtain ⟨hall2, hr2⟩ := allreach_addEdge rB.2.1 e (fn ++ "_exit") rB.1
            (fn ++ "_while_" ++ toString p.2) "back_edge" hallB hrB
          obtain ⟨hti2, hce2, hcx2⟩ := addEdge_counts rB.2.1 rB.1
            (fn ++ "_while_" ++ toString p.2) "back_edge" (fn ++ "_entry") (fn ++ "_exit") htiB
          have hsub2 : SubG cfg (NxDiGraph.addEdge rB.2.1 rB.1
              (fn ++ "_while_" ++ toString p.2) "back_edge") :=
            subg_trans hsub1 (subg_trans hsubB (subg_addEdge _ _ _ _))
          exact loop_exit_post e fn cfg _ (fn ++ "_while_" ++ toString p.2)
            (fn ++ "_while_" ++ toString p.2 ++ "_exit") _ _
            hsub2 hall2 hr2 hti2 (by rw [hce2, hceB, hce1]) (by rw [hcx2, hcxB, hcx1])
            hlx_e hlx_x (by simp [create_statement_node]) (by simp [create_statement_node])
            hlx0
        | none =>
          dsimp only
          exact loop_exit_post e fn cfg _ (fn ++ "_while_" ++ toString p.2)
            (fn ++ "_while_" ++ toString p.2 ++ "_exit") _ _
            hsub1 hall1 hrl1 hti1 hce1 hcx1
            hlx_e hlx_x (by simp [create_statement_node]) (by simp [create_statement_node])
            hlx0
    refine ⟨nodePart, ?_⟩
    intro stmts cur exit_id cfg k hn hpre
    cases stmts with
    | nil =>
      simp only [process_statements]
      exact ⟨subg_refl cfg, hpre.1, hpre.2.1, hpre.2.2.1, hpre.2.2.2, rfl, rfl⟩
    | cons stmt rest =>
      have hcons : astSizeList (stmt :: rest) = astSize stmt + astSizeList rest := rfl
      have hpos1 := astSize_pos stmt
      have hsz1 : astSize stmt ≤ n := by omega
      have hszr : astSizeList rest ≤ n - 1 := by omega
      simp only [process_statements, Cfg.addNode, Cfg.addEdge]
      by_cases h1 : stmt.astType = "if_statement"
      · rw [if_pos h1]
        obtain ⟨hsubI, hallI, hrI, hneI, htiI, hceI, hcxI⟩ :=
          (nodePart stmt cur exit_id cfg k hsz1 hpre).2.1
        have hrest := (ih (n - 1) (by omega)).2 rest
          (process_if_statement stmt cur exit_id fn fp cfg k).1 exit_id
          (process_if_statement stmt cur exit_id fn fp cfg k).2.1
          (process_if_statement stmt cur exit_id fn fp cfg k).2.2 hszr
          ⟨hallI, hrI, hneI, htiI⟩
        exact procpost_trans e fn cfg _ _ hsubI hceI hcxI hrest
      · rw [if_neg h1]
        by_cases h2 : stmt.astType = "for_statement"
        · rw [if_pos h2]
          obtain ⟨hsubI, hallI, hrI, hneI, htiI, hceI, hcxI⟩ :=
            (nodePart stmt cur exit_id cfg k hsz1 hpre).2.2.1
          have hrest := (ih (n - 1) (by omega)).2 rest
            (process_for_loop stmt cur exit_id fn fp cfg k).1 exit_id
            (process_for_loop stmt cur exit_id fn fp cfg k).2.1
            (process_for_loop stmt cur exit_id fn fp cfg k).2.2 hszr
            ⟨hallI, hrI, hneI, htiI⟩
          exact procpost_trans e fn cfg _ _ hsubI hceI hcxI hrest
        · rw [if_neg h2]
          by_cases h3 : stmt.astType = "while_statement"
          · rw [if_pos h3]
            obtain ⟨hsubI, hallI, hrI, hneI, htiI, hceI, hcxI⟩ :=
              (nodePart stmt cur exit_id cfg k hsz1 hpre).2.2.2
            have hrest := (ih (n - 1) (by omega)).2 rest
              (process_while_loop stmt cur exit_id fn fp cfg k).1 exit_id
              (process_while_loop stmt cur exit_id fn fp cfg k).2.1
              (process_while_loop stmt cur exit_id fn fp cfg k).2.2 hszr
              ⟨hallI, hrI, hneI, htiI⟩
            exact procpost_trans e fn cfg _ _ hsubI hceI hcxI hrest
          · rw [if_neg h3]
            by_cases h4 : stmt.astType = "return_statement"
            · rw [if_pos h4]
              obtain ⟨hpre1, hpre2, hpre3, hpre4⟩ := hpre
              have hid := create_statement_node_id stmt "return" "Return" fn fp k
              have hgs : GenSuffix ("_stmt_" ++ toString k) := Or.inl ⟨_, rfl⟩
              set p := create_statement_node stmt "return" "Return" fn fp k with hpdef
              have hne_e : p.1.id ≠ fn ++ "_entry" := by rw [hid]; exact gen_id_ne_entry hgs
              have hne_x : p.1.id ≠ fn ++ "_exit" := by rw [hid]; exact gen_id_ne_exit hgs
              have hne0 : p.1.id ≠ "" := by rw [hid]; exact gen_id_ne_empty hgs
              have htyp : p.1.type = "return" := by rw [hpdef]; rfl
              obtain ⟨hall1, hrp1⟩ := allreach_addNode_addEdge cfg e (fn ++ "_exit") cur
                p.1.id p.1 "normal" hpre1 hpre2
              obtain ⟨htiN, hceN, hcxN⟩ := addNode_counts cfg p.1.id p.1 (fn ++ "_entry")
                (fn ++ "_exit") hpre4 hne_e hne_x (by rw [htyp]; decide) (by rw [htyp]; decide)
              obtain ⟨hti1, hceE1, hcxE1⟩ := addEdge_counts (NxDiGraph.addNode cfg p.1.id p.1)
                cur p.1.id "normal" (fn ++ "_entry") (fn ++ "_exit") htiN
              obtain ⟨hall2, hr2⟩ := allreach_addEdge
                (NxDiGraph.addEdge (NxDiGraph.addNode cfg p.1.id p.1) cur p.1.id "normal")
                e (fn ++ "_exit") p.1.id exit_id "return" hall1 hrp1
              obtain ⟨hti2, hce2, hcx2⟩ := addEdge_counts
                (NxDiGraph.addEdge (NxDiGraph.addNode cfg p.1.id p.1) cur p.1.id "normal")
                p.1.id exit_id "return" (fn ++ "_entry") (fn ++ "_exit") hti1
              exact ⟨subg_trans (subg_trans (subg_addNode _ _ _) (subg_addEdge _ _ _ _))
                  (subg_addEdge _ p.1.id exit_id "return"),
                hall2, reach_mono (subg_addEdge _ p.1.id exit_id "return") hrp1, hne0, hti2,
                by rw [hce2, hceE1, hceN], by rw [hcx2, hcxE1, hcxN]⟩
            · rw [if_neg h4]
              obtain ⟨hpre1, hpre2, hpre3, hpre4⟩ := hpre
              have hid := create_statement_node_id stmt "statement" (get_statement_label stmt)
                fn fp k
              have hgs : GenSuffix ("_stmt_" ++ toString k) := Or.inl ⟨_, rfl⟩
              set p := create_statement_node stmt "statement" (get_statement_label stmt)
                fn fp k with hpdef
              have hne_e : p.1.id ≠ fn ++ "_entry" := by rw [hid]; exact gen_id_ne_entry hgs
              have hne_x : p.1.id ≠ fn ++ "_exit" := by rw [hid]; exact gen_id_ne_exit hgs
              have hne0 : p.1.id ≠ "" := by rw [hid]; exact gen_id_ne_empty hgs
              have htyp : p.1.type = "statement" := by rw [hpdef]; rfl
              obtain ⟨hall1, hrp1⟩ := allreach_addNode_addEdge cfg e (fn ++ "_exit") cur
                p.1.id p.1 "normal" hpre1 hpre2
              obtain ⟨htiN, hceN, hcxN⟩ := addNode_counts cfg p.1.id p.1 (fn ++ "_entry")
                (fn ++ "_exit") hpre4 hne_e hne_x (by rw [htyp]; decide) (by rw [htyp]; decide)
              obtain ⟨hti1, hceE1, hcxE1⟩ := addEdge_counts (NxDiGraph.addNode cfg p.1.id p.1)
                cur p.1.id "normal" (fn ++ "_entry") (fn ++ "_exit") htiN
              have hrest := (ih (n - 1) (by omega)).2 rest p.1.id exit_id
                (NxDiGraph.addEdge (NxDiGraph.addNode cfg p.1.id p.1) cur p.1.id "normal") p.2
                hszr ⟨hall1, hrp1, hne0, hti1⟩
              exact procpost_trans e fn cfg _ _
                (subg_trans (subg_addNode _ _ _) (subg_addEdge _ _ _ _))
                (hceE1.trans hceN) (hcxE1.trans hcxN) hrest

theorem cfg0_eq (fn : String) (a b : CFGAttrs) :
    NxDiGraph.addNode (NxDiGraph.addNode ({} : NxDiGraph CFGAttrs String) (fn ++ "_entry") a)
      (fn ++ "_exit") b
      = ⟨[(fn ++ "_entry", a), (fn ++ "_exit", b)], []⟩ := by
  have h1 : NxDiGraph.addNode ({} : NxDiGraph CFGAttrs String) (fn ++ "_entry") a
      = ⟨[(fn ++ "_entry", a)], []⟩ := rfl
  rw [h1, NxDiGraph.addNode,
    if_neg (by simp [NxDiGraph.hasNode]; exact entry_ne_exit fn)]
  rfl

/-- C1: for every function whose subtree is found in the AST and whose body
contains at least one statement, the CFG produced by `build_cfg_from_ast` has
exactly one node of type `entry`, exactly one node of type `exit`, and every
node of the graph is reachable from the entry node. -/
theorem cfg_entry_exit_unique_all_reachable (ast : ASTNode) (fn fp : String) (k : Nat)
    (fnode body : ASTNode)
    (hfind : find_function_node ast fn = some fnode)
    (hbody : find_body_node fnode = some body)
    (hne : extract_statements body ≠ []) :
    entry_count (build_cfg_from_ast ast fn fp k).1 = 1 ∧
    exit_count (build_cfg_from_ast ast fn fp k).1 = 1 ∧
    ∀ id ∈ NxDiGraph.nodeIds (build_cfg_from_ast ast fn fp k).1,
      Reach (build_cfg_from_ast ast fn fp k).1 (fn ++ "_entry") id := by
  simp only [build_cfg_from_ast, hfind, hbody, Cfg.addNode, Cfg.addEdge]
  rw [cfg0_eq]
  set en : CFGAttrs := { id := fn ++ "_entry", type := "entry", label := "Entry: " ++ fn, file := some fp, line := some (fnode.astRow + 1) } with hen
  set xn : CFGAttrs := { id := fn ++ "_exit", type := "exit", label := "Exit: " ++ fn, file := some fp, line := none } with hxn
  have hpre : ProcPre (fn ++ "_entry") fn
      (⟨[(fn ++ "_entry", en), (fn ++ "_exit", xn)], []⟩ : Cfg) (fn ++ "_entry") := by
    refine ⟨?_, Relation.ReflTransGen.refl, entry_id_ne_empty fn, ?_⟩
    · intro id hid hne2
      simp only [NxDiGraph.nodeIds, List.map_cons, List.map_nil, List.mem_cons,
        List.mem_singleton, List.not_mem_nil, or_false] at hid
      rcases hid with h | h
      · rw [h]
        exact Relation.ReflTransGen.refl
      · exact absurd h hne2
    · intro q hq
      simp only [List.mem_cons, List.not_mem_nil, or_false] at hq
      rcases hq with h | h <;> rw [h]
      · exact ⟨fun _ => rfl, fun ht => absurd ht (by simp [hen])⟩
      · exact ⟨fun ht => absurd ht (by simp [hxn]), fun _ => rfl⟩
  have hc1 : entry_count (⟨[(fn ++ "_entry", en), (fn ++ "_exit", xn)], []⟩ : Cfg) = 1 := by
    rw [entry_count, hen, hxn]
    rfl
  have hc2 : exit_count (⟨[(fn ++ "_entry", en), (fn ++ "_exit", xn)], []⟩ : Cfg) = 1 := by
    rw [exit_count, hen, hxn]
    rfl
  obtain ⟨hsubB, hallB, hrB, hneB, htiB, hceB, hcxB⟩ :=
    ((builder_inv (fn ++ "_entry") fn fp (astSize body)).1 body (fn ++ "_entry")
      (fn ++ "_exit") (⟨[(fn ++ "_entry", en), (fn ++ "_exit", xn)], []⟩ : Cfg) k
      (le_refl _) hpre).1
  set rB := process_statement_block body (fn ++ "_entry") (fn ++ "_exit") fn fp
    (⟨[(fn ++ "_entry", en), (fn ++ "_exit", xn)], []⟩ : Cfg) k with hrBd
  by_cases hclose : rB.1 ≠ "" ∧ rB.1 ≠ fn ++ "_exit"
  · rw [if_pos hclose]
    obtain ⟨hallF, hrxF⟩ := allreach_addEdge rB.2.1 (fn ++ "_entry") (fn ++ "_exit") rB.1
      (fn ++ "_exit") "normal" hallB hrB
    obtain ⟨htiF, hceF, hcxF⟩ := addEdge_counts rB.2.1 rB.1 (fn ++ "_exit") "normal"
      (fn ++ "_entry") (fn ++ "_exit") htiB
    refine ⟨?_, ?_, ?_⟩
    · rw [hceF, hceB, hc1]
    · rw [hcxF, hcxB, hc2]
    · intro id hid
      by_cases hx : id = fn ++ "_exit"
      · rw [hx]
        exact hrxF
      · exact hallF id hid hx
  · rw [if_neg hclose]
    have hr1 : rB.1 = fn ++ "_exit" := by
      rcases not_and_or.mp hclose with h | h
      · exact absurd (not_not.mp h) hneB
      · exact not_not.mp h
    refine ⟨?_, ?_, ?_⟩
    · rw [hceB, hc1]
    · rw [hcxB, hc2]
    · intro id hid
      by_cases hx : id = fn ++ "_exit"
      · rw [hx, ← hr1]
        exact hrB
      · exact hallB id hid hx

theorem cfg_entry_exit_unique_all_reachable_witness :
    entry_count (build_cfg_from_ast fooAstA "foo" "a.cc" 0).1 = 1 ∧
    exit_count (build_cfg_from_ast fooAstA "foo" "a.cc" 0).1 = 1 ∧
    Reach (build_cfg_from_ast fooAstA "foo" "a.cc" 0).1 ("foo" ++ "_entry") "foo_exit" := by
  obtain ⟨h1, h2, h3⟩ := cfg_entry_exit_unique_all_reachable fooAstA "foo" "a.cc" 0
    fooAstA fooBody
    (by simp [find_function_node, fooAstA])
    (by simp [find_body_node, find_body_node_list, fooAstA, fooBody, retStmt,
      ASTNode.astChildren, ASTNode.astType])
    (by simp [extract_statements, extract_statements_list, fooBody, retStmt, statement_types,
      ASTNode.astChildren, ASTNode.astType])
  refine ⟨h1, h2, h3 "foo_exit" ?_⟩
  show "foo_exit" ∈ NxDiGraph.nodeIds fooBuild1.1
  rw [fooBuild1_ids.1]
  decide
